import Mathlib

/-!
# CaesariumX crypto-analyst: the indicator deriver and the market-data handlers

A shallow embedding of `src/crypto-analyst/App.js`.

## Number model

JavaScript numbers are IEEE-754 binary64 doubles.  A double is carried by its exact value:
`JSNum.fin q` for a finite one, with the negative zero, the two infinities and NaN beside it.
Every arithmetic operation of the source (`+`, `-`, `*`, `/`) is the exact operation followed
by `round64`, rounding to the nearest double with ties to even, overflow to an infinity and
gradual underflow; a decimal literal of the source is the double nearest to it (`lit`).
Comparisons, `Math.abs`, `Math.max` and `Math.min` are exact.

Snapshot fields are JSON numbers.  A field holds the exact value of the finite double the
literal was parsed to, as a rational; the theorems hold for every rational, so for every
double.

## Absent fields

A field that is `undefined` or `null` in the JSON object is `none`.  `a || b` yields `b` when
`a` is absent or is the number zero, as in JavaScript.
-/

namespace CryptoAnalyst

/-! ## Numbers -/

/-- A double by its exact value: a finite double other than the negative zero, the negative
zero, one of the two infinities, or NaN.  `fin 0` is the positive zero. -/
inductive JSNum where
  | fin (q : ℚ)
  | negZero
  | posInf
  | negInf
  | nan
  deriving DecidableEq

namespace JSNum

/-- The exact value of a finite double, either zero counting as 0. -/
def toRat? (x : JSNum) : Option ℚ :=
  match x with
  | fin q => some q
  | negZero => some 0
  | _ => none

/-- The sign bit of a double that is not NaN. -/
def isNeg (x : JSNum) : Bool :=
  match x with
  | fin q => decide (q < 0)
  | negZero => true
  | negInf => true
  | _ => false

/-- The zero of the given sign. -/
def signedZero (neg : Bool) : JSNum :=
  if neg then negZero else fin 0

/-- The infinity of the given sign. -/
def signedInf (neg : Bool) : JSNum :=
  if neg then negInf else posInf

/-- The comparison `x > k` of a double with a finite double; NaN compares false. -/
def gt (x : JSNum) (k : ℚ) : Bool :=
  match x with
  | fin q => decide (q > k)
  | negZero => decide (0 > k)
  | posInf => true
  | negInf => false
  | nan => false

/-- The comparison `x < k` of a double with a finite double; NaN compares false. -/
def lt (x : JSNum) (k : ℚ) : Bool :=
  match x with
  | fin q => decide (q < k)
  | negZero => decide (0 < k)
  | posInf => false
  | negInf => true
  | nan => false

/-- The comparison `x < y` of two doubles; NaN compares false and the two zeros are equal. -/
def ltNum (x y : JSNum) : Bool :=
  match y with
  | fin q => x.lt q
  | negZero => x.lt 0
  | posInf =>
    match x with
    | posInf => false
    | nan => false
    | _ => true
  | negInf => false
  | nan => false

/-- The comparison `x > y` of two doubles. -/
def gtNum (x y : JSNum) : Bool :=
  ltNum y x

/-- The comparison `x <= y` of two doubles; NaN compares false. -/
def leNum (x y : JSNum) : Bool :=
  match x, y with
  | nan, _ => false
  | _, nan => false
  | _, _ => !(ltNum y x)

/-- The double with the negative zero replaced by the positive one: what a comparison
sees of it. -/
def norm (x : JSNum) : JSNum :=
  match x with
  | negZero => fin 0
  | _ => x

/-- A double is finite when it is neither an infinity nor NaN (`Number.isFinite`). -/
def isFinite (x : JSNum) : Bool :=
  match x with
  | fin _ => true
  | negZero => true
  | _ => false

end JSNum

/-! ## Binary64 arithmetic

Every operation returns the exact result rounded to the nearest double, ties to the double
with an even significand, as IEEE 754 prescribes and ECMAScript adopts. -/

/-- The integer nearest to `x`, the even one on a tie. -/
def roundHalfEven (x : ℚ) : ℤ :=
  if x - ⌊x⌋ < 1 / 2 then ⌊x⌋
  else if 1 / 2 < x - ⌊x⌋ then ⌊x⌋ + 1
  else if ⌊x⌋ % 2 = 0 then ⌊x⌋
  else ⌊x⌋ + 1

/-- The binary exponent of the binade of `q`, which is at least the exponent -1022 of the
subnormal numbers. -/
def binade (q : ℚ) : ℤ :=
  max (Int.log 2 |q|) (-1022)

/-- The spacing of the doubles in the binade of `q`: 52 fraction bits below its exponent. -/
def ulp (q : ℚ) : ℚ :=
  2 ^ (binade q - 52)

/-- The magnitude of `q` rounded to a multiple of the spacing of its binade. -/
def roundMag (q : ℚ) : ℚ :=
  (roundHalfEven (|q| / ulp q) : ℚ) * ulp q

/-- The exact value `q` rounded to a multiple of the spacing of its binade, with its sign. -/
def roundVal (q : ℚ) : ℚ :=
  if q < 0 then -roundMag q else roundMag q

/-- The double nearest to the exact value `q`: an infinity when the rounded magnitude reaches
2^1024, a zero of the sign of `q` when it vanishes. -/
def round64 (q : ℚ) : JSNum :=
  if q = 0 then JSNum.fin 0
  else if 2 ^ 1024 ≤ roundMag q then JSNum.signedInf (decide (q < 0))
  else if roundMag q = 0 then JSNum.signedZero (decide (q < 0))
  else JSNum.fin (roundVal q)

/-- A decimal literal of the source: the double nearest to it. -/
def lit (q : ℚ) : JSNum :=
  round64 q

/-- The unary minus. -/
def fneg (x : JSNum) : JSNum :=
  match x with
  | JSNum.fin q => if q = 0 then JSNum.negZero else JSNum.fin (-q)
  | JSNum.negZero => JSNum.fin 0
  | JSNum.posInf => JSNum.negInf
  | JSNum.negInf => JSNum.posInf
  | JSNum.nan => JSNum.nan

/-- The sum `x + y`.  Adding a zero returns the other operand; two finite operands that
cancel give the positive zero. -/
def fadd (x y : JSNum) : JSNum :=
  match x, y with
  | JSNum.nan, _ => JSNum.nan
  | _, JSNum.nan => JSNum.nan
  | JSNum.posInf, JSNum.negInf => JSNum.nan
  | JSNum.negInf, JSNum.posInf => JSNum.nan
  | JSNum.posInf, _ => JSNum.posInf
  | _, JSNum.posInf => JSNum.posInf
  | JSNum.negInf, _ => JSNum.negInf
  | _, JSNum.negInf => JSNum.negInf
  | JSNum.negZero, y => y
  | x, JSNum.negZero => x
  | JSNum.fin a, JSNum.fin b =>
    if b = 0 then JSNum.fin a
    else if a = 0 then JSNum.fin b
    else if a + b = 0 then JSNum.fin 0
    else round64 (a + b)

/-- The difference `x - y`. -/
def fsub (x y : JSNum) : JSNum :=
  fadd x (fneg y)

/-- The product `x * y`. -/
def fmul (x y : JSNum) : JSNum :=
  if x = JSNum.nan ∨ y = JSNum.nan then JSNum.nan
  else
    match x.toRat?, y.toRat? with
    | some a, some b =>
      if a * b = 0 then JSNum.signedZero (x.isNeg != y.isNeg) else round64 (a * b)
    | some a, none =>
      if a = 0 then JSNum.nan else JSNum.signedInf (x.isNeg != y.isNeg)
    | none, some b =>
      if b = 0 then JSNum.nan else JSNum.signedInf (x.isNeg != y.isNeg)
    | none, none => JSNum.signedInf (x.isNeg != y.isNeg)

/-- The quotient `x / y`. -/
def fdiv (x y : JSNum) : JSNum :=
  if x = JSNum.nan ∨ y = JSNum.nan then JSNum.nan
  else
    match x.toRat?, y.toRat? with
    | some a, some b =>
      if b = 0 then
        if a = 0 then JSNum.nan else JSNum.signedInf (x.isNeg != y.isNeg)
      else if a = 0 then JSNum.signedZero (x.isNeg != y.isNeg)
      else round64 (a / b)
    | some _, none => JSNum.signedZero (x.isNeg != y.isNeg)
    | none, some _ => JSNum.signedInf (x.isNeg != y.isNeg)
    | none, none => JSNum.nan

/-- The function `Math.max` of two arguments: NaN if either is NaN, and the positive zero is
larger than the negative one. -/
def fmax (x y : JSNum) : JSNum :=
  if x = JSNum.nan ∨ y = JSNum.nan then JSNum.nan
  else if x.ltNum y then y
  else if y.ltNum x then x
  else if x = JSNum.negZero then y
  else x

/-- The function `Math.min` of two arguments: NaN if either is NaN, and the negative zero is
smaller than the positive one. -/
def fmin (x y : JSNum) : JSNum :=
  if x = JSNum.nan ∨ y = JSNum.nan then JSNum.nan
  else if x.ltNum y then x
  else if y.ltNum x then y
  else if x = JSNum.negZero then x
  else y

/-- The operator `a || b` on two possibly absent numbers: `a` when it is truthy, else `b`. -/
def jsOr (a b : Option ℚ) : Option ℚ :=
  match a with
  | some q => if q ≠ 0 then some q else b
  | none => b

/-- The operator `a || d` whose last operand `d` is a number. -/
def jsOrNum (a : Option ℚ) (d : ℚ) : ℚ :=
  match a with
  | some q => if q ≠ 0 then q else d
  | none => d

/-- The operator `a || d` whose last operand `d` is a computed double. -/
def jsOrDouble (a : Option ℚ) (d : JSNum) : JSNum :=
  match a with
  | some q => if q ≠ 0 then JSNum.fin q else d
  | none => d

/-! ## `Number.prototype.toFixed` -/

/-- The digits of `x.toFixed(f)` for a finite `x` below 10^21 in magnitude: the sign, the
integer `n` for which `n / 10^f` is nearest to `|x|` (the larger one on a tie), and the number
of fraction digits. -/
structure Fixed where
  neg : Bool
  n : ℕ
  digits : ℕ
  deriving DecidableEq

/-- The digits `x.toFixed(f)` prints for the exact value `x` of a double. -/
def toFixed (x : ℚ) (f : ℕ) : Fixed :=
  if x < 0 then
    { neg := true, n := (⌊(-x) * 10 ^ f + 1 / 2⌋).toNat, digits := f }
  else
    { neg := false, n := (⌊x * 10 ^ f + 1 / 2⌋).toNat, digits := f }

namespace Fixed

/-- The number a `toFixed` string denotes. -/
def value (r : Fixed) : ℚ :=
  if r.neg then -((r.n : ℚ) / 10 ^ r.digits) else (r.n : ℚ) / 10 ^ r.digits

/-- The characters of a `toFixed` string: the decimal digits of `n`, padded with zeros on the
left to `digits + 1` characters, a point before the last `digits` of them, and the sign. -/
def chars (r : Fixed) : List Char :=
  let m := Nat.toDigits 10 r.n
  let m := if r.digits ≠ 0 ∧ m.length ≤ r.digits then
      List.replicate (r.digits + 1 - m.length) '0' ++ m else m
  let m := if r.digits ≠ 0 then
      m.take (m.length - r.digits) ++ '.' :: m.drop (m.length - r.digits) else m
  if r.neg then '-' :: m else m

/-- The `toFixed` string. -/
def render (r : Fixed) : String :=
  String.mk r.chars

end Fixed

/-- The string `x.toFixed(f)` returns: fixed-point digits, or, for a double that is not
finite or is at least 10^21 in magnitude, the string `Number::toString` gives that double
(exponent notation, `Infinity`, `-Infinity` or `NaN`), kept here as the double itself. -/
inductive FixedText where
  | digits (r : Fixed)
  | number (x : JSNum)
  deriving DecidableEq

/-- The method `x.toFixed(f)` on a double. -/
def toFixedNum (x : JSNum) (f : ℕ) : FixedText :=
  match x with
  | JSNum.fin q => if |q| < 10 ^ 21 then FixedText.digits (toFixed q f) else FixedText.number x
  | JSNum.negZero => FixedText.digits (toFixed 0 f)
  | _ => FixedText.number x

/-! ## The snapshot -/

/-- A per-currency quote of the coin-details response, of which the code reads `usd`. -/
structure Quote where
  usd : Option ℚ := none

/-- The `market_data` object of the coin-details response. -/
structure MarketData where
  current_price : Option Quote := none
  price_change_percentage_24h : Option ℚ := none
  total_volume : Option Quote := none
  market_cap : Option Quote := none
  high_24h : Option Quote := none
  low_24h : Option Quote := none

/-- A coin record as the upstream API returns it: the flat fields of the markets listing and
the nested `market_data` of the details endpoint.  A numeric field holds the exact value of
the finite double it was parsed to. -/
structure CoinData where
  id : String := ""
  symbol : String := ""
  name : String := ""
  current_price : Option ℚ := none
  price_change_percentage_24h : Option ℚ := none
  total_volume : Option ℚ := none
  market_cap : Option ℚ := none
  high_24h : Option ℚ := none
  low_24h : Option ℚ := none
  market_cap_rank : Option ℚ := none
  market_data : Option MarketData := none

/-- The optional chain `market_data?.field?.usd`. -/
def usdOf (m : Option MarketData) (field : MarketData → Option Quote) : Option ℚ :=
  (m.bind field).bind Quote.usd

/-! ## `generateTechnicalAnalysis`: the locals -/

def price (coinData : CoinData) : ℚ :=
  jsOrNum (jsOr coinData.current_price (usdOf coinData.market_data MarketData.current_price)) 0

def change24h (coinData : CoinData) : ℚ :=
  jsOrNum (jsOr coinData.price_change_percentage_24h
    (coinData.market_data.bind MarketData.price_change_percentage_24h)) 0

def volume (coinData : CoinData) : ℚ :=
  jsOrNum (jsOr coinData.total_volume (usdOf coinData.market_data MarketData.total_volume)) 0

def marketCap (coinData : CoinData) : ℚ :=
  jsOrNum (jsOr coinData.market_cap (usdOf coinData.market_data MarketData.market_cap)) 0

def high24h (coinData : CoinData) : JSNum :=
  jsOrDouble (jsOr coinData.high_24h (usdOf coinData.market_data MarketData.high_24h))
    (fmul (JSNum.fin (price coinData)) (lit 1.02))

def low24h (coinData : CoinData) : JSNum :=
  jsOrDouble (jsOr coinData.low_24h (usdOf coinData.market_data MarketData.low_24h))
    (fmul (JSNum.fin (price coinData)) (lit 0.98))

def marketRank (coinData : CoinData) : ℚ :=
  jsOrNum coinData.market_cap_rank 999

/-- The function `Math.abs` is exact, so the volatility is the exact absolute value. -/
def volatility (coinData : CoinData) : ℚ :=
  |change24h coinData|

def avgVolume (coinData : CoinData) : JSNum :=
  fdiv (JSNum.fin (volume coinData)) (JSNum.fin 24)

def rsi (coinData : CoinData) : JSNum :=
  fadd (JSNum.fin 50) (fmul (JSNum.fin (change24h coinData)) (lit 0.5))

def normalizedRSI (coinData : CoinData) : JSNum :=
  fmax (JSNum.fin 0) (fmin (JSNum.fin 100) (rsi coinData))

def macdLine (coinData : CoinData) : JSNum :=
  fmul (JSNum.fin (change24h coinData)) (lit 0.8)

def signalLine (coinData : CoinData) : JSNum :=
  fmul (JSNum.fin (change24h coinData)) (lit 0.6)

def macdHistogram (coinData : CoinData) : JSNum :=
  fsub (macdLine coinData) (signalLine coinData)

def supportLevels (coinData : CoinData) : List FixedText :=
  [toFixedNum (fmul (JSNum.fin (price coinData)) (lit 0.95)) 2,
   toFixedNum (fmul (JSNum.fin (price coinData)) (lit 0.90)) 2,
   toFixedNum (fmul (JSNum.fin (price coinData)) (lit 0.85)) 2]

def resistanceLevels (coinData : CoinData) : List FixedText :=
  [toFixedNum (fmul (JSNum.fin (price coinData)) (lit 1.05)) 2,
   toFixedNum (fmul (JSNum.fin (price coinData)) (lit 1.10)) 2,
   toFixedNum (fmul (JSNum.fin (price coinData)) (lit 1.15)) 2]

def ma7 (coinData : CoinData) : JSNum :=
  fmul (JSNum.fin (price coinData))
    (fadd (JSNum.fin 1) (fdiv (fmul (JSNum.fin (change24h coinData)) (lit 0.7)) (JSNum.fin 100)))

def ma25 (coinData : CoinData) : JSNum :=
  fmul (JSNum.fin (price coinData))
    (fadd (JSNum.fin 1) (fdiv (fmul (JSNum.fin (change24h coinData)) (lit 0.4)) (JSNum.fin 100)))

def ma50 (coinData : CoinData) : JSNum :=
  fmul (JSNum.fin (price coinData))
    (fadd (JSNum.fin 1) (fdiv (fmul (JSNum.fin (change24h coinData)) (lit 0.2)) (JSNum.fin 100)))

def volumeChange (coinData : CoinData) : JSNum :=
  fmul
    (fdiv
      (fsub (JSNum.fin (volume coinData)) (fmul (JSNum.fin (marketCap coinData)) (lit 0.05)))
      (fmul (JSNum.fin (marketCap coinData)) (lit 0.05)))
    (JSNum.fin 100)

def volumeSentiment (coinData : CoinData) : String :=
  if (volumeChange coinData).gt 20 then "STRONG"
  else if (volumeChange coinData).gt 0 then "MODERATE"
  else "WEAK"

def overallSentiment (coinData : CoinData) : String :=
  if change24h coinData > 10 ∧ (volumeChange coinData).gt 15 then "STRONGLY BULLISH"
  else if change24h coinData > 5 then "BULLISH"
  else if change24h coinData < -10 ∧ (volumeChange coinData).gt 15 then "STRONGLY BEARISH"
  else if change24h coinData < -5 then "BEARISH"
  else "NEUTRAL"

/-! ## `generateTechnicalAnalysis`: the returned object -/

structure PriceMetrics where
  current : ℚ
  change24h : ℚ
  high24h : JSNum
  low24h : JSNum
  volume : ℚ
  marketCap : ℚ
  marketRank : ℚ

structure Macd where
  line : FixedText
  signal : FixedText
  histogram : FixedText
  trend : String

structure MovingAverages where
  ma7 : FixedText
  ma25 : FixedText
  ma50 : FixedText
  trend : String

structure TechnicalIndicators where
  rsi : FixedText
  rsiSignal : String
  macd : Macd
  movingAverages : MovingAverages
  volatility : FixedText
  supportLevels : List FixedText
  resistanceLevels : List FixedText

structure MarketAnalysis where
  sentiment : String
  volumeStrength : String
  trendStrength : String
  marketPhase : String

structure TradingSignals where
  shortTerm : String
  mediumTerm : String
  entryPoint : FixedText
  exitPoint : FixedText
  stopLoss : FixedText

structure Analysis where
  priceMetrics : PriceMetrics
  technicalIndicators : TechnicalIndicators
  marketAnalysis : MarketAnalysis
  tradingSignals : TradingSignals

def generateTechnicalAnalysis (coinData : CoinData) : Analysis :=
  { priceMetrics :=
      { current := price coinData
        change24h := change24h coinData
        high24h := high24h coinData
        low24h := low24h coinData
        volume := volume coinData
        marketCap := marketCap coinData
        marketRank := marketRank coinData }
    technicalIndicators :=
      { rsi := toFixedNum (normalizedRSI coinData) 1
        rsiSignal :=
          if (normalizedRSI coinData).gt 70 then "OVERSOLD"
          else if (normalizedRSI coinData).lt 30 then "OVERBOUGHT"
          else "NEUTRAL"
        macd :=
          { line := toFixedNum (macdLine coinData) 4
            signal := toFixedNum (signalLine coinData) 4
            histogram := toFixedNum (macdHistogram coinData) 4
            trend := if (macdHistogram coinData).gt 0 then "BULLISH" else "BEARISH" }
        movingAverages :=
          { ma7 := toFixedNum (ma7 coinData) 2
            ma25 := toFixedNum (ma25 coinData) 2
            ma50 := toFixedNum (ma50 coinData) 2
            trend :=
              if (ma7 coinData).gtNum (ma25 coinData) ∧ (ma25 coinData).gtNum (ma50 coinData) then
                "BULLISH"
              else if (ma7 coinData).ltNum (ma25 coinData) ∧
                  (ma25 coinData).ltNum (ma50 coinData) then
                "BEARISH"
              else "MIXED" }
        volatility := toFixedNum (JSNum.fin (volatility coinData)) 1
        supportLevels := supportLevels coinData
        resistanceLevels := resistanceLevels coinData }
    marketAnalysis :=
      { sentiment := overallSentiment coinData
        volumeStrength := volumeSentiment coinData
        trendStrength :=
          if volatility coinData > 15 then "HIGH"
          else if volatility coinData > 8 then "MODERATE"
          else "LOW"
        marketPhase := if change24h coinData > 0 then "ACCUMULATION" else "DISTRIBUTION" }
    tradingSignals :=
      { shortTerm :=
          if change24h coinData > 5 then "BUY"
          else if change24h coinData < -5 then "SELL"
          else "HOLD"
        mediumTerm :=
          if (normalizedRSI coinData).gt 60 then "BULLISH"
          else if (normalizedRSI coinData).lt 40 then "BEARISH"
          else "NEUTRAL"
        entryPoint := (supportLevels coinData).get ⟨0, by simp [supportLevels]⟩
        exitPoint := (resistanceLevels coinData).get ⟨0, by simp [resistanceLevels]⟩
        stopLoss := toFixedNum (fmul (JSNum.fin (price coinData)) (lit 0.92)) 2 } }

/-! ## The `App` component: state and market-data handlers -/

/-- A lightweight coin summary of the search endpoint. -/
structure SearchCoin where
  id : String := ""
  name : String := ""
  symbol : String := ""
  market_cap_rank : Option ℚ := none
  thumb : String := ""
  large : String := ""
  deriving DecidableEq

/-- The parsed body of a search response; `coins` may be missing. -/
structure SearchData where
  coins : Option (List SearchCoin) := none

/-- What a `try` block obtains from `await fetch(url)` followed by `await res.json()`: the
parsed body, or an exception (the request was rejected, the body is not JSON, or the body is
`null` and reading a property of it throws). -/
inductive Fetched (α : Type) where
  | ok (data : α)
  | failed

/-- A request sent to the upstream API. -/
inductive Request where
  | topCoins
  | search (query : String)
  | coinDetails (coinId : String)
  deriving DecidableEq

/-- The upstream API as the handlers see it: the outcome of each request. -/
structure Network where
  topCoins : Fetched (List CoinData)
  search : String → Fetched SearchData
  coinDetails : String → Fetched CoinData

/-- The state variables of `App`, one per `useState`. -/
structure AppState where
  query : String
  topCoins : List CoinData
  searchResults : List SearchCoin
  selectedCoin : Option CoinData
  view : String
  loading : Bool
  searchLoading : Bool
  error : String

/-- The state `App` mounts with: the initial value of each `useState`. -/
def initialState : AppState :=
  { query := ""
    topCoins := []
    searchResults := []
    selectedCoin := none
    view := "dashboard"
    loading := true
    searchLoading := false
    error := "" }

/-- The characters `String.prototype.trim` strips: the ECMAScript white space and line
terminator code points. -/
def isWhiteSpace (ch : Char) : Bool :=
  let n := ch.toNat
  n = 0x09 || n = 0x0A || n = 0x0B || n = 0x0C || n = 0x0D || n = 0x20 || n = 0xA0 ||
  n = 0x1680 || (0x2000 ≤ n && n ≤ 0x200A) || n = 0x2028 || n = 0x2029 || n = 0x202F ||
  n = 0x205F || n = 0x3000 || n = 0xFEFF

/-- The method `String.prototype.trim`. -/
def trim (s : String) : String :=
  String.mk ((s.data.dropWhile isWhiteSpace).reverse.dropWhile isWhiteSpace).reverse

/-- The effect run on mount.  Returns the state once the handler has settled and the
requests it sent. -/
def fetchTopCoins (net : Network) (s : AppState) : AppState × List Request :=
  let s :=
    match net.topCoins with
    | Fetched.ok data => { s with topCoins := data }
    | Fetched.failed => { s with error := "FAILED TO LOAD MARKET DATA" }
  ({ s with loading := false }, [Request.topCoins])

/-- The search handler.  Returns the state once the handler has settled and the requests it
sent. -/
def handleSearch (net : Network) (s : AppState) : AppState × List Request :=
  if trim s.query = "" then
    ({ s with searchResults := [] }, [])
  else
    let s := { s with searchLoading := true }
    let s := { s with error := "" }
    let s :=
      match net.search s.query with
      | Fetched.ok data =>
        match data.coins with
        | some coins =>
          if coins.length > 0 then
            { s with searchResults := coins.take 5 }
          else
            { s with searchResults := [], error := "NO COINS FOUND FOR YOUR SEARCH" }
        | none =>
          { s with searchResults := [], error := "NO COINS FOUND FOR YOUR SEARCH" }
      | Fetched.failed =>
        { s with error := "SEARCH FAILED - PLEASE TRY AGAIN", searchResults := [] }
    ({ s with searchLoading := false }, [Request.search s.query])

/-! ## Wording of the specification -/

/-- A `toFixed` outcome `r` is `x` rounded to `f` decimal places: it has `f` fraction digits
and the number it denotes is within half a unit of the last place of `x`. -/
def IsRounded (r : Fixed) (x : ℚ) (f : ℕ) : Prop :=
  r.digits = f ∧ |r.value - x| ≤ 1 / (2 * 10 ^ f)

instance (r : Fixed) (x : ℚ) (f : ℕ) : Decidable (IsRounded r x f) :=
  inferInstanceAs (Decidable (_ ∧ _))

/-- The number a `toFixed` string denotes. -/
def FixedText.value (t : FixedText) : JSNum :=
  match t with
  | FixedText.digits r => JSNum.fin r.value
  | FixedText.number x => x

/-- The rational `q` is the exact value of a finite double. -/
def IsDouble (q : ℚ) : Prop :=
  round64 q = JSNum.fin q

instance (q : ℚ) : Decidable (IsDouble q) :=
  inferInstanceAs (Decidable (_ = _))

/-- The volume deviation of the specification, (volume - 0.05 * marketCap) /
(0.05 * marketCap) * 100, evaluated in binary64. -/
def specVolumeDeviation (volume marketCap : ℚ) : JSNum :=
  fmul
    (fdiv
      (fsub (JSNum.fin volume) (fmul (lit 0.05) (JSNum.fin marketCap)))
      (fmul (lit 0.05) (JSNum.fin marketCap)))
    (JSNum.fin 100)

/-- The RSI of the specification before the clamp, 50 + 0.5 * change24h, evaluated in
binary64. -/
def specRsi (change : ℚ) : JSNum :=
  fadd (JSNum.fin 50) (fmul (lit 0.5) (JSNum.fin change))

/-- The value of `clamp(x, lo, hi)` for a double `x` that is not NaN. -/
def clampValue (x : JSNum) (lo hi : ℚ) : Option ℚ :=
  if x.lt lo then some lo else if x.gt hi then some hi else x.toRat?

/-- The moving average of the specification, price * (1 + k * change24h), evaluated in
binary64. -/
def specMovingAverage (price change k : ℚ) : JSNum :=
  fmul (JSNum.fin price) (fadd (JSNum.fin 1) (fmul (lit k) (JSNum.fin change)))


/-- The string `t` is the double `x` rounded to `f` decimal places, which is how `toFixed`
reports a finite `x` below 10^21 in magnitude; any other double is reported unrounded, by
its own string. -/
def IsRoundedText (t : FixedText) (x : JSNum) (f : ℕ) : Prop :=
  match x.toRat? with
  | some q =>
    if |q| < 10 ^ 21 then ∃ r : Fixed, t = FixedText.digits r ∧ IsRounded r q f
    else t = FixedText.number x
  | none => t = FixedText.number x
/-! ## Sample inputs -/

/-- A snapshot of the markets listing: price 100, up 12 percent, volume 1000, market
capitalisation 10000. -/
def risingCoin : CoinData :=
  { id := "bitcoin", symbol := "btc", name := "Bitcoin"
    current_price := some 100
    price_change_percentage_24h := some 12
    total_volume := some 1000
    market_cap := some 10000 }

/-- A snapshot of the markets listing: price 40, down 12 percent, volume 600, market
capitalisation 10000. -/
def fallingCoin : CoinData :=
  { id := "ethereum", symbol := "eth", name := "Ethereum"
    current_price := some 40
    price_change_percentage_24h := some (-12)
    total_volume := some 600
    market_cap := some 10000 }

/-- A coin-details record: every figure sits under `market_data`, the price is 100 and
the 24h change is zero. -/
def detailsCoin : CoinData :=
  { id := "tether", symbol := "usdt", name := "Tether"
    market_data := some
      { current_price := some { usd := some 100 }
        total_volume := some { usd := some 520 }
        market_cap := some { usd := some 10000 } } }

/-- A record without any market capitalisation, trading at volume 5 and up 12 percent. -/
def uncappedCoin : CoinData :=
  { id := "newcoin", symbol := "new", name := "New Coin"
    current_price := some 2
    price_change_percentage_24h := some 12
    total_volume := some 5 }

/-- A snapshot up by exactly 5 percent. -/
def edgeCoin : CoinData :=
  { id := "solana", symbol := "sol", name := "Solana"
    current_price := some 20
    price_change_percentage_24h := some 5
    total_volume := some 100
    market_cap := some 1000 }

/-- A network on which every request fails. -/
def deadNetwork : Network :=
  { topCoins := Fetched.failed
    search := fun _ => Fetched.failed
    coinDetails := fun _ => Fetched.failed }

/-- A dashboard holding two earlier search results, an error message and a blank query of
two spaces and a tab. -/
def blankQueryState : AppState :=
  { initialState with
    query := "  \t"
    searchResults := [{ id := "bitcoin", name := "Bitcoin", symbol := "btc" },
                      { id := "bitcoin-cash", name := "Bitcoin Cash", symbol := "bch" }]
    loading := false
    error := "NO COINS FOUND FOR YOUR SEARCH" }

/-- Seven coin summaries, in the order the search endpoint lists them. -/
def sevenCoins : List SearchCoin :=
  [{ id := "bitcoin", name := "Bitcoin", symbol := "btc" },
   { id := "bitcoin-cash", name := "Bitcoin Cash", symbol := "bch" },
   { id := "bitcoin-gold", name := "Bitcoin Gold", symbol := "btg" },
   { id := "bitcoin-sv", name := "Bitcoin SV", symbol := "bsv" },
   { id := "wrapped-bitcoin", name := "Wrapped Bitcoin", symbol := "wbtc" },
   { id := "bitcoin-diamond", name := "Bitcoin Diamond", symbol := "bcd" },
   { id := "bitcoin-2", name := "Bitcoin 2", symbol := "btc2" }]

/-- A network whose search endpoint answers every query with the seven summaries. -/
def sevenCoinNetwork : Network :=
  { topCoins := Fetched.ok []
    search := fun _ => Fetched.ok { coins := some sevenCoins }
    coinDetails := fun _ => Fetched.failed }

/-- A dashboard whose search box holds the query `bit`, with an error left on screen. -/
def typedQueryState : AppState :=
  { initialState with
    query := "bit"
    loading := false
    error := "SEARCH FAILED - PLEASE TRY AGAIN" }


/-- A snapshot of the markets listing up 12 percent whose volume, the double nearest to
5.2325, sits 15 percent above the baseline of a market capitalisation of 91. -/
def thresholdCoin : CoinData :=
  { id := "cardano", symbol := "ada", name := "Cardano"
    current_price := some 100
    price_change_percentage_24h := some 12
    total_volume := some (2945635631277015 / 562949953421312)
    market_cap := some 91 }

/-- A snapshot priced 100 and up by the double nearest to 1e-16 percent. -/
def driftCoin : CoinData :=
  { id := "stellar", symbol := "xlm", name := "Stellar"
    current_price := some 100
    price_change_percentage_24h := some (2028240960365167 / 2 ^ 104)
    total_volume := some 500
    market_cap := some 10000 }

/-- A snapshot priced at the smallest positive double, 2^-1074. -/
def tinyCoin : CoinData :=
  { id := "dust", symbol := "dst", name := "Dust"
    current_price := some (1 / 2 ^ 1074)
    price_change_percentage_24h := some 1
    total_volume := some 1
    market_cap := some 1 }

/-- A snapshot up by the double nearest to 0.1 percent. -/
def tenthCoin : CoinData :=
  { id := "litecoin", symbol := "ltc", name := "Litecoin"
    current_price := some 80
    price_change_percentage_24h := some (3602879701896397 / 36028797018963968)
    total_volume := some 300
    market_cap := some 6000 }

/-- A snapshot priced at the largest finite double, 2^1024 - 2^971. -/
def hugeCoin : CoinData :=
  { id := "hyper", symbol := "hyp", name := "Hyper"
    current_price := some (9007199254740991 * 2 ^ 971)
    price_change_percentage_24h := some 1
    total_volume := some 1
    market_cap := some 1 }

/-- A snapshot whose volume, the double nearest to 5.46, sits 20 percent above the baseline
of a market capitalisation of 91. -/
def busyCoin : CoinData :=
  { id := "ripple", symbol := "xrp", name := "XRP"
    current_price := some 1
    price_change_percentage_24h := some 1
    total_volume := some (6147413491360727 / 1125899906842624)
    market_cap := some 91 }

/-- A snapshot priced 10 and up 8.5 percent. -/
def steadyCoin : CoinData :=
  { id := "polkadot", symbol := "dot", name := "Polkadot"
    current_price := some 10
    price_change_percentage_24h := some (17 / 2)
    total_volume := some 400
    market_cap := some 9000 }

/-- A snapshot up by the smallest positive double, 2^-1074 percent. -/
def faintCoin : CoinData :=
  { id := "dogecoin", symbol := "doge", name := "Dogecoin"
    current_price := some 100
    price_change_percentage_24h := some (1 / 2 ^ 1074)
    total_volume := some 700
    market_cap := some 10000 }
/-! ## Rounding to the nearest integer -/

theorem abs_roundHalfEven_sub_le (x : ℚ) : |(roundHalfEven x : ℚ) - x| ≤ 1 / 2 := by
  have h1 := Int.floor_le x
  have h2 := Int.lt_floor_add_one x
  unfold roundHalfEven
  split_ifs with a b c
  · rw [abs_le]
    constructor <;> linarith
  · push_cast
    rw [abs_le]
    constructor <;> linarith
  · rw [abs_le]
    constructor <;> linarith
  · push_cast
    rw [abs_le]
    constructor <;> linarith

theorem roundHalfEven_eq_of_abs_lt (x : ℚ) (n : ℤ) (h : |x - n| < 1 / 2) :
    roundHalfEven x = n := by
  rw [abs_lt] at h
  obtain ⟨h1, h2⟩ := h
  by_cases hx : (n : ℚ) ≤ x
  · have hf : ⌊x⌋ = n := by
      rw [Int.floor_eq_iff]
      constructor <;> linarith
    unfold roundHalfEven
    rw [hf, if_pos (by linarith)]
  · have hx2 : x < n := not_le.mp hx
    have hf : ⌊x⌋ = n - 1 := by
      rw [Int.floor_eq_iff]
      push_cast
      constructor <;> linarith
    unfold roundHalfEven
    rw [hf]
    push_cast
    rw [if_neg (by linarith), if_pos (by linarith)]
    ring

theorem roundHalfEven_intCast (n : ℤ) : roundHalfEven (n : ℚ) = n :=
  roundHalfEven_eq_of_abs_lt _ n (by simp)

theorem roundHalfEven_mono {x y : ℚ} (h : x ≤ y) : roundHalfEven x ≤ roundHalfEven y := by
  have hf : ⌊x⌋ ≤ ⌊y⌋ := Int.floor_mono h
  rcases lt_or_eq_of_le hf with hlt | heq
  · have hx : roundHalfEven x ≤ ⌊x⌋ + 1 := by
      unfold roundHalfEven
      split_ifs <;> omega
    have hy : ⌊y⌋ ≤ roundHalfEven y := by
      unfold roundHalfEven
      split_ifs <;> omega
    omega
  · unfold roundHalfEven
    rw [heq]
    have hxy : x - (⌊y⌋ : ℚ) ≤ y - (⌊y⌋ : ℚ) := by linarith
    split_ifs <;> first | omega | (exfalso; linarith)

theorem roundHalfEven_nonneg {x : ℚ} (h : 0 ≤ x) : 0 ≤ roundHalfEven x := by
  have := roundHalfEven_mono h
  rwa [show ((0 : ℚ)) = ((0 : ℤ) : ℚ) by simp, roundHalfEven_intCast] at this

/-! ## The binade, the spacing and the rounded magnitude -/

theorem two_zpow_pos (e : ℤ) : (0 : ℚ) < 2 ^ e :=
  zpow_pos (by norm_num) e

theorem two_zpow_le {a b : ℤ} (h : a ≤ b) : (2 : ℚ) ^ a ≤ 2 ^ b :=
  zpow_le_zpow_right₀ (by norm_num) h

theorem two_zpow_succ (e : ℤ) : (2 : ℚ) ^ (e + 1) = 2 * 2 ^ e := by
  rw [zpow_add_one₀ (by norm_num)]
  ring

theorem binade_ge (q : ℚ) : -1022 ≤ binade q :=
  le_max_right _ _

theorem ulp_pos (q : ℚ) : 0 < ulp q :=
  two_zpow_pos _

theorem binade_abs (q : ℚ) : binade |q| = binade q := by
  unfold binade
  rw [abs_abs]

theorem binade_neg (q : ℚ) : binade (-q) = binade q := by
  unfold binade
  rw [abs_neg]

theorem ulp_neg (q : ℚ) : ulp (-q) = ulp q := by
  unfold ulp
  rw [binade_neg]

theorem roundMag_neg (q : ℚ) : roundMag (-q) = roundMag q := by
  unfold roundMag
  rw [ulp_neg, abs_neg]

theorem log_two_eq {q : ℚ} {e : ℤ} (hq : 0 < q) (hlo : (2 : ℚ) ^ e ≤ q)
    (hhi : q < 2 ^ (e + 1)) : Int.log 2 q = e := by
  have h1 : e ≤ Int.log 2 q := by
    rw [← Int.zpow_le_iff_le_log (by norm_num) hq]
    exact_mod_cast hlo
  have h2 : Int.log 2 q < e + 1 := by
    rw [← Int.lt_zpow_iff_log_lt (by norm_num) hq]
    exact_mod_cast hhi
  omega

theorem binade_eq {q : ℚ} {e : ℤ} (hq : 0 < q) (hlo : (2 : ℚ) ^ e ≤ q)
    (hhi : q < 2 ^ (e + 1)) (he : -1022 ≤ e) : binade q = e := by
  unfold binade
  rw [abs_of_pos hq, log_two_eq hq hlo hhi]
  exact max_eq_left he

theorem binade_eq_of_lt {q : ℚ} (hq : 0 < q) (h : q < 2 ^ (-1022 : ℤ)) :
    binade q = -1022 := by
  unfold binade
  rw [abs_of_pos hq]
  apply max_eq_right
  have h2 : Int.log 2 q < -1022 := by
    rw [← Int.lt_zpow_iff_log_lt (by norm_num) hq]
    exact_mod_cast h
  omega

theorem lt_two_zpow_binade_succ {q : ℚ} (hq : 0 < q) : q < 2 ^ (binade q + 1) := by
  have h1 : q < ((2 : ℕ) : ℚ) ^ (Int.log 2 q + 1) := Int.lt_zpow_succ_log_self (by norm_num) q
  have h2 : Int.log 2 q + 1 ≤ binade q + 1 := by
    unfold binade
    rw [abs_of_pos hq]
    have := le_max_left (Int.log 2 q) (-1022)
    omega
  calc q < (2 : ℚ) ^ (Int.log 2 q + 1) := by exact_mod_cast h1
    _ ≤ 2 ^ (binade q + 1) := two_zpow_le h2

theorem two_zpow_binade_le {q : ℚ} (hq : 0 < q) (h : (2 : ℚ) ^ (-1022 : ℤ) ≤ q) :
    2 ^ binade q ≤ q := by
  have h0 : -1022 ≤ Int.log 2 q := by
    rw [← Int.zpow_le_iff_le_log (by norm_num) hq]
    exact_mod_cast h
  have hb : binade q = Int.log 2 q := by
    unfold binade
    rw [abs_of_pos hq]
    exact max_eq_left h0
  rw [hb]
  have := Int.zpow_log_le_self (b := 2) (by norm_num) hq
  exact_mod_cast this

theorem binade_mono {x y : ℚ} (hx : 0 < x) (h : x ≤ y) : binade x ≤ binade y := by
  unfold binade
  rw [abs_of_pos hx, abs_of_pos (lt_of_lt_of_le hx h)]
  exact max_le_max (Int.log_mono_right hx h) le_rfl

theorem roundMag_nonneg (q : ℚ) : 0 ≤ roundMag q := by
  unfold roundMag
  have h : 0 ≤ roundHalfEven (|q| / ulp q) :=
    roundHalfEven_nonneg (div_nonneg (abs_nonneg q) (ulp_pos q).le)
  have h2 : (0 : ℚ) ≤ (roundHalfEven (|q| / ulp q) : ℚ) := by exact_mod_cast h
  exact mul_nonneg h2 (ulp_pos q).le

theorem roundMag_zero : roundMag 0 = 0 := by
  unfold roundMag
  rw [abs_zero, zero_div]
  have : roundHalfEven 0 = 0 := by
    have := roundHalfEven_intCast 0
    simpa using this
  rw [this]
  simp

theorem abs_roundMag_sub_le (q : ℚ) : |roundMag q - (|q|)| ≤ ulp q / 2 := by
  have hu := ulp_pos q
  have h := abs_roundHalfEven_sub_le (|q| / ulp q)
  have e : roundMag q - |q| = ((roundHalfEven (|q| / ulp q) : ℚ) - |q| / ulp q) * ulp q := by
    unfold roundMag
    field_simp
  rw [e, abs_mul, abs_of_pos hu]
  nlinarith [abs_nonneg ((roundHalfEven (|q| / ulp q) : ℚ) - |q| / ulp q)]

theorem two_zpow_binade_le_of_lt {q : ℚ} (hq : 0 < q) (h : -1022 < binade q) :
    2 ^ binade q ≤ q := by
  have hb : binade q = Int.log 2 q := by
    unfold binade at h ⊢
    rw [abs_of_pos hq] at h ⊢
    rcases le_total (Int.log 2 q) (-1022) with h1 | h1
    · rw [max_eq_right h1] at h
      omega
    · exact max_eq_left h1
  rw [hb]
  have := Int.zpow_log_le_self (b := 2) (by norm_num) hq
  exact_mod_cast this

theorem two_zpow_split (e : ℤ) (k : ℕ) : (2 : ℚ) ^ (e + k) = ((2 ^ k : ℤ) : ℚ) * 2 ^ e := by
  rw [zpow_add₀ (by norm_num)]
  push_cast
  rw [zpow_natCast]
  ring

theorem roundMag_le_two_zpow {q : ℚ} (hq : 0 < q) : roundMag q ≤ 2 ^ (binade q + 1) := by
  have hu := ulp_pos q
  have h1 := lt_two_zpow_binade_succ hq
  have e1 : (2 : ℚ) ^ (binade q + 1) = ((2 ^ 53 : ℤ) : ℚ) * ulp q := by
    unfold ulp
    rw [← two_zpow_split (binade q - 52) 53]
    congr 1
    push_cast
    ring
  have h2 : q / ulp q ≤ ((2 ^ 53 : ℤ) : ℚ) := by
    rw [div_le_iff₀ hu, ← e1]
    exact h1.le
  have h3 := roundHalfEven_mono h2
  rw [roundHalfEven_intCast] at h3
  have h4 : (roundHalfEven (q / ulp q) : ℚ) ≤ ((2 ^ 53 : ℤ) : ℚ) := by exact_mod_cast h3
  unfold roundMag
  rw [abs_of_pos hq, e1]
  exact mul_le_mul_of_nonneg_right h4 hu.le

theorem two_zpow_le_roundMag {q : ℚ} (hq : 0 < q) (h : 2 ^ binade q ≤ q) :
    2 ^ binade q ≤ roundMag q := by
  have hu := ulp_pos q
  have e1 : (2 : ℚ) ^ binade q = ((2 ^ 52 : ℤ) : ℚ) * ulp q := by
    unfold ulp
    rw [← two_zpow_split (binade q - 52) 52]
    congr 1
    push_cast
    ring
  have h2 : ((2 ^ 52 : ℤ) : ℚ) ≤ q / ulp q := by
    rw [le_div_iff₀ hu, ← e1]
    exact h
  have h3 := roundHalfEven_mono h2
  rw [roundHalfEven_intCast] at h3
  have h4 : ((2 ^ 52 : ℤ) : ℚ) ≤ (roundHalfEven (q / ulp q) : ℚ) := by exact_mod_cast h3
  unfold roundMag
  rw [abs_of_pos hq, e1]
  exact mul_le_mul_of_nonneg_right h4 hu.le

theorem roundMag_mono {x y : ℚ} (hx : 0 < x) (h : x ≤ y) : roundMag x ≤ roundMag y := by
  have hy : 0 < y := lt_of_lt_of_le hx h
  rcases lt_or_eq_of_le (binade_mono hx h) with hlt | heq
  · have hb : -1022 < binade y := lt_of_le_of_lt (binade_ge x) hlt
    calc roundMag x ≤ 2 ^ (binade x + 1) := roundMag_le_two_zpow hx
      _ ≤ 2 ^ binade y := two_zpow_le (by omega)
      _ ≤ roundMag y := two_zpow_le_roundMag hy (two_zpow_binade_le_of_lt hy hb)
  · have hu : ulp x = ulp y := by
      unfold ulp
      rw [heq]
    unfold roundMag
    rw [hu, abs_of_pos hx, abs_of_pos hy]
    have h2 : x / ulp y ≤ y / ulp y := div_le_div_of_nonneg_right h (ulp_pos y).le
    have h3 : (roundHalfEven (x / ulp y) : ℚ) ≤ (roundHalfEven (y / ulp y) : ℚ) := by
      exact_mod_cast roundHalfEven_mono h2
    exact mul_le_mul_of_nonneg_right h3 (ulp_pos y).le

theorem roundVal_zero : roundVal 0 = 0 := by
  unfold roundVal
  rw [if_neg (lt_irrefl 0), roundMag_zero]

theorem roundVal_nonneg {q : ℚ} (h : 0 ≤ q) : 0 ≤ roundVal q := by
  unfold roundVal
  rw [if_neg (not_lt.mpr h)]
  exact roundMag_nonneg q

theorem roundVal_nonpos {q : ℚ} (h : q ≤ 0) : roundVal q ≤ 0 := by
  rcases lt_or_eq_of_le h with h1 | h1
  · unfold roundVal
    rw [if_pos h1]
    linarith [roundMag_nonneg q]
  · rw [h1, roundVal_zero]

theorem roundVal_neg (q : ℚ) : roundVal (-q) = -roundVal q := by
  rcases lt_trichotomy q 0 with h | h | h
  · unfold roundVal
    rw [if_pos h, if_neg (by linarith), roundMag_neg]
    ring
  · rw [h, neg_zero, roundVal_zero, neg_zero]
  · unfold roundVal
    rw [if_pos (by linarith), if_neg (by linarith), roundMag_neg]

theorem roundVal_mono {x y : ℚ} (h : x ≤ y) : roundVal x ≤ roundVal y := by
  rcases lt_trichotomy x 0 with hx | hx | hx
  · rcases lt_or_le y 0 with hy | hy
    · have h1 : roundMag (-y) ≤ roundMag (-x) := roundMag_mono (by linarith) (by linarith)
      rw [roundMag_neg, roundMag_neg] at h1
      unfold roundVal
      rw [if_pos hx, if_pos hy]
      linarith
    · exact le_trans (roundVal_nonpos hx.le) (roundVal_nonneg hy)
  · rw [hx, roundVal_zero]
    exact roundVal_nonneg (by linarith)
  · have hy : 0 < y := lt_of_lt_of_le hx h
    unfold roundVal
    rw [if_neg (by linarith), if_neg (by linarith)]
    exact roundMag_mono hx h

/-- What `round64` returns, by the value rounded without regard to the range. -/
theorem round64_spec (q : ℚ) :
    (round64 q = JSNum.posInf ∧ 2 ^ 1024 ≤ roundVal q) ∨
    (round64 q = JSNum.negInf ∧ roundVal q ≤ -2 ^ 1024) ∨
    (round64 q = JSNum.negZero ∧ roundVal q = 0 ∧ q < 0) ∨
    (round64 q = JSNum.fin (roundVal q) ∧ |roundVal q| < 2 ^ 1024) := by
  by_cases h0 : q = 0
  · right; right; right
    rw [h0, roundVal_zero]
    constructor
    · simp [round64]
    · simp
  · by_cases hbig : (2 : ℚ) ^ 1024 ≤ roundMag q
    · by_cases hneg : q < 0
      · right; left
        constructor
        · simp [round64, h0, hbig, hneg, JSNum.signedInf]
        · unfold roundVal
          rw [if_pos hneg]
          linarith
      · left
        constructor
        · simp [round64, h0, hbig, hneg, JSNum.signedInf]
        · unfold roundVal
          rw [if_neg hneg]
          exact hbig
    · by_cases hz : roundMag q = 0
      · by_cases hneg : q < 0
        · right; right; left
          refine ⟨?_, ?_, hneg⟩
          · simp [round64, h0, hbig, hz, hneg, JSNum.signedZero]
          · unfold roundVal
            rw [if_pos hneg, hz, neg_zero]
        · right; right; right
          have hv : roundVal q = 0 := by
            unfold roundVal
            rw [if_neg hneg, hz]
          constructor
          · simp [round64, h0, hz, hneg, JSNum.signedZero, hv]
          · rw [hv]
            simp
      · right; right; right
        constructor
        · simp [round64, h0, hbig, hz]
        · have hlt : roundMag q < 2 ^ 1024 := not_le.mp hbig
          have hnn := roundMag_nonneg q
          unfold roundVal
          split_ifs
          · rw [abs_neg, abs_of_nonneg hnn]
            exact hlt
          · rw [abs_of_nonneg hnn]
            exact hlt

theorem round64_ne_nan (q : ℚ) : round64 q ≠ JSNum.nan := by
  rcases round64_spec q with h | h | h | h <;> rw [h.1] <;> simp

/-- Rounding is monotone. -/
theorem round64_mono {x y : ℚ} (h : x ≤ y) : (round64 x).leNum (round64 y) = true := by
  have hv := roundVal_mono h
  have hp : (0 : ℚ) < 2 ^ 1024 := by positivity
  have hx := round64_spec x
  have hy := round64_spec y
  generalize (2 : ℚ) ^ 1024 = M at hx hy hp
  rcases hx with hx | hx | hx | hx <;> rcases hy with hy | hy | hy | hy <;>
    rw [hx.1, hy.1] <;>
    simp [JSNum.leNum, JSNum.ltNum, JSNum.lt] <;>
    first
      | (have h1 := hx.2; have h2 := hy.2; rw [abs_lt] at h1 h2; linarith [h1.1, h1.2, h2.1, h2.2])
      | (have h1 := hx.2; have h2 := hy.2; rw [abs_lt] at h1; linarith [h1.1, h1.2, h2.1])
      | (have h1 := hx.2; have h2 := hy.2; rw [abs_lt] at h2; linarith [h2.1, h2.2, h1.1])
      | (have h1 := hx.2; have h2 := hy.2; rw [abs_lt] at h1; linarith [h1.1, h1.2])
      | (have h1 := hx.2; have h2 := hy.2; rw [abs_lt] at h2; linarith [h2.1, h2.2])
      | (have h1 := hx.2; have h2 := hy.2; linarith [h1.1])
      | (have h1 := hx.2; have h2 := hy.2; linarith [h2.1])
      | (have h1 := hx.2; have h2 := hy.2; linarith)

/-! ## Evaluating `round64` -/

theorem two_zpow_lt_pow {e : ℤ} (h : e ≤ 1023) : (2 : ℚ) ^ e < 2 ^ 1024 := by
  have h1 : (2 : ℚ) ^ e ≤ 2 ^ ((1023 : ℕ) : ℤ) := two_zpow_le (by simpa using h)
  rw [zpow_natCast] at h1
  have h2 : (2 : ℚ) ^ 1023 < 2 ^ 1024 := pow_lt_pow_right₀ (by norm_num) (by norm_num)
  exact lt_of_le_of_lt h1 h2

theorem roundMag_eq {q : ℚ} {e n : ℤ} (hq : 0 < q) (hb : binade q = e)
    (hn : |q / 2 ^ (e - 52) - n| < 1 / 2) : roundMag q = n * 2 ^ (e - 52) := by
  unfold roundMag ulp
  rw [hb, abs_of_pos hq, roundHalfEven_eq_of_abs_lt _ n hn]

/-- A positive value in the binade of exponent `e` rounds to `n * 2^(e-52)` when `n` is the
integer nearest to its quotient by the spacing and no tie occurs. -/
theorem round64_eq_fin {q : ℚ} {e n : ℤ} (hq : 0 < q) (hlo : (2 : ℚ) ^ e ≤ q)
    (hhi : q < 2 ^ (e + 1)) (he : -1022 ≤ e) (he2 : e ≤ 1022)
    (hn : |q / 2 ^ (e - 52) - n| < 1 / 2) :
    round64 q = JSNum.fin (n * 2 ^ (e - 52)) := by
  have hb := binade_eq hq hlo hhi he
  have hm := roundMag_eq hq hb hn
  have hfin : (n : ℚ) * 2 ^ (e - 52) < 2 ^ 1024 := by
    rw [← hm]
    have h1 := roundMag_le_two_zpow hq
    rw [hb] at h1
    exact lt_of_le_of_lt h1 (two_zpow_lt_pow (by omega))
  have hpos : 0 < roundMag q := by
    have := two_zpow_le_roundMag hq (by rw [hb]; exact hlo)
    exact lt_of_lt_of_le (two_zpow_pos _) this
  have hv : roundVal q = roundMag q := by
    unfold roundVal
    rw [if_neg (not_lt.mpr hq.le)]
  unfold round64
  rw [if_neg (ne_of_gt hq), if_neg (not_le.mpr (by rw [hm]; exact hfin)),
    if_neg (ne_of_gt hpos), hv, hm]

/-- The negative counterpart of `round64_eq_fin`. -/
theorem round64_neg_eq_fin {q : ℚ} {e n : ℤ} (hq : 0 < q) (hlo : (2 : ℚ) ^ e ≤ q)
    (hhi : q < 2 ^ (e + 1)) (he : -1022 ≤ e) (he2 : e ≤ 1022)
    (hn : |q / 2 ^ (e - 52) - n| < 1 / 2) :
    round64 (-q) = JSNum.fin (-(n * 2 ^ (e - 52))) := by
  have hb := binade_eq hq hlo hhi he
  have hm := roundMag_eq hq hb hn
  have hfin : (n : ℚ) * 2 ^ (e - 52) < 2 ^ 1024 := by
    rw [← hm]
    have h1 := roundMag_le_two_zpow hq
    rw [hb] at h1
    exact lt_of_le_of_lt h1 (two_zpow_lt_pow (by omega))
  have hpos : 0 < roundMag q := by
    have := two_zpow_le_roundMag hq (by rw [hb]; exact hlo)
    exact lt_of_lt_of_le (two_zpow_pos _) this
  have hv : roundVal (-q) = -roundMag q := by
    rw [roundVal_neg]
    unfold roundVal
    rw [if_neg (not_lt.mpr hq.le)]
  unfold round64
  rw [if_neg (by linarith : ¬ -q = 0), roundMag_neg,
    if_neg (not_le.mpr (by rw [hm]; exact hfin)), if_neg (ne_of_gt hpos), hv, hm]

/-- A positive value below the normal range rounds to a multiple of 2^-1074. -/
theorem round64_eq_fin_subnormal {q : ℚ} {n : ℤ} (hq : 0 < q) (hhi : q < 2 ^ (-1022 : ℤ))
    (hn : |q / 2 ^ (-1074 : ℤ) - n| < 1 / 2) (hn0 : n ≠ 0) :
    round64 q = JSNum.fin (n * 2 ^ (-1074 : ℤ)) := by
  have hb := binade_eq_of_lt hq hhi
  have hm : roundMag q = n * 2 ^ (-1074 : ℤ) := by
    have := roundMag_eq (e := -1022) (n := n) hq hb (by norm_num at hn ⊢; exact hn)
    rw [this]
    norm_num
  have hne : roundMag q ≠ 0 := by
    rw [hm]
    have : (n : ℚ) ≠ 0 := by exact_mod_cast hn0
    exact mul_ne_zero this (ne_of_gt (two_zpow_pos _))
  have hlt : roundMag q < 2 ^ 1024 := by
    have h1 := roundMag_le_two_zpow hq
    rw [hb] at h1
    exact lt_of_le_of_lt h1 (two_zpow_lt_pow (by norm_num))
  have hv : roundVal q = roundMag q := by
    unfold roundVal
    rw [if_neg (not_lt.mpr hq.le)]
  unfold round64
  rw [if_neg (ne_of_gt hq), if_neg (not_le.mpr hlt), if_neg hne, hv, hm]

theorem round64_one : round64 1 = JSNum.fin 1 := by
  have h := round64_eq_fin (q := 1) (e := 0) (n := 2 ^ 52) (by norm_num) (by norm_num)
    (by norm_num) (by norm_num) (by norm_num) (by norm_num)
  rw [h]
  norm_num

/-! ## The order of the doubles -/

namespace JSNum

theorem leNum_refl {x : JSNum} (h : x ≠ nan) : x.leNum x = true := by
  cases x <;> simp [leNum, ltNum, lt] at h ⊢

theorem ltNum_eq_false_of_leNum {x y : JSNum} (h : x.leNum y = true) : y.ltNum x = false := by
  cases x <;> cases y <;> simp [leNum, ltNum, lt] at h ⊢ <;> exact h

theorem ne_nan_of_leNum {x y : JSNum} (h : x.leNum y = true) : x ≠ nan ∧ y ≠ nan := by
  cases x <;> cases y <;> simp [leNum] at h ⊢

theorem leNum_norm (x y : JSNum) : (norm x).leNum (norm y) = x.leNum y := by
  cases x <;> cases y <;> simp [leNum, ltNum, lt, norm]

theorem norm_ne_nan {x : JSNum} (h : x ≠ nan) : norm x ≠ nan := by
  cases x <;> simp [norm] at h ⊢

theorem ne_nan_of_norm_eq {x y : JSNum} (h : norm x = norm y) (hy : y ≠ nan) : x ≠ nan := by
  cases x <;> cases y <;> simp [norm] at h hy ⊢

theorem norm_signedZero (s : Bool) : norm (signedZero s) = fin 0 := by
  cases s <;> simp [signedZero, norm]

theorem leNum_posInf {x : JSNum} (h : x ≠ nan) : x.leNum posInf = true := by
  cases x <;> simp [leNum, ltNum, lt] at h ⊢

theorem negInf_leNum {x : JSNum} (h : x ≠ nan) : negInf.leNum x = true := by
  cases x <;> simp [leNum, ltNum, lt] at h ⊢

/-- A double that is not NaN is finite with a value, or one of the infinities. -/
theorem classify {x : JSNum} (h : x ≠ nan) :
    (∃ a, x.toRat? = some a) ∨ x = posInf ∨ x = negInf := by
  cases x <;> simp [toRat?] at h ⊢

theorem leNum_of_toRat {x y : JSNum} {a b : ℚ} (hx : x.toRat? = some a)
    (hy : y.toRat? = some b) : x.leNum y = decide (a ≤ b) := by
  cases x <;> cases y <;> simp [toRat?] at hx hy <;> subst_vars <;>
    simp [leNum, ltNum, lt] <;> simp only [← not_le, decide_not]

theorem norm_of_toRat {x : JSNum} {a : ℚ} (hx : x.toRat? = some a) : norm x = fin a := by
  cases x <;> simp [toRat?] at hx <;> subst_vars <;> simp [norm]

theorem isNeg_of_toRat_pos {x : JSNum} {a : ℚ} (hx : x.toRat? = some a) (ha : 0 < a) :
    x.isNeg = false := by
  cases x <;> simp [toRat?] at hx <;> subst_vars
  · simp [isNeg]
    exact ha.le
  · exact absurd ha (lt_irrefl 0)

end JSNum

theorem round64_zero : round64 0 = JSNum.fin 0 := by
  simp [round64]

theorem norm_round64_of_zero (s : Bool) {q : ℚ} (h : q = 0) :
    JSNum.norm (JSNum.signedZero s) = JSNum.norm (round64 q) := by
  rw [h, round64_zero, JSNum.norm_signedZero]
  rfl

/-! ## The operations, up to the sign of a zero -/

theorem norm_fmul_fin_fin (a b : ℚ) :
    JSNum.norm (fmul (JSNum.fin a) (JSNum.fin b)) = JSNum.norm (round64 (a * b)) := by
  unfold fmul
  simp only [reduceCtorEq, or_self, if_false, JSNum.toRat?]
  split_ifs with h
  · exact norm_round64_of_zero _ h
  · rfl

theorem norm_fmul_fin {x : JSNum} {a : ℚ} (p : ℚ) (hx : x.toRat? = some a) :
    JSNum.norm (fmul (JSNum.fin p) x) = JSNum.norm (round64 (p * a)) := by
  cases x <;> simp [JSNum.toRat?] at hx <;> subst_vars
  · exact norm_fmul_fin_fin p _
  · unfold fmul
    simp only [reduceCtorEq, or_self, if_false, JSNum.toRat?, mul_zero, if_true]
    exact norm_round64_of_zero _ rfl

theorem norm_fdiv_fin {x : JSNum} {a : ℚ} {k : ℚ} (hk : k ≠ 0) (hx : x.toRat? = some a) :
    JSNum.norm (fdiv x (JSNum.fin k)) = JSNum.norm (round64 (a / k)) := by
  cases x <;> simp [JSNum.toRat?] at hx <;> subst_vars
  · unfold fdiv
    simp only [reduceCtorEq, or_self, if_false, JSNum.toRat?, if_neg hk]
    split_ifs with h
    · exact norm_round64_of_zero _ (by rw [h, zero_div])
    · rfl
  · unfold fdiv
    simp only [reduceCtorEq, or_self, if_false, JSNum.toRat?, if_neg hk, if_true]
    exact norm_round64_of_zero _ (by rw [zero_div])

theorem norm_fadd_fin {x : JSNum} {a : ℚ} (k : ℚ) (hk : round64 k = JSNum.fin k)
    (hk0 : k ≠ 0) (hx : x.toRat? = some a) :
    JSNum.norm (fadd (JSNum.fin k) x) = JSNum.norm (round64 (k + a)) := by
  cases x <;> simp [JSNum.toRat?] at hx <;> subst_vars
  · rename_i q
    unfold fadd
    simp only
    split_ifs with h1 h3
    · rw [h1, add_zero, hk]
    · rw [h3, round64_zero]
    · rfl
  · unfold fadd
    simp only [add_zero]
    rw [hk]

/-! ## Monotonicity of the operations -/

theorem fmul_fin_fin_ne_nan (a b : ℚ) : fmul (JSNum.fin a) (JSNum.fin b) ≠ JSNum.nan :=
  JSNum.ne_nan_of_norm_eq (norm_fmul_fin_fin a b) (round64_ne_nan _)

theorem fmul_fin_fin_of_ne {a b : ℚ} (h : a * b ≠ 0) :
    fmul (JSNum.fin a) (JSNum.fin b) = round64 (a * b) := by
  unfold fmul
  simp only [reduceCtorEq, or_self, if_false, JSNum.toRat?, if_neg h]

theorem fmul_fin_fin_leNum {a b c d : ℚ} (h : a * b ≤ c * d) :
    (fmul (JSNum.fin a) (JSNum.fin b)).leNum (fmul (JSNum.fin c) (JSNum.fin d)) = true := by
  rw [← JSNum.leNum_norm, norm_fmul_fin_fin, norm_fmul_fin_fin, JSNum.leNum_norm]
  exact round64_mono h

theorem fmul_fin_posInf {p : ℚ} (hp : 0 < p) : fmul (JSNum.fin p) JSNum.posInf = JSNum.posInf := by
  simp [fmul, JSNum.toRat?, JSNum.isNeg, JSNum.signedInf, ne_of_gt hp, not_lt.mpr hp.le]

theorem fmul_fin_negInf {p : ℚ} (hp : 0 < p) : fmul (JSNum.fin p) JSNum.negInf = JSNum.negInf := by
  simp [fmul, JSNum.toRat?, JSNum.isNeg, JSNum.signedInf, ne_of_gt hp, not_lt.mpr hp.le]

theorem fdiv_posInf_fin {k : ℚ} (hk : 0 < k) : fdiv JSNum.posInf (JSNum.fin k) = JSNum.posInf := by
  simp [fdiv, JSNum.toRat?, JSNum.isNeg, JSNum.signedInf, not_lt.mpr hk.le]

theorem fdiv_negInf_fin {k : ℚ} (hk : 0 < k) : fdiv JSNum.negInf (JSNum.fin k) = JSNum.negInf := by
  simp [fdiv, JSNum.toRat?, JSNum.isNeg, JSNum.signedInf, not_lt.mpr hk.le]

theorem fadd_fin_posInf (k : ℚ) : fadd (JSNum.fin k) JSNum.posInf = JSNum.posInf := by
  simp [fadd]

theorem fadd_fin_negInf (k : ℚ) : fadd (JSNum.fin k) JSNum.negInf = JSNum.negInf := by
  simp [fadd]

/-- Three operations that take a finite value `a` to `round64 (g a)` up to the sign of a zero,
keep each infinity, and have `g` monotone, are monotone. -/
theorem leNum_of_pipeline (F : JSNum → JSNum) (g : ℚ → ℚ)
    (hfin : ∀ x a, x.toRat? = some a → JSNum.norm (F x) = JSNum.norm (round64 (g a)))
    (hpos : F JSNum.posInf = JSNum.posInf) (hneg : F JSNum.negInf = JSNum.negInf)
    (hg : ∀ a b, a ≤ b → g a ≤ g b) {x y : JSNum} (h : x.leNum y = true) :
    (F x).leNum (F y) = true := by
  obtain ⟨hxn, hyn⟩ := JSNum.ne_nan_of_leNum h
  have hF : ∀ z, z ≠ JSNum.nan → F z ≠ JSNum.nan := by
    intro z hz
    rcases JSNum.classify hz with ⟨a, ha⟩ | rfl | rfl
    · exact JSNum.ne_nan_of_norm_eq (hfin z a ha) (round64_ne_nan _)
    · rw [hpos]
      simp
    · rw [hneg]
      simp
  rcases JSNum.classify hxn with ⟨a, ha⟩ | rfl | rfl
  · rcases JSNum.classify hyn with ⟨b, hb⟩ | rfl | rfl
    · have hab : a ≤ b := by
        rw [JSNum.leNum_of_toRat ha hb] at h
        exact of_decide_eq_true h
      rw [← JSNum.leNum_norm, hfin x a ha, hfin y b hb, JSNum.leNum_norm]
      exact round64_mono (hg a b hab)
    · rw [hpos]
      exact JSNum.leNum_posInf (hF x hxn)
    · exfalso
      cases x <;> simp [JSNum.toRat?, JSNum.leNum, JSNum.ltNum, JSNum.lt] at ha h
  · rw [hpos]
    have : y = JSNum.posInf := by
      cases y <;> simp [JSNum.leNum, JSNum.ltNum, JSNum.lt] at h hyn ⊢
    rw [this, hpos]
    rfl
  · rw [hneg]
    exact JSNum.negInf_leNum (hF y hyn)

theorem fdiv_fin_leNum {x y : JSNum} {k : ℚ} (hk : 0 < k) (h : x.leNum y = true) :
    (fdiv x (JSNum.fin k)).leNum (fdiv y (JSNum.fin k)) = true :=
  leNum_of_pipeline (fun z => fdiv z (JSNum.fin k)) (fun a => a / k)
    (fun _ _ ha => norm_fdiv_fin (ne_of_gt hk) ha) (fdiv_posInf_fin hk) (fdiv_negInf_fin hk)
    (fun _ _ hab => div_le_div_of_nonneg_right hab hk.le) h

theorem fadd_fin_leNum {x y : JSNum} (k : ℚ) (hk : round64 k = JSNum.fin k) (hk0 : k ≠ 0)
    (h : x.leNum y = true) : (fadd (JSNum.fin k) x).leNum (fadd (JSNum.fin k) y) = true :=
  leNum_of_pipeline (fun z => fadd (JSNum.fin k) z) (fun a => k + a)
    (fun _ _ ha => norm_fadd_fin k hk hk0 ha) (fadd_fin_posInf k) (fadd_fin_negInf k)
    (fun _ _ hab => add_le_add_left hab k) h

theorem fmul_fin_leNum {x y : JSNum} {p : ℚ} (hp : 0 < p) (h : x.leNum y = true) :
    (fmul (JSNum.fin p) x).leNum (fmul (JSNum.fin p) y) = true :=
  leNum_of_pipeline (fun z => fmul (JSNum.fin p) z) (fun a => p * a)
    (fun _ _ ha => norm_fmul_fin p ha) (fmul_fin_posInf hp) (fmul_fin_negInf hp)
    (fun _ _ hab => mul_le_mul_of_nonneg_left hab hp.le) h

theorem round64_gt_zero_of_nonpos {q : ℚ} (h : q ≤ 0) : (round64 q).gt 0 = false := by
  have hv := roundVal_nonpos h
  have hp : (0 : ℚ) < 2 ^ 1024 := by positivity
  have hs := round64_spec q
  generalize (2 : ℚ) ^ 1024 = M at hs hp
  rcases hs with hs | hs | hs | hs <;> rw [hs.1] <;> simp [JSNum.gt]
  · linarith [hs.2]
  · exact hv

/-- The difference of two doubles in ascending order is not positive. -/
theorem fsub_gt_zero_of_leNum {x y : JSNum} (h : x.leNum y = true) :
    (fsub x y).gt 0 = false := by
  cases x <;> cases y <;> simp [JSNum.leNum, JSNum.ltNum, JSNum.lt] at h <;>
    simp only [fsub, fneg] <;> (try split_ifs) <;> simp only [fadd] <;> (try split_ifs) <;>
    simp [JSNum.gt]
  all_goals first
    | linarith
    | (rename_i a b _ _ _ _
       have hr := round64_gt_zero_of_nonpos (show a + -b ≤ 0 by linarith)
       simpa [JSNum.gt] using hr)

/-! ## The rounding error in the normal range -/

theorem two_pow_1024_eq : (2 : ℚ) ^ 1024 = 4 * 2 ^ (1022 : ℤ) := by
  have h : (2 : ℚ) ^ ((1024 : ℕ) : ℤ) = 2 ^ ((1022 : ℤ) + 2) := by
    congr 1
  rw [zpow_natCast] at h
  rw [h, zpow_add₀ (by norm_num)]
  norm_num

/-- A positive value of the normal range rounds to a finite positive double within the
relative error 2^-53. -/
theorem round64_normal {q : ℚ} (hlo : (2 : ℚ) ^ (-1022 : ℤ) ≤ q)
    (hhi : q ≤ 3 * 2 ^ (1022 : ℤ)) :
    round64 q = JSNum.fin (roundVal q) ∧ |roundVal q - q| ≤ q * 2 ^ (-53 : ℤ) ∧
      0 < roundVal q := by
  have hq : 0 < q := lt_of_lt_of_le (two_zpow_pos _) hlo
  have hv : roundVal q = roundMag q := by
    unfold roundVal
    rw [if_neg (not_lt.mpr hq.le)]
  have hb := two_zpow_binade_le hq hlo
  have he : |roundMag q - q| ≤ q * 2 ^ (-53 : ℤ) := by
    have h1 := abs_roundMag_sub_le q
    rw [abs_of_pos hq] at h1
    have h2 : ulp q / 2 = 2 ^ binade q * 2 ^ (-53 : ℤ) := by
      unfold ulp
      rw [show binade q - 52 = binade q + (-53) + 1 by ring, two_zpow_succ,
        zpow_add₀ (by norm_num)]
      ring
    rw [h2] at h1
    exact le_trans h1 (mul_le_mul_of_nonneg_right hb (two_zpow_pos _).le)
  have hpos : 0 < roundMag q :=
    lt_of_lt_of_le (two_zpow_pos _) (two_zpow_le_roundMag hq hb)
  have hfin : roundMag q < 2 ^ 1024 := by
    rw [two_pow_1024_eq]
    have hA : (0 : ℚ) < 2 ^ (1022 : ℤ) := two_zpow_pos _
    have h3 := (abs_le.mp he).2
    have h4 : (2 : ℚ) ^ (-53 : ℤ) ≤ 1 / 8 := by norm_num
    have h5 : q * 2 ^ (-53 : ℤ) ≤ q * (1 / 8) := mul_le_mul_of_nonneg_left h4 hq.le
    generalize (2 : ℚ) ^ (1022 : ℤ) = A at hhi hA ⊢
    generalize (2 : ℚ) ^ (-53 : ℤ) = ε at h3 h5
    linarith
  refine ⟨?_, by rw [hv]; exact he, by rw [hv]; exact hpos⟩
  unfold round64
  rw [if_neg (ne_of_gt hq), if_neg (not_le.mpr hfin), if_neg (ne_of_gt hpos)]

/-- Two values of the normal range that are apart by more than the two rounding errors round
to doubles in the same strict order. -/
theorem round64_ltNum_of_gap {x y : ℚ} (hx : (2 : ℚ) ^ (-1022 : ℤ) ≤ x)
    (hy : y ≤ 3 * 2 ^ (1022 : ℤ)) (h : x * (1 + 2 ^ (-53 : ℤ)) < y * (1 - 2 ^ (-53 : ℤ))) :
    (round64 x).ltNum (round64 y) = true := by
  have hx0 : 0 < x := lt_of_lt_of_le (two_zpow_pos _) hx
  have he : (0 : ℚ) < 2 ^ (-53 : ℤ) := two_zpow_pos _
  have he1 : (2 : ℚ) ^ (-53 : ℤ) < 1 := by norm_num
  have hxy : x ≤ y := by
    generalize (2 : ℚ) ^ (-53 : ℤ) = ε at h he he1
    by_contra hc
    have hyx : y < x := not_le.mp hc
    have h5 : y * (1 - ε) ≤ x * (1 - ε) := mul_le_mul_of_nonneg_right hyx.le (by linarith)
    have h6 : 0 ≤ x * ε := mul_nonneg hx0.le he.le
    nlinarith
  obtain ⟨h1, h2, -⟩ := round64_normal hx (le_trans hxy hy)
  obtain ⟨h3, h4, -⟩ := round64_normal (le_trans hx hxy) hy
  rw [h1, h3]
  simp only [JSNum.ltNum, JSNum.lt, decide_eq_true_eq]
  have h5 := (abs_le.mp h2).2
  have h6 := (abs_le.mp h4).1
  generalize (2 : ℚ) ^ (-53 : ℤ) = ε at h h5 h6
  linarith

/-! ## The decimal literals of the source as doubles -/

theorem lit_0_5 : lit 0.5 = JSNum.fin (1 / 2) := by
  have h := round64_eq_fin (q := 0.5) (e := -1) (n := 4503599627370496) (by norm_num) (by norm_num) (by norm_num) (by norm_num) (by norm_num) (by norm_num [abs_lt])
  unfold lit
  rw [h]
  norm_num

theorem lit_0_8 : lit 0.8 = JSNum.fin (3602879701896397 / 4503599627370496) := by
  have h := round64_eq_fin (q := 0.8) (e := -1) (n := 7205759403792794) (by norm_num) (by norm_num) (by norm_num) (by norm_num) (by norm_num) (by norm_num [abs_lt])
  unfold lit
  rw [h]
  norm_num

theorem lit_0_6 : lit 0.6 = JSNum.fin (5404319552844595 / 9007199254740992) := by
  have h := round64_eq_fin (q := 0.6) (e := -1) (n := 5404319552844595) (by norm_num) (by norm_num) (by norm_num) (by norm_num) (by norm_num) (by norm_num [abs_lt])
  unfold lit
  rw [h]
  norm_num

theorem lit_0_95 : lit 0.95 = JSNum.fin (4278419646001971 / 4503599627370496) := by
  have h := round64_eq_fin (q := 0.95) (e := -1) (n := 8556839292003942) (by norm_num) (by norm_num) (by norm_num) (by norm_num) (by norm_num) (by norm_num [abs_lt])
  unfold lit
  rw [h]
  norm_num

theorem lit_0_90 : lit 0.90 = JSNum.fin (8106479329266893 / 9007199254740992) := by
  have h := round64_eq_fin (q := 0.90) (e := -1) (n := 8106479329266893) (by norm_num) (by norm_num) (by norm_num) (by norm_num) (by norm_num) (by norm_num [abs_lt])
  unfold lit
  rw [h]
  norm_num

theorem lit_0_85 : lit 0.85 = JSNum.fin (7656119366529843 / 9007199254740992) := by
  have h := round64_eq_fin (q := 0.85) (e := -1) (n := 7656119366529843) (by norm_num) (by norm_num) (by norm_num) (by norm_num) (by norm_num) (by norm_num [abs_lt])
  unfold lit
  rw [h]
  norm_num

theorem lit_1_05 : lit 1.05 = JSNum.fin (4728779608739021 / 4503599627370496) := by
  have h := round64_eq_fin (q := 1.05) (e := 0) (n := 4728779608739021) (by norm_num) (by norm_num) (by norm_num) (by norm_num) (by norm_num) (by norm_num [abs_lt])
  unfold lit
  rw [h]
  norm_num

theorem lit_1_10 : lit 1.10 = JSNum.fin (2476979795053773 / 2251799813685248) := by
  have h := round64_eq_fin (q := 1.10) (e := 0) (n := 4953959590107546) (by norm_num) (by norm_num) (by norm_num) (by norm_num) (by norm_num) (by norm_num [abs_lt])
  unfold lit
  rw [h]
  norm_num

theorem lit_1_15 : lit 1.15 = JSNum.fin (2589569785738035 / 2251799813685248) := by
  have h := round64_eq_fin (q := 1.15) (e := 0) (n := 5179139571476070) (by norm_num) (by norm_num) (by norm_num) (by norm_num) (by norm_num) (by norm_num [abs_lt])
  unfold lit
  rw [h]
  norm_num

theorem lit_0_7 : lit 0.7 = JSNum.fin (3152519739159347 / 4503599627370496) := by
  have h := round64_eq_fin (q := 0.7) (e := -1) (n := 6305039478318694) (by norm_num) (by norm_num) (by norm_num) (by norm_num) (by norm_num) (by norm_num [abs_lt])
  unfold lit
  rw [h]
  norm_num

theorem lit_0_4 : lit 0.4 = JSNum.fin (3602879701896397 / 9007199254740992) := by
  have h := round64_eq_fin (q := 0.4) (e := -2) (n := 7205759403792794) (by norm_num) (by norm_num) (by norm_num) (by norm_num) (by norm_num) (by norm_num [abs_lt])
  unfold lit
  rw [h]
  norm_num

theorem lit_0_2 : lit 0.2 = JSNum.fin (3602879701896397 / 18014398509481984) := by
  have h := round64_eq_fin (q := 0.2) (e := -3) (n := 7205759403792794) (by norm_num) (by norm_num) (by norm_num) (by norm_num) (by norm_num) (by norm_num [abs_lt])
  unfold lit
  rw [h]
  norm_num

theorem lit_0_05 : lit 0.05 = JSNum.fin (3602879701896397 / 72057594037927936) := by
  have h := round64_eq_fin (q := 0.05) (e := -5) (n := 7205759403792794) (by norm_num) (by norm_num) (by norm_num) (by norm_num) (by norm_num) (by norm_num [abs_lt])
  unfold lit
  rw [h]
  norm_num

theorem lit_1_02 : lit 1.02 = JSNum.fin (2296835809958953 / 2251799813685248) := by
  have h := round64_eq_fin (q := 1.02) (e := 0) (n := 4593671619917906) (by norm_num) (by norm_num) (by norm_num) (by norm_num) (by norm_num) (by norm_num [abs_lt])
  unfold lit
  rw [h]
  norm_num

theorem lit_0_98 : lit 0.98 = JSNum.fin (2206763817411543 / 2251799813685248) := by
  have h := round64_eq_fin (q := 0.98) (e := -1) (n := 8827055269646172) (by norm_num) (by norm_num) (by norm_num) (by norm_num) (by norm_num) (by norm_num [abs_lt])
  unfold lit
  rw [h]
  norm_num

theorem lit_0_92 : lit 0.92 = JSNum.fin (8286623314361713 / 9007199254740992) := by
  have h := round64_eq_fin (q := 0.92) (e := -1) (n := 8286623314361713) (by norm_num) (by norm_num) (by norm_num) (by norm_num) (by norm_num) (by norm_num [abs_lt])
  unfold lit
  rw [h]
  norm_num

theorem lit_0_007 : lit 0.007 = JSNum.fin (8070450532247929 / 1152921504606846976) := by
  have h := round64_eq_fin (q := 0.007) (e := -8) (n := 8070450532247929) (by norm_num) (by norm_num) (by norm_num) (by norm_num) (by norm_num) (by norm_num [abs_lt])
  unfold lit
  rw [h]
  norm_num

/-! ## Facts about `toFixed` -/

theorem toFixed_digits (x : ℚ) (f : ℕ) : (toFixed x f).digits = f := by
  unfold toFixed
  split <;> rfl

/-- The integer nearest to a non-negative `y`, taken as a natural number, is within one half
of `y`. -/
theorem abs_floor_half_sub_le (y : ℚ) (hy : 0 ≤ y) :
    |(((⌊y + 1 / 2⌋).toNat : ℕ) : ℚ) - y| ≤ 1 / 2 := by
  have h0 : (0 : ℤ) ≤ ⌊y + 1 / 2⌋ := Int.floor_nonneg.mpr (by linarith)
  have hcast : (((⌊y + 1 / 2⌋).toNat : ℕ) : ℚ) = ((⌊y + 1 / 2⌋ : ℤ) : ℚ) := by
    have h := Int.toNat_of_nonneg h0
    exact_mod_cast congrArg (fun z : ℤ => (z : ℚ)) h
  rw [hcast, abs_le]
  have h1 := Int.floor_le (y + 1 / 2)
  have h2 := Int.lt_floor_add_one (y + 1 / 2)
  constructor <;> linarith

/-- Dividing by the scale turns an error of one half into half a unit of the last place. -/
theorem abs_div_scale_sub_le (N x P : ℚ) (hP : 0 < P) (h : |N - x * P| ≤ 1 / 2) :
    |N / P - x| ≤ 1 / (2 * P) := by
  have e : N / P - x = (N - x * P) / P := by
    field_simp
    ring
  rw [e, abs_div, abs_of_pos hP, div_le_div_iff₀ hP (by positivity)]
  nlinarith [abs_nonneg (N - x * P)]

/-- The method `toFixed` rounds to the requested number of decimal places. -/
theorem toFixed_isRounded (x : ℚ) (f : ℕ) : IsRounded (toFixed x f) x f := by
  refine ⟨toFixed_digits x f, ?_⟩
  have hp : (0 : ℚ) < 10 ^ f := by positivity
  unfold toFixed
  split
  · rename_i hx
    have hy : 0 ≤ (-x) * 10 ^ f := mul_nonneg (by linarith) hp.le
    have h := abs_div_scale_sub_le _ (-x) _ hp (abs_floor_half_sub_le ((-x) * 10 ^ f) hy)
    simp only [Fixed.value, if_true]
    rw [← abs_neg]
    have e : ∀ a : ℚ, -(-a - x) = a - (-x) := fun a => by ring
    rw [e]
    exact h
  · rename_i hx
    have hy : 0 ≤ x * 10 ^ f := mul_nonneg (by linarith) hp.le
    have h := abs_div_scale_sub_le _ x _ hp (abs_floor_half_sub_le (x * 10 ^ f) hy)
    simpa only [Fixed.value, Bool.false_eq_true, if_false] using h

/-- On non-negative numbers `toFixed` is monotone in the value it denotes. -/
theorem toFixed_value_mono (x y : ℚ) (f : ℕ) (hx : 0 ≤ x) (hxy : x ≤ y) :
    (toFixed x f).value ≤ (toFixed y f).value := by
  have hp : (0 : ℚ) < 10 ^ f := by positivity
  have hy : 0 ≤ y := le_trans hx hxy
  have hfl : ⌊x * 10 ^ f + 1 / 2⌋ ≤ ⌊y * 10 ^ f + 1 / 2⌋ :=
    Int.floor_mono (by nlinarith)
  have hn : (⌊x * 10 ^ f + 1 / 2⌋).toNat ≤ (⌊y * 10 ^ f + 1 / 2⌋).toNat :=
    Int.toNat_le_toNat hfl
  have hq : (((⌊x * 10 ^ f + 1 / 2⌋).toNat : ℕ) : ℚ)
      ≤ (((⌊y * 10 ^ f + 1 / 2⌋).toNat : ℕ) : ℚ) := by
    exact_mod_cast hn
  simp only [toFixed, if_neg (not_lt.mpr hx), if_neg (not_lt.mpr hy), Fixed.value,
    Bool.false_eq_true, if_false]
  exact div_le_div_of_nonneg_right hq hp.le

/-! ## Facts about the operations used by the claims -/

theorem fmul_comm_fin (a b : ℚ) :
    fmul (JSNum.fin a) (JSNum.fin b) = fmul (JSNum.fin b) (JSNum.fin a) := by
  unfold fmul
  simp only [reduceCtorEq, or_self, if_false, JSNum.toRat?, JSNum.isNeg, mul_comm a b]
  congr 2
  exact Bool.xor_comm _ _

theorem fmul_lit_comm (k a : ℚ) : fmul (lit k) (JSNum.fin a) = fmul (JSNum.fin a) (lit k) := by
  unfold lit
  rcases round64_spec k with h | h | h | h <;> rw [h.1]
  · simp [fmul, JSNum.toRat?, JSNum.isNeg, Bool.xor_comm]
  · simp [fmul, JSNum.toRat?, JSNum.isNeg, Bool.xor_comm]
  · simp [fmul, JSNum.toRat?, JSNum.isNeg, Bool.xor_comm]
  · exact fmul_comm_fin _ _

theorem fmul_zero_fin {d : ℚ} (hd : 0 ≤ d) : fmul (JSNum.fin 0) (JSNum.fin d) = JSNum.fin 0 := by
  simp [fmul, JSNum.toRat?, JSNum.isNeg, JSNum.signedZero, not_lt.mpr hd]

theorem fsub_fin_zero (v : ℚ) : fsub (JSNum.fin v) (JSNum.fin 0) = JSNum.fin v := by
  simp [fsub, fneg, fadd]

theorem fdiv_fin_zero (v : ℚ) :
    fdiv (JSNum.fin v) (JSNum.fin 0) =
      (if v > 0 then JSNum.posInf else if v < 0 then JSNum.negInf else JSNum.nan) := by
  rcases lt_trichotomy v 0 with hv | hv | hv
  · have h1 : ¬ v > 0 := by linarith
    simp [fdiv, JSNum.toRat?, JSNum.isNeg, JSNum.signedInf, hv, h1, ne_of_lt hv]
  · simp [fdiv, JSNum.toRat?, hv]
  · have h1 : ¬ v < 0 := by linarith
    simp [fdiv, JSNum.toRat?, JSNum.isNeg, JSNum.signedInf, hv, h1, ne_of_gt hv]

theorem fmul_posInf_fin {k : ℚ} (hk : 0 < k) : fmul JSNum.posInf (JSNum.fin k) = JSNum.posInf := by
  simp [fmul, JSNum.toRat?, JSNum.isNeg, JSNum.signedInf, ne_of_gt hk, not_lt.mpr hk.le]

theorem fmul_negInf_fin {k : ℚ} (hk : 0 < k) : fmul JSNum.negInf (JSNum.fin k) = JSNum.negInf := by
  simp [fmul, JSNum.toRat?, JSNum.isNeg, JSNum.signedInf, ne_of_gt hk, not_lt.mpr hk.le]

theorem fmul_nan_fin (k : ℚ) : fmul JSNum.nan (JSNum.fin k) = JSNum.nan := by
  simp [fmul]

/-- With a market capitalisation of zero the volume deviation is the quotient by the positive
zero. -/
theorem volumeChange_of_marketCap_zero (c : CoinData) (h : marketCap c = 0) :
    volumeChange c =
      (if volume c > 0 then JSNum.posInf
      else if volume c < 0 then JSNum.negInf
      else JSNum.nan) := by
  unfold volumeChange
  rw [h, lit_0_05, fmul_zero_fin (by norm_num), fsub_fin_zero, fdiv_fin_zero]
  split_ifs
  · exact fmul_posInf_fin (by norm_num)
  · exact fmul_negInf_fin (by norm_num)
  · exact fmul_nan_fin _

theorem fadd_fin_ne_nan (k : ℚ) {y : JSNum} (hy : y ≠ JSNum.nan) :
    fadd (JSNum.fin k) y ≠ JSNum.nan := by
  cases y <;> simp [fadd] at hy ⊢
  split_ifs <;> first | exact round64_ne_nan _ | simp

theorem rsi_ne_nan (c : CoinData) : rsi c ≠ JSNum.nan := by
  unfold rsi
  rw [lit_0_5]
  exact fadd_fin_ne_nan _ (fmul_fin_fin_ne_nan _ _)

/-- The composition `Math.max(0, Math.min(100, x))` of the code is the clamp to [0, 100]. -/
theorem fmax_fmin_eq_clamp {x : JSNum} (hx : x ≠ JSNum.nan) :
    ∃ q, fmax (JSNum.fin 0) (fmin (JSNum.fin 100) x) = JSNum.fin q ∧ 0 ≤ q ∧ q ≤ 100 ∧
      clampValue x 0 100 = some q := by
  cases x with
  | nan => exact absurd rfl hx
  | negZero =>
    exact ⟨0, by simp [fmax, fmin, JSNum.ltNum, JSNum.lt, show ¬ ((100 : ℚ) < 0) by norm_num,
        show (0 : ℚ) < 100 by norm_num, show ¬ ((100 : ℚ) < 50) by norm_num,
        show (50 : ℚ) < 100 by norm_num, show (0 : ℚ) < 50 by norm_num,
        show ¬ ((50 : ℚ) < 0) by norm_num], le_refl 0, by norm_num,
      by simp [clampValue, JSNum.lt, JSNum.gt, JSNum.toRat?]⟩
  | posInf =>
    exact ⟨100, by simp [fmax, fmin, JSNum.ltNum, JSNum.lt, show ¬ ((100 : ℚ) < 0) by norm_num,
        show (0 : ℚ) < 100 by norm_num, show ¬ ((100 : ℚ) < 50) by norm_num,
        show (50 : ℚ) < 100 by norm_num, show (0 : ℚ) < 50 by norm_num,
        show ¬ ((50 : ℚ) < 0) by norm_num], by norm_num, le_refl 100,
      by simp [clampValue, JSNum.lt, JSNum.gt]⟩
  | negInf =>
    exact ⟨0, by simp [fmax, fmin, JSNum.ltNum, JSNum.lt, show ¬ ((100 : ℚ) < 0) by norm_num,
        show (0 : ℚ) < 100 by norm_num, show ¬ ((100 : ℚ) < 50) by norm_num,
        show (50 : ℚ) < 100 by norm_num, show (0 : ℚ) < 50 by norm_num,
        show ¬ ((50 : ℚ) < 0) by norm_num], le_refl 0, by norm_num,
      by simp [clampValue, JSNum.lt]⟩
  | fin a =>
    rcases lt_or_le a 0 with h0 | h0
    · have h1 : a < 100 := by linarith
      have h2 : ¬ 0 < a := by linarith
      have h3 : ¬ 100 < a := by linarith
      exact ⟨0, by simp [fmax, fmin, JSNum.ltNum, JSNum.lt, h0, h1, h2, h3], le_refl 0,
        by norm_num, by simp [clampValue, JSNum.lt, h0]⟩
    · rcases le_or_lt a 100 with h1 | h1
      · have h2 : ¬ a < 0 := not_lt.mpr h0
        have h3 : ¬ 100 < a := not_lt.mpr h1
        refine ⟨a, ?_, h0, h1, by simp [clampValue, JSNum.lt, JSNum.gt, JSNum.toRat?, h2, h3]⟩
        rcases lt_or_eq_of_le h1 with h4 | h4
        · rcases lt_or_eq_of_le h0 with h5 | h5
          · simp [fmax, fmin, JSNum.ltNum, JSNum.lt, h2, h3, h4, h5]
          · subst h5
            simp [fmax, fmin, JSNum.ltNum, JSNum.lt, show ¬ ((100 : ℚ) < 0) by norm_num,
        show (0 : ℚ) < 100 by norm_num, show ¬ ((100 : ℚ) < 50) by norm_num,
        show (50 : ℚ) < 100 by norm_num, show (0 : ℚ) < 50 by norm_num,
        show ¬ ((50 : ℚ) < 0) by norm_num]
        · subst h4
          simp [fmax, fmin, JSNum.ltNum, JSNum.lt, show ¬ ((100 : ℚ) < 0) by norm_num,
        show (0 : ℚ) < 100 by norm_num, show ¬ ((100 : ℚ) < 50) by norm_num,
        show (50 : ℚ) < 100 by norm_num, show (0 : ℚ) < 50 by norm_num,
        show ¬ ((50 : ℚ) < 0) by norm_num]
      · have h2 : ¬ a < 0 := by linarith
        have h3 : ¬ a < 100 := by linarith
        exact ⟨100, by simp [fmax, fmin, JSNum.ltNum, JSNum.lt, h1, h2, h3], by norm_num,
          le_refl 100, by simp [clampValue, JSNum.lt, JSNum.gt, h1, h2]⟩

theorem fsub_self_fin (a : ℚ) : fsub (JSNum.fin a) (JSNum.fin a) = JSNum.fin 0 := by
  by_cases h : a = 0
  · simp [fsub, fneg, fadd, h]
  · simp [fsub, fneg, fadd, h]

/-! ## Evaluating an operation on two finite operands -/

theorem fdiv_fin_fin_of_ne {a b : ℚ} (ha : a ≠ 0) (hb : b ≠ 0) :
    fdiv (JSNum.fin a) (JSNum.fin b) = round64 (a / b) := by
  unfold fdiv
  simp only [reduceCtorEq, or_self, if_false, JSNum.toRat?, if_neg ha, if_neg hb]

theorem fadd_fin_fin_of_ne {a b : ℚ} (ha : a ≠ 0) (hb : b ≠ 0) (hab : a + b ≠ 0) :
    fadd (JSNum.fin a) (JSNum.fin b) = round64 (a + b) := by
  simp only [fadd, if_neg ha, if_neg hb, if_neg hab]

theorem fsub_fin_fin_of_ne {a b : ℚ} (ha : a ≠ 0) (hb : b ≠ 0) (hab : a - b ≠ 0) :
    fsub (JSNum.fin a) (JSNum.fin b) = round64 (a - b) := by
  have hnb : -b ≠ 0 := neg_ne_zero.mpr hb
  have hs : a + -b ≠ 0 := by rwa [← sub_eq_add_neg]
  simp only [fsub, fneg, if_neg hb, fadd, if_neg ha, if_neg hnb, if_neg hs, sub_eq_add_neg]

/-! ## `toFixed` on a double -/

theorem toFixedNum_fin_of_lt {q : ℚ} (f : ℕ) (h : |q| < 10 ^ 21) :
    toFixedNum (JSNum.fin q) f = FixedText.digits (toFixed q f) := by
  simp only [toFixedNum, if_pos h]

theorem toFixedNum_fin_of_le {q : ℚ} (f : ℕ) (h : 10 ^ 21 ≤ |q|) :
    toFixedNum (JSNum.fin q) f = FixedText.number (JSNum.fin q) := by
  simp only [toFixedNum, if_neg (not_lt.mpr h)]

/-! ## The formulas of the code and of the specification -/

/-- The volume deviation of the code is that of the specification: the two differ in the
order of the factors of one product. -/
theorem volumeChange_eq_spec (c : CoinData) :
    volumeChange c = specVolumeDeviation (volume c) (marketCap c) := by
  unfold volumeChange specVolumeDeviation
  rw [fmul_lit_comm]

theorem rsi_eq_spec (c : CoinData) : rsi c = specRsi (change24h c) := by
  unfold rsi specRsi
  rw [fmul_lit_comm]

/-- The string `x.toFixed(f)` is `x` rounded to `f` decimal places when `x` is finite and
below 10^21 in magnitude, and the string of `x` otherwise. -/
theorem toFixedNum_isRoundedText (x : JSNum) (f : ℕ) : IsRoundedText (toFixedNum x f) x f := by
  cases x with
  | fin q =>
    by_cases h : |q| < 10 ^ 21
    · simp only [IsRoundedText, JSNum.toRat?, if_pos h, toFixedNum]
      exact ⟨toFixed q f, rfl, toFixed_isRounded q f⟩
    · simp only [IsRoundedText, JSNum.toRat?, if_neg h, toFixedNum]
  | negZero =>
    have h : |(0 : ℚ)| < 10 ^ 21 := by norm_num
    simp only [IsRoundedText, JSNum.toRat?, if_pos h, toFixedNum]
    exact ⟨toFixed 0 f, rfl, toFixed_isRounded 0 f⟩
  | posInf => simp only [IsRoundedText, JSNum.toRat?, toFixedNum]
  | negInf => simp only [IsRoundedText, JSNum.toRat?, toFixedNum]
  | nan => simp only [IsRoundedText, JSNum.toRat?, toFixedNum]
/-! ## Rounding at the top of the range -/

theorem two_pow_ge_one_zpow : (2 : ℚ) ^ (1024 : ℤ) = 2 ^ 1024 := by
  rw [show (1024 : ℤ) = ((1024 : ℕ) : ℤ) by norm_num, zpow_natCast]

/-- A value of 2^1024 or more rounds to the positive infinity. -/
theorem round64_eq_posInf {q : ℚ} (h : (2 : ℚ) ^ 1024 ≤ q) : round64 q = JSNum.posInf := by
  have hp : (0 : ℚ) < 2 ^ 1024 := by positivity
  have hq : 0 < q := lt_of_lt_of_le hp h
  have h1 : (2 : ℚ) ^ (-1022 : ℤ) ≤ q := by
    have h2 : (2 : ℚ) ^ (-1022 : ℤ) ≤ 2 ^ (1024 : ℤ) := two_zpow_le (by norm_num)
    rw [two_pow_ge_one_zpow] at h2
    exact le_trans h2 h
  have hb : (1024 : ℤ) ≤ binade q := by
    have h3 : (1024 : ℤ) ≤ Int.log 2 q := by
      rw [← Int.zpow_le_iff_le_log (by norm_num) hq]
      push_cast
      rw [two_pow_ge_one_zpow]
      exact h
    unfold binade
    rw [abs_of_pos hq]
    exact le_trans h3 (le_max_left _ _)
  have h4 : (2 : ℚ) ^ 1024 ≤ roundMag q := by
    have h5 := two_zpow_le_roundMag hq (two_zpow_binade_le hq h1)
    have h6 : (2 : ℚ) ^ (1024 : ℤ) ≤ 2 ^ binade q := two_zpow_le hb
    rw [two_pow_ge_one_zpow] at h6
    exact le_trans h6 h5
  unfold round64
  rw [if_neg (ne_of_gt hq), if_pos h4]
  simp [JSNum.signedInf, not_lt.mpr hq.le]

/-- A value of the topmost binade rounds to `n * 2^971` when `n` is the integer nearest to
its quotient by the spacing, no tie occurs and the result stays below 2^1024. -/
theorem round64_eq_fin_top {q : ℚ} {n : ℤ} (hlo : (2 : ℚ) ^ (1023 : ℤ) ≤ q)
    (hhi : q < 2 ^ ((1023 : ℤ) + 1)) (hn : |q / 2 ^ ((1023 : ℤ) - 52) - n| < 1 / 2)
    (hfin : (n : ℚ) * 2 ^ ((1023 : ℤ) - 52) < 2 ^ 1024) :
    round64 q = JSNum.fin (n * 2 ^ ((1023 : ℤ) - 52)) := by
  have hq : 0 < q := lt_of_lt_of_le (two_zpow_pos _) hlo
  have hb := binade_eq hq hlo hhi (by norm_num)
  have hm := roundMag_eq hq hb hn
  have hpos : 0 < roundMag q := by
    have := two_zpow_le_roundMag hq (by rw [hb]; exact hlo)
    exact lt_of_lt_of_le (two_zpow_pos _) this
  have hv : roundVal q = roundMag q := by
    unfold roundVal
    rw [if_neg (not_lt.mpr hq.le)]
  unfold round64
  rw [if_neg (ne_of_gt hq), if_neg (not_le.mpr (by rw [hm]; exact hfin)),
    if_neg (ne_of_gt hpos), hv, hm]
/-! ## Bounds on a rounded value -/

theorem two_zpow_neg_53 : (2 : ℚ) ^ (-53 : ℤ) = 1 / 2 ^ 53 := by
  norm_num

/-- A positive value of the normal range rounds to a positive double within the relative
error 2^-53. -/
theorem round64_pos_bounds {q : ℚ} (hlo : (2 : ℚ) ^ (-1022 : ℤ) ≤ q)
    (hhi : q ≤ 3 * 2 ^ (1022 : ℤ)) :
    ∃ v : ℚ, round64 q = JSNum.fin v ∧ 0 < v ∧
      q * (1 - 1 / 2 ^ 53) ≤ v ∧ v ≤ q * (1 + 1 / 2 ^ 53) := by
  obtain ⟨h1, h2, h3⟩ := round64_normal hlo hhi
  rw [two_zpow_neg_53] at h2
  obtain ⟨h4, h5⟩ := abs_le.mp h2
  exact ⟨roundVal q, h1, h3, by linarith, by linarith⟩

/-- The negative of a value of the normal range rounds to the negative of the rounding. -/
theorem round64_neg_bounds {q : ℚ} (hlo : (2 : ℚ) ^ (-1022 : ℤ) ≤ q)
    (hhi : q ≤ 3 * 2 ^ (1022 : ℤ)) :
    ∃ v : ℚ, round64 (-q) = JSNum.fin (-v) ∧ 0 < v ∧
      q * (1 - 1 / 2 ^ 53) ≤ v ∧ v ≤ q * (1 + 1 / 2 ^ 53) := by
  obtain ⟨-, h2, h3⟩ := round64_normal hlo hhi
  obtain ⟨h4, h5⟩ := abs_le.mp h2
  have hq : 0 < q := lt_of_lt_of_le (two_zpow_pos _) hlo
  have hlt : roundVal q < 2 ^ 1024 := by
    rw [two_pow_1024_eq]
    have hA : (0 : ℚ) < 2 ^ (1022 : ℤ) := two_zpow_pos _
    have h6 : (2 : ℚ) ^ (-53 : ℤ) ≤ 1 / 8 := by norm_num
    have h7 : q * 2 ^ (-53 : ℤ) ≤ q * (1 / 8) := mul_le_mul_of_nonneg_left h6 hq.le
    generalize (2 : ℚ) ^ (1022 : ℤ) = A at hhi hA ⊢
    generalize (2 : ℚ) ^ (-53 : ℤ) = ε at h5 h7
    linarith
  rw [two_zpow_neg_53] at h4 h5
  refine ⟨roundVal q, ?_, h3, by linarith, by linarith⟩
  have hp : (0 : ℚ) < 2 ^ 1024 := by positivity
  rcases round64_spec (-q) with h | h | h | h
  · exfalso
    have := h.2
    rw [roundVal_neg] at this
    linarith
  · exfalso
    have := h.2
    rw [roundVal_neg] at this
    linarith
  · exfalso
    have := h.2.1
    rw [roundVal_neg] at this
    linarith
  · rw [h.1, roundVal_neg]

theorem normal_range_lo : (2 : ℚ) ^ (-1022 : ℤ) ≤ 2 ^ (-1000 : ℤ) / 2 ^ 20 := by
  have h : (2 : ℚ) ^ (-1000 : ℤ) / 2 ^ 20 = 2 ^ (-1020 : ℤ) := by
    rw [show (-1000 : ℤ) = -1020 + ((20 : ℕ) : ℤ) by norm_num, zpow_add₀ (by norm_num),
      zpow_natCast, mul_div_assoc, div_self (by positivity), mul_one]
  rw [h]
  exact two_zpow_le (by norm_num)

theorem normal_range_hi : (2 : ℚ) ^ (1000 : ℤ) * 2 ^ 20 ≤ 3 * 2 ^ (1022 : ℤ) := by
  have h : (2 : ℚ) ^ (1000 : ℤ) * 2 ^ 20 = 2 ^ (1020 : ℤ) := by
    rw [show (1020 : ℤ) = 1000 + ((20 : ℕ) : ℤ) by norm_num, zpow_add₀ (by norm_num),
      zpow_natCast]
  rw [h]
  have h2 : (2 : ℚ) ^ (1020 : ℤ) ≤ 2 ^ (1022 : ℤ) := two_zpow_le (by norm_num)
  have h3 : (0 : ℚ) < 2 ^ (1022 : ℤ) := two_zpow_pos _
  linarith

/-! ## The factor 1 + (change24h * k) / 100 of a moving average -/

/-- For a positive change the factor is a double within three roundings of its exact
value. -/
theorem maFactor_pos_bounds {x d : ℚ} (hx : (2 : ℚ) ^ (-1000 : ℤ) ≤ x) (hx2 : x ≤ 100)
    (hd : 1 / 8 ≤ d) (hd2 : d ≤ 3 / 4) :
    ∃ w : ℚ, fadd (JSNum.fin 1) (fdiv (fmul (JSNum.fin x) (JSNum.fin d)) (JSNum.fin 100))
        = JSNum.fin w ∧
      (1 + x * d / 100 * (1 - 1 / 2 ^ 53) ^ 2) * (1 - 1 / 2 ^ 53) ≤ w ∧
      w ≤ (1 + x * d / 100 * (1 + 1 / 2 ^ 53) ^ 2) * (1 + 1 / 2 ^ 53) := by
  have hA : (0 : ℚ) < 2 ^ (-1000 : ℤ) := two_zpow_pos _
  have hlo := normal_range_lo
  have hhi : (100 : ℚ) ≤ 3 * 2 ^ (1022 : ℤ) := by
    have h1 := normal_range_hi
    have h2 : (1 : ℚ) ≤ 2 ^ (1000 : ℤ) := by
      have := two_zpow_le (show (0 : ℤ) ≤ 1000 by norm_num)
      simpa using this
    nlinarith
  have hx0 : 0 < x := lt_of_lt_of_le hA hx
  have hy1 : (2 : ℚ) ^ (-1000 : ℤ) * (1 / 8) ≤ x * d :=
    mul_le_mul hx hd (by norm_num) hx0.le
  have hy2 : x * d ≤ 100 * (3 / 4) :=
    mul_le_mul hx2 hd2 (by linarith) (by norm_num)
  have hd0 : 0 < d := by linarith
  have hB : (2 : ℚ) ^ (-1022 : ℤ) ≤ 1 / 2 ^ 20 := by
    have h1 : (2 : ℚ) ^ (-1022 : ℤ) ≤ 2 ^ (-20 : ℤ) := two_zpow_le (by norm_num)
    have h2 : (2 : ℚ) ^ (-20 : ℤ) = 1 / 2 ^ 20 := by norm_num
    rwa [h2] at h1
  have n1 : (2 : ℚ) ^ (-1022 : ℤ) ≤ x * d := by
    generalize (2 : ℚ) ^ (-1000 : ℤ) = A at hA hlo hy1
    generalize (2 : ℚ) ^ (-1022 : ℤ) = B at hlo ⊢
    linarith only [hA, hlo, hy1]
  have n2 : x * d ≤ 3 * 2 ^ (1022 : ℤ) := by
    generalize (2 : ℚ) ^ (1022 : ℤ) = C at hhi ⊢
    linarith only [hhi, hy2]
  obtain ⟨t, ht, ht0, ht1, ht2⟩ := round64_pos_bounds n1 n2
  have n3 : (2 : ℚ) ^ (-1022 : ℤ) ≤ t / 100 := by
    generalize (2 : ℚ) ^ (-1000 : ℤ) = A at hA hlo hy1
    generalize (2 : ℚ) ^ (-1022 : ℤ) = B at hlo ⊢
    linarith only [hA, hlo, hy1, ht1]
  have n4 : t / 100 ≤ 3 * 2 ^ (1022 : ℤ) := by
    generalize (2 : ℚ) ^ (1022 : ℤ) = C at hhi ⊢
    linarith only [hhi, hy2, ht2]
  obtain ⟨u, hu, hu0, hu1, hu2⟩ := round64_pos_bounds n3 n4
  have n5 : (2 : ℚ) ^ (-1022 : ℤ) ≤ 1 + u := by
    generalize (2 : ℚ) ^ (-1022 : ℤ) = B at hB ⊢
    linarith only [hB, hu0]
  have n6 : 1 + u ≤ 3 * 2 ^ (1022 : ℤ) := by
    generalize (2 : ℚ) ^ (1022 : ℤ) = C at hhi ⊢
    linarith only [hhi, hy2, ht2, hu2]
  obtain ⟨w, hw, hw0, hw1, hw2⟩ := round64_pos_bounds n5 n6
  refine ⟨w, ?_, ?_, ?_⟩
  · rw [fmul_fin_fin_of_ne (ne_of_gt (mul_pos hx0 hd0)), ht,
      fdiv_fin_fin_of_ne (ne_of_gt ht0) (by norm_num), hu,
      fadd_fin_fin_of_ne (by norm_num) (ne_of_gt hu0) (by linarith only [hu0]), hw]
  · linarith only [ht1, hu1, hw1]
  · linarith only [ht2, hu2, hw2]

/-- For a negative change of at most 100 percent the factor is a positive double within
three roundings of its exact value. -/
theorem maFactor_neg_bounds {x d : ℚ} (hx : x ≤ -(2 : ℚ) ^ (-1000 : ℤ)) (hx2 : -100 ≤ x)
    (hd : 1 / 8 ≤ d) (hd2 : d ≤ 3 / 4) :
    ∃ w : ℚ, fadd (JSNum.fin 1) (fdiv (fmul (JSNum.fin x) (JSNum.fin d)) (JSNum.fin 100))
        = JSNum.fin w ∧
      (1 + x * d / 100 * (1 + 1 / 2 ^ 53) ^ 2) * (1 - 1 / 2 ^ 53) ≤ w ∧
      w ≤ (1 + x * d / 100 * (1 - 1 / 2 ^ 53) ^ 2) * (1 + 1 / 2 ^ 53) := by
  have hA : (0 : ℚ) < 2 ^ (-1000 : ℤ) := two_zpow_pos _
  have hlo := normal_range_lo
  have hhi : (100 : ℚ) ≤ 3 * 2 ^ (1022 : ℤ) := by
    have h1 := normal_range_hi
    have h2 : (1 : ℚ) ≤ 2 ^ (1000 : ℤ) := by
      have := two_zpow_le (show (0 : ℤ) ≤ 1000 by norm_num)
      simpa using this
    nlinarith
  have hx0 : 0 < -x := by linarith
  have hd0 : 0 < d := by linarith
  have hy1 : (2 : ℚ) ^ (-1000 : ℤ) * (1 / 8) ≤ -x * d :=
    mul_le_mul (by linarith) hd (by norm_num) hx0.le
  have hy2 : -x * d ≤ 100 * (3 / 4) :=
    mul_le_mul (by linarith) hd2 (by linarith) (by norm_num)
  have hB : (2 : ℚ) ^ (-1022 : ℤ) ≤ 1 / 2 ^ 20 := by
    have h1 : (2 : ℚ) ^ (-1022 : ℤ) ≤ 2 ^ (-20 : ℤ) := two_zpow_le (by norm_num)
    have h2 : (2 : ℚ) ^ (-20 : ℤ) = 1 / 2 ^ 20 := by norm_num
    rwa [h2] at h1
  have n1 : (2 : ℚ) ^ (-1022 : ℤ) ≤ -x * d := by
    generalize (2 : ℚ) ^ (-1000 : ℤ) = A at hA hlo hy1
    generalize (2 : ℚ) ^ (-1022 : ℤ) = B at hlo ⊢
    linarith only [hA, hlo, hy1]
  have n2 : -x * d ≤ 3 * 2 ^ (1022 : ℤ) := by
    generalize (2 : ℚ) ^ (1022 : ℤ) = C at hhi ⊢
    linarith only [hhi, hy2]
  obtain ⟨t, ht, ht0, ht1, ht2⟩ := round64_neg_bounds n1 n2
  have n3 : (2 : ℚ) ^ (-1022 : ℤ) ≤ t / 100 := by
    generalize (2 : ℚ) ^ (-1000 : ℤ) = A at hA hlo hy1
    generalize (2 : ℚ) ^ (-1022 : ℤ) = B at hlo ⊢
    linarith only [hA, hlo, hy1, ht1]
  have n4 : t / 100 ≤ 3 * 2 ^ (1022 : ℤ) := by
    generalize (2 : ℚ) ^ (1022 : ℤ) = C at hhi ⊢
    linarith only [hhi, hy2, ht2]
  obtain ⟨u, hu, hu0, hu1, hu2⟩ := round64_neg_bounds n3 n4
  have hu3 : u ≤ 4 / 5 := by linarith only [hy2, ht2, hu2]
  have n5 : (2 : ℚ) ^ (-1022 : ℤ) ≤ 1 + -u := by
    generalize (2 : ℚ) ^ (-1022 : ℤ) = B at hB ⊢
    linarith only [hB, hu3]
  have n6 : 1 + -u ≤ 3 * 2 ^ (1022 : ℤ) := by
    generalize (2 : ℚ) ^ (1022 : ℤ) = C at hhi ⊢
    linarith only [hhi, hu0]
  obtain ⟨w, hw, hw0, hw1, hw2⟩ := round64_pos_bounds n5 n6
  have e1 : x * d = -(-x * d) := by ring
  have e2 : -t / 100 = -(t / 100) := by ring
  refine ⟨w, ?_, ?_, ?_⟩
  · rw [fmul_fin_fin_of_ne (ne_of_lt (by nlinarith)), e1, ht,
      fdiv_fin_fin_of_ne (by linarith only [ht0]) (by norm_num), e2, hu,
      fadd_fin_fin_of_ne (by norm_num) (by linarith only [hu0]) (by linarith only [hu3]), hw]
  · linarith only [ht2, hu2, hw1]
  · linarith only [ht1, hu1, hw2]
/-! ## The order of the moving averages -/

theorem inv_two_pow_1000 : (1 : ℚ) / 2 ^ 1000 = 2 ^ (-1000 : ℤ) := by
  rw [show (-1000 : ℤ) = -((1000 : ℕ) : ℤ) by norm_num, zpow_neg, zpow_natCast, one_div]

theorem two_pow_1000 : (2 : ℚ) ^ 1000 = 2 ^ (1000 : ℤ) := by
  rw [show (1000 : ℤ) = ((1000 : ℕ) : ℤ) by norm_num, zpow_natCast]

/-- The moving average grows with the product of the change and its coefficient. -/
theorem movingAverage_leNum {p x d₁ d₂ : ℚ} (hp : 0 < p) (h : x * d₁ ≤ x * d₂) :
    (fmul (JSNum.fin p)
      (fadd (JSNum.fin 1) (fdiv (fmul (JSNum.fin x) (JSNum.fin d₁)) (JSNum.fin 100)))).leNum
    (fmul (JSNum.fin p)
      (fadd (JSNum.fin 1) (fdiv (fmul (JSNum.fin x) (JSNum.fin d₂)) (JSNum.fin 100))))
      = true :=
  fmul_fin_leNum hp (fadd_fin_leNum 1 round64_one one_ne_zero
    (fdiv_fin_leNum (by norm_num) (fmul_fin_fin_leNum h)))

/-- A price of the range [2^-1000, 2^1000] keeps two factors that are more than two
roundings apart in strict order. -/
theorem fmul_fin_ltNum_of_gap {p a b : ℚ} (hp : 1 / 2 ^ 1000 ≤ p) (hp2 : p ≤ 2 ^ 1000)
    (ha : 1 / 8 ≤ a) (hb : b ≤ 2) (h : a * (1 + 1 / 2 ^ 53) < b * (1 - 1 / 2 ^ 53)) :
    (fmul (JSNum.fin p) (JSNum.fin a)).ltNum (fmul (JSNum.fin p) (JSNum.fin b)) = true := by
  rw [inv_two_pow_1000] at hp
  rw [two_pow_1000] at hp2
  have hA : (0 : ℚ) < 2 ^ (-1000 : ℤ) := two_zpow_pos _
  have hp0 : 0 < p := lt_of_lt_of_le hA hp
  have ha0 : 0 < a := by linarith only [ha]
  have hb0 : 0 < b := by
    by_contra hc
    have h1 : b * (1 - 1 / 2 ^ 53) ≤ 0 :=
      mul_nonpos_of_nonpos_of_nonneg (not_lt.mp hc) (by norm_num)
    have h2 : 0 < a * (1 + 1 / 2 ^ 53) := mul_pos ha0 (by norm_num)
    linarith only [h, h1, h2]
  have hlo := normal_range_lo
  have hhi := normal_range_hi
  have h1 : (2 : ℚ) ^ (-1000 : ℤ) * (1 / 8) ≤ p * a := mul_le_mul hp ha (by norm_num) hp0.le
  have h2 : p * b ≤ 2 ^ (1000 : ℤ) * 2 := mul_le_mul hp2 hb hb0.le (two_zpow_pos _).le
  have hC : (0 : ℚ) < 2 ^ (1000 : ℤ) := two_zpow_pos _
  have n1 : (2 : ℚ) ^ (-1022 : ℤ) ≤ p * a := by
    generalize (2 : ℚ) ^ (-1000 : ℤ) = A at hA hlo h1
    generalize (2 : ℚ) ^ (-1022 : ℤ) = B at hlo ⊢
    linarith only [hA, hlo, h1]
  have n2 : p * b ≤ 3 * 2 ^ (1022 : ℤ) := by
    generalize (2 : ℚ) ^ (1000 : ℤ) = C at hC hhi h2
    generalize (2 : ℚ) ^ (1022 : ℤ) = E at hhi ⊢
    linarith only [hC, hhi, h2]
  rw [fmul_fin_fin_of_ne (ne_of_gt (mul_pos hp0 ha0)),
    fmul_fin_fin_of_ne (ne_of_gt (mul_pos hp0 hb0))]
  apply round64_ltNum_of_gap n1 n2
  rw [two_zpow_neg_53]
  have h3 := mul_lt_mul_of_pos_left h hp0
  linarith only [h3]

/-- A price of the range [2^-1000, 2^1000] times a factor between 1/8 and 2 is a double
within one rounding of the exact product. -/
theorem fmul_fin_bounds {p w : ℚ} (hp : 1 / 2 ^ 1000 ≤ p) (hp2 : p ≤ 2 ^ 1000)
    (hw : 1 / 8 ≤ w) (hw2 : w ≤ 2) :
    ∃ m : ℚ, fmul (JSNum.fin p) (JSNum.fin w) = JSNum.fin m ∧
      p * w * (1 - 1 / 2 ^ 53) ≤ m ∧ m ≤ p * w * (1 + 1 / 2 ^ 53) := by
  rw [inv_two_pow_1000] at hp
  rw [two_pow_1000] at hp2
  have hA : (0 : ℚ) < 2 ^ (-1000 : ℤ) := two_zpow_pos _
  have hp0 : 0 < p := lt_of_lt_of_le hA hp
  have hw0 : 0 < w := by linarith only [hw]
  have hlo := normal_range_lo
  have hhi := normal_range_hi
  have h1 : (2 : ℚ) ^ (-1000 : ℤ) * (1 / 8) ≤ p * w := mul_le_mul hp hw (by norm_num) hp0.le
  have h2 : p * w ≤ 2 ^ (1000 : ℤ) * 2 := mul_le_mul hp2 hw2 hw0.le (two_zpow_pos _).le
  have hC : (0 : ℚ) < 2 ^ (1000 : ℤ) := two_zpow_pos _
  have n1 : (2 : ℚ) ^ (-1022 : ℤ) ≤ p * w := by
    generalize (2 : ℚ) ^ (-1000 : ℤ) = A at hA hlo h1
    generalize (2 : ℚ) ^ (-1022 : ℤ) = B at hlo ⊢
    linarith only [hA, hlo, h1]
  have n2 : p * w ≤ 3 * 2 ^ (1022 : ℤ) := by
    generalize (2 : ℚ) ^ (1000 : ℤ) = C at hC hhi h2
    generalize (2 : ℚ) ^ (1022 : ℤ) = E at hhi ⊢
    linarith only [hC, hhi, h2]
  obtain ⟨m, hm, -, hm1, hm2⟩ := round64_pos_bounds n1 n2
  exact ⟨m, by rw [fmul_fin_fin_of_ne (ne_of_gt (mul_pos hp0 hw0)), hm], hm1, hm2⟩
/-! ## Strict order of the moving averages for a change that is not tiny -/

theorem two_zpow_neg_1000_le : (2 : ℚ) ^ (-1000 : ℤ) ≤ 1 / 2 ^ 30 := by
  have h1 : (2 : ℚ) ^ (-1000 : ℤ) ≤ 2 ^ (-30 : ℤ) := two_zpow_le (by norm_num)
  have h2 : (2 : ℚ) ^ (-30 : ℤ) = 1 / 2 ^ 30 := by norm_num
  rwa [h2] at h1

/-- For a change between 2^-30 and 100 the moving average with the larger coefficient is
strictly the larger. -/
theorem movingAverage_ltNum_of_pos {p x d₁ d₂ : ℚ} (hp : 1 / 2 ^ 1000 ≤ p)
    (hp2 : p ≤ 2 ^ 1000) (hx : 1 / 2 ^ 30 ≤ x) (hx2 : x ≤ 100) (hd₁ : 1 / 8 ≤ d₁)
    (hd : d₁ + 1 / 10 ≤ d₂) (hd₂ : d₂ ≤ 3 / 4) :
    (fmul (JSNum.fin p)
      (fadd (JSNum.fin 1) (fdiv (fmul (JSNum.fin x) (JSNum.fin d₁)) (JSNum.fin 100)))).ltNum
    (fmul (JSNum.fin p)
      (fadd (JSNum.fin 1) (fdiv (fmul (JSNum.fin x) (JSNum.fin d₂)) (JSNum.fin 100))))
      = true := by
  have hxz : (2 : ℚ) ^ (-1000 : ℤ) ≤ x := le_trans two_zpow_neg_1000_le hx
  have hx0 : 0 < x := lt_of_lt_of_le (by norm_num) hx
  obtain ⟨w₁, e₁, l₁, u₁⟩ := maFactor_pos_bounds hxz hx2 hd₁ (by linarith only [hd, hd₂])
  obtain ⟨w₂, e₂, l₂, u₂⟩ := maFactor_pos_bounds hxz hx2 (by linarith only [hd, hd₁]) hd₂
  have hy₁ : 0 ≤ x * d₁ := mul_nonneg hx0.le (by linarith only [hd₁])
  have hy₁2 : x * d₁ ≤ 100 * (3 / 4) :=
    mul_le_mul hx2 (by linarith only [hd, hd₂]) (by linarith only [hd₁]) (by norm_num)
  have hy₂2 : x * d₂ ≤ 100 * (3 / 4) :=
    mul_le_mul hx2 hd₂ (by linarith only [hd, hd₁]) (by norm_num)
  have hy : x * d₁ + x * (1 / 10) ≤ x * d₂ := by
    have := mul_le_mul_of_nonneg_left hd hx0.le
    linarith only [this]
  rw [e₁, e₂]
  apply fmul_fin_ltNum_of_gap hp hp2
  · linarith only [l₁, hy₁]
  · linarith only [u₂, hy₂2]
  · linarith only [u₁, l₂, hy, hy₁, hy₁2, hx]

/-- For a change between -100 and -2^-30 the moving average with the larger coefficient is
strictly the smaller. -/
theorem movingAverage_ltNum_of_neg {p x d₁ d₂ : ℚ} (hp : 1 / 2 ^ 1000 ≤ p)
    (hp2 : p ≤ 2 ^ 1000) (hx : x ≤ -(1 / 2 ^ 30)) (hx2 : -100 ≤ x) (hd₁ : 1 / 8 ≤ d₁)
    (hd : d₁ + 1 / 10 ≤ d₂) (hd₂ : d₂ ≤ 3 / 4) :
    (fmul (JSNum.fin p)
      (fadd (JSNum.fin 1) (fdiv (fmul (JSNum.fin x) (JSNum.fin d₂)) (JSNum.fin 100)))).ltNum
    (fmul (JSNum.fin p)
      (fadd (JSNum.fin 1) (fdiv (fmul (JSNum.fin x) (JSNum.fin d₁)) (JSNum.fin 100))))
      = true := by
  have hxz : x ≤ -(2 : ℚ) ^ (-1000 : ℤ) := le_trans hx (neg_le_neg two_zpow_neg_1000_le)
  have hx0 : 0 < -x := by linarith only [hx]
  obtain ⟨w₁, e₁, l₁, u₁⟩ := maFactor_neg_bounds hxz hx2 hd₁ (by linarith only [hd, hd₂])
  obtain ⟨w₂, e₂, l₂, u₂⟩ := maFactor_neg_bounds hxz hx2 (by linarith only [hd, hd₁]) hd₂
  have hy₁ : 0 ≤ -x * d₁ := mul_nonneg hx0.le (by linarith only [hd₁])
  have hy₂ : 0 ≤ -x * d₂ := mul_nonneg hx0.le (by linarith only [hd, hd₁])
  have hy₂2 : -x * d₂ ≤ 100 * (3 / 4) :=
    mul_le_mul (by linarith only [hx2]) hd₂ (by linarith only [hd, hd₁]) (by norm_num)
  have hy : -x * d₁ + -x * (1 / 10) ≤ -x * d₂ := by
    have := mul_le_mul_of_nonneg_left hd hx0.le
    linarith only [this]
  rw [e₁, e₂]
  apply fmul_fin_ltNum_of_gap hp hp2
  · linarith only [l₂, hy₂2]
  · linarith only [u₁, hy₁]
  · linarith only [u₂, l₁, hy, hy₁, hy₂, hy₂2, hx]
/-! ## The MACD histogram and the distance of a moving average from its exact value -/

/-- For a change between 2^-30 and 100 the product with the larger coefficient exceeds the
other by a positive double. -/
theorem fsub_fmul_gt_zero_of_pos {x d₁ d₂ : ℚ} (hx : 1 / 2 ^ 30 ≤ x) (hx2 : x ≤ 100)
    (hd₁ : 1 / 8 ≤ d₁) (hd : d₁ + 1 / 10 ≤ d₂) (hd₂ : d₂ ≤ 1) :
    (fsub (fmul (JSNum.fin x) (JSNum.fin d₂)) (fmul (JSNum.fin x) (JSNum.fin d₁))).gt 0
      = true := by
  have hx0 : 0 < x := lt_of_lt_of_le (by norm_num) hx
  have hd₁0 : 0 < d₁ := by linarith only [hd₁]
  have hd₂0 : 0 < d₂ := by linarith only [hd₁, hd]
  have hB : (2 : ℚ) ^ (-1022 : ℤ) ≤ 1 / 2 ^ 40 := by
    have h1 : (2 : ℚ) ^ (-1022 : ℤ) ≤ 2 ^ (-40 : ℤ) := two_zpow_le (by norm_num)
    have h2 : (2 : ℚ) ^ (-40 : ℤ) = 1 / 2 ^ 40 := by norm_num
    rwa [h2] at h1
  have hC : (200 : ℚ) ≤ 3 * 2 ^ (1022 : ℤ) := by
    have h1 : (2 : ℚ) ^ (10 : ℤ) ≤ 2 ^ (1022 : ℤ) := two_zpow_le (by norm_num)
    have h2 : (2 : ℚ) ^ (10 : ℤ) = 1024 := by norm_num
    rw [h2] at h1
    linarith only [h1]
  have hy₁ : 1 / 2 ^ 30 * (1 / 8) ≤ x * d₁ := mul_le_mul hx hd₁ (by norm_num) hx0.le
  have hy₁2 : x * d₁ ≤ 100 * 1 :=
    mul_le_mul hx2 (by linarith only [hd, hd₂]) hd₁0.le (by norm_num)
  have hy₂ : 1 / 2 ^ 30 * (1 / 8) ≤ x * d₂ :=
    mul_le_mul hx (by linarith only [hd, hd₁]) (by norm_num) hx0.le
  have hy₂2 : x * d₂ ≤ 100 * 1 := mul_le_mul hx2 hd₂ hd₂0.le (by norm_num)
  have hy : x * d₁ + x * (1 / 10) ≤ x * d₂ := by
    have := mul_le_mul_of_nonneg_left hd hx0.le
    linarith only [this]
  have n1 : (2 : ℚ) ^ (-1022 : ℤ) ≤ x * d₁ := by
    generalize (2 : ℚ) ^ (-1022 : ℤ) = B at hB ⊢
    linarith only [hB, hy₁]
  have n2 : x * d₁ ≤ 3 * 2 ^ (1022 : ℤ) := by
    generalize (2 : ℚ) ^ (1022 : ℤ) = C at hC ⊢
    linarith only [hC, hy₁2]
  have n3 : (2 : ℚ) ^ (-1022 : ℤ) ≤ x * d₂ := by
    generalize (2 : ℚ) ^ (-1022 : ℤ) = B at hB ⊢
    linarith only [hB, hy₂]
  have n4 : x * d₂ ≤ 3 * 2 ^ (1022 : ℤ) := by
    generalize (2 : ℚ) ^ (1022 : ℤ) = C at hC ⊢
    linarith only [hC, hy₂2]
  obtain ⟨s, hs, hs0, hs1, hs2⟩ := round64_pos_bounds n1 n2
  obtain ⟨l, hl, hl0, hl1, hl2⟩ := round64_pos_bounds n3 n4
  have hls : 1 / 2 ^ 40 ≤ l - s := by linarith only [hs2, hl1, hy, hy₁2, hy₂2, hx]
  have n5 : (2 : ℚ) ^ (-1022 : ℤ) ≤ l - s := le_trans hB hls
  have n6 : l - s ≤ 3 * 2 ^ (1022 : ℤ) := by
    generalize (2 : ℚ) ^ (1022 : ℤ) = C at hC ⊢
    linarith only [hC, hl2, hy₂2, hs0]
  obtain ⟨v, hv, hv0, -, -⟩ := round64_pos_bounds n5 n6
  rw [fmul_fin_fin_of_ne (ne_of_gt (mul_pos hx0 hd₂0)), hl,
    fmul_fin_fin_of_ne (ne_of_gt (mul_pos hx0 hd₁0)), hs,
    fsub_fin_fin_of_ne (ne_of_gt hl0) (ne_of_gt hs0) (by linarith only [hls]), hv]
  simpa [JSNum.gt] using hv0

/-- For a change in [2^-1000, 100] the moving average of the code, with the coefficient `d`
a double within one rounding of `100 * k`, is within the relative distance 2^-48 of
price * (1 + k * change24h). -/
theorem movingAverage_error_pos {p x d k : ℚ} (hp : 1 / 2 ^ 1000 ≤ p) (hp2 : p ≤ 2 ^ 1000)
    (hx : (2 : ℚ) ^ (-1000 : ℤ) ≤ x) (hx2 : x ≤ 100) (hd : 1 / 8 ≤ d) (hd2 : d ≤ 3 / 4)
    (hk1 : k * (1 - 1 / 2 ^ 53) ≤ d / 100) (hk2 : d / 100 ≤ k * (1 + 1 / 2 ^ 53)) :
    ∃ m : ℚ, fmul (JSNum.fin p)
        (fadd (JSNum.fin 1) (fdiv (fmul (JSNum.fin x) (JSNum.fin d)) (JSNum.fin 100)))
        = JSNum.fin m ∧
      |m - p * (1 + k * x)| ≤ p * (1 + k * x) / 2 ^ 48 := by
  have hx0 : 0 < x := lt_of_lt_of_le (two_zpow_pos _) hx
  have hp0 : 0 < p := lt_of_lt_of_le (by positivity) hp
  obtain ⟨w, e, l, u⟩ := maFactor_pos_bounds hx hx2 hd hd2
  have hy : 0 ≤ x * d := mul_nonneg hx0.le (by linarith only [hd])
  have hy2 : x * d ≤ 100 * (3 / 4) := mul_le_mul hx2 hd2 (by linarith only [hd]) (by norm_num)
  have hz1 : x * (k * (1 - 1 / 2 ^ 53)) ≤ x * (d / 100) := mul_le_mul_of_nonneg_left hk1 hx0.le
  have hz2 : x * (d / 100) ≤ x * (k * (1 + 1 / 2 ^ 53)) := mul_le_mul_of_nonneg_left hk2 hx0.le
  obtain ⟨m, hm, hm1, hm2⟩ := fmul_fin_bounds (w := w) hp hp2 (by linarith only [l, hy])
    (by linarith only [u, hy2])
  refine ⟨m, by rw [e, hm], ?_⟩
  have hu : w * (1 + 1 / 2 ^ 53) ≤ (1 + k * x) * (1 + 1 / 2 ^ 48) := by
    linarith only [u, hy, hy2, hz2]
  have hl : (1 + k * x) * (1 - 1 / 2 ^ 48) ≤ w * (1 - 1 / 2 ^ 53) := by
    linarith only [l, hy, hy2, hz1]
  have hu2 := mul_le_mul_of_nonneg_left hu hp0.le
  have hl2 := mul_le_mul_of_nonneg_left hl hp0.le
  rw [abs_le]
  constructor
  · linarith only [hm1, hl2]
  · linarith only [hm2, hu2]

/-- For a change in [-100, -2^-1000] the moving average of the code is within the relative
distance 2^-48 of price * (1 + k * change24h). -/
theorem movingAverage_error_neg {p x d k : ℚ} (hp : 1 / 2 ^ 1000 ≤ p) (hp2 : p ≤ 2 ^ 1000)
    (hx : x ≤ -(2 : ℚ) ^ (-1000 : ℤ)) (hx2 : -100 ≤ x) (hd : 1 / 8 ≤ d) (hd2 : d ≤ 3 / 4)
    (hk1 : k * (1 - 1 / 2 ^ 53) ≤ d / 100) (hk2 : d / 100 ≤ k * (1 + 1 / 2 ^ 53)) :
    ∃ m : ℚ, fmul (JSNum.fin p)
        (fadd (JSNum.fin 1) (fdiv (fmul (JSNum.fin x) (JSNum.fin d)) (JSNum.fin 100)))
        = JSNum.fin m ∧
      |m - p * (1 + k * x)| ≤ p * (1 + k * x) / 2 ^ 48 := by
  have hx0 : 0 < -x := by
    have := two_zpow_pos (-1000)
    linarith only [hx, this]
  have hp0 : 0 < p := lt_of_lt_of_le (by positivity) hp
  obtain ⟨w, e, l, u⟩ := maFactor_neg_bounds hx hx2 hd hd2
  have hy : 0 ≤ -x * d := mul_nonneg hx0.le (by linarith only [hd])
  have hy2 : -x * d ≤ 100 * (3 / 4) :=
    mul_le_mul (by linarith only [hx2]) hd2 (by linarith only [hd]) (by norm_num)
  have hz1 : -x * (k * (1 - 1 / 2 ^ 53)) ≤ -x * (d / 100) :=
    mul_le_mul_of_nonneg_left hk1 hx0.le
  have hz2 : -x * (d / 100) ≤ -x * (k * (1 + 1 / 2 ^ 53)) :=
    mul_le_mul_of_nonneg_left hk2 hx0.le
  obtain ⟨m, hm, hm1, hm2⟩ := fmul_fin_bounds (w := w) hp hp2 (by linarith only [l, hy, hy2])
    (by linarith only [u, hy])
  refine ⟨m, by rw [e, hm], ?_⟩
  have hu : w * (1 + 1 / 2 ^ 53) ≤ (1 + k * x) * (1 + 1 / 2 ^ 48) := by
    linarith only [u, hy, hy2, hz1]
  have hl : (1 + k * x) * (1 - 1 / 2 ^ 48) ≤ w * (1 - 1 / 2 ^ 53) := by
    linarith only [l, hy, hy2, hz2]
  have hu2 := mul_le_mul_of_nonneg_left hu hp0.le
  have hl2 := mul_le_mul_of_nonneg_left hl hp0.le
  rw [abs_le]
  constructor
  · linarith only [hm1, hl2]
  · linarith only [hm2, hu2]
/-! ## The direction labels -/

theorem ma7_eq (c : CoinData) :
    ma7 c = fmul (JSNum.fin (price c)) (fadd (JSNum.fin 1)
      (fdiv (fmul (JSNum.fin (change24h c)) (JSNum.fin (3152519739159347 / 4503599627370496)))
        (JSNum.fin 100))) := by
  unfold ma7
  rw [lit_0_7]

theorem ma25_eq (c : CoinData) :
    ma25 c = fmul (JSNum.fin (price c)) (fadd (JSNum.fin 1)
      (fdiv (fmul (JSNum.fin (change24h c)) (JSNum.fin (3602879701896397 / 9007199254740992)))
        (JSNum.fin 100))) := by
  unfold ma25
  rw [lit_0_4]

theorem ma50_eq (c : CoinData) :
    ma50 c = fmul (JSNum.fin (price c)) (fadd (JSNum.fin 1)
      (fdiv (fmul (JSNum.fin (change24h c)) (JSNum.fin (3602879701896397 / 18014398509481984)))
        (JSNum.fin 100))) := by
  unfold ma50
  rw [lit_0_2]

theorem macdHistogram_eq (c : CoinData) :
    macdHistogram c = fsub
      (fmul (JSNum.fin (change24h c)) (JSNum.fin (3602879701896397 / 4503599627370496)))
      (fmul (JSNum.fin (change24h c)) (JSNum.fin (5404319552844595 / 9007199254740992))) := by
  unfold macdHistogram macdLine signalLine
  rw [lit_0_8, lit_0_6]

/-- With a positive price and a change that is not positive the moving averages are in
ascending order of their periods' coefficients, and the MACD histogram is not positive. -/
theorem direction_of_nonpos (c : CoinData) (hp : price c > 0) (hx : change24h c ≤ 0) :
    (ma7 c).gtNum (ma25 c) = false ∧ (ma25 c).gtNum (ma50 c) = false ∧
      (macdHistogram c).gt 0 = false := by
  rw [ma7_eq, ma25_eq, ma50_eq, macdHistogram_eq]
  refine ⟨?_, ?_, ?_⟩
  · exact JSNum.ltNum_eq_false_of_leNum (movingAverage_leNum hp
      (mul_le_mul_of_nonpos_left (by norm_num) hx))
  · exact JSNum.ltNum_eq_false_of_leNum (movingAverage_leNum hp
      (mul_le_mul_of_nonpos_left (by norm_num) hx))
  · exact fsub_gt_zero_of_leNum (fmul_fin_fin_leNum
      (mul_le_mul_of_nonpos_left (by norm_num) hx))

/-- With a positive price and a change that is not negative the moving averages are in
descending order of their periods' coefficients. -/
theorem direction_of_nonneg (c : CoinData) (hp : price c > 0) (hx : 0 ≤ change24h c) :
    (ma7 c).ltNum (ma25 c) = false ∧ (ma25 c).ltNum (ma50 c) = false := by
  rw [ma7_eq, ma25_eq, ma50_eq]
  refine ⟨?_, ?_⟩
  · exact JSNum.ltNum_eq_false_of_leNum (movingAverage_leNum hp
      (mul_le_mul_of_nonneg_left (by norm_num) hx))
  · exact JSNum.ltNum_eq_false_of_leNum (movingAverage_leNum hp
      (mul_le_mul_of_nonneg_left (by norm_num) hx))

/-- For a price in [2^-1000, 2^1000] and a change in [2^-30, 100] the moving averages are
strictly descending and the MACD histogram is positive. -/
theorem direction_of_pos (c : CoinData) (hp : 1 / 2 ^ 1000 ≤ price c)
    (hp2 : price c ≤ 2 ^ 1000) (hx : 1 / 2 ^ 30 ≤ change24h c) (hx2 : change24h c ≤ 100) :
    (ma7 c).gtNum (ma25 c) = true ∧ (ma25 c).gtNum (ma50 c) = true ∧
      (macdHistogram c).gt 0 = true := by
  rw [ma7_eq, ma25_eq, ma50_eq, macdHistogram_eq]
  refine ⟨?_, ?_, ?_⟩
  · exact movingAverage_ltNum_of_pos hp hp2 hx hx2 (by norm_num) (by norm_num) (by norm_num)
  · exact movingAverage_ltNum_of_pos hp hp2 hx hx2 (by norm_num) (by norm_num) (by norm_num)
  · exact fsub_fmul_gt_zero_of_pos hx hx2 (by norm_num) (by norm_num) (by norm_num)

/-- For a price in [2^-1000, 2^1000] and a change in [-100, -2^-30] the moving averages are
strictly ascending. -/
theorem direction_of_neg (c : CoinData) (hp : 1 / 2 ^ 1000 ≤ price c)
    (hp2 : price c ≤ 2 ^ 1000) (hx : change24h c ≤ -(1 / 2 ^ 30)) (hx2 : -100 ≤ change24h c) :
    (ma7 c).ltNum (ma25 c) = true ∧ (ma25 c).ltNum (ma50 c) = true := by
  rw [ma7_eq, ma25_eq, ma50_eq]
  refine ⟨?_, ?_⟩
  · exact movingAverage_ltNum_of_neg hp hp2 hx hx2 (by norm_num) (by norm_num) (by norm_num)
  · exact movingAverage_ltNum_of_neg hp hp2 hx hx2 (by norm_num) (by norm_num) (by norm_num)

theorem movingAverages_trend_eq (c : CoinData) :
    (generateTechnicalAnalysis c).technicalIndicators.movingAverages.trend =
      (if (ma7 c).gtNum (ma25 c) = true ∧ (ma25 c).gtNum (ma50 c) = true then "BULLISH"
      else if (ma7 c).ltNum (ma25 c) = true ∧ (ma25 c).ltNum (ma50 c) = true then "BEARISH"
      else "MIXED") :=
  rfl

theorem macd_trend_eq (c : CoinData) :
    (generateTechnicalAnalysis c).technicalIndicators.macd.trend =
      (if (macdHistogram c).gt 0 = true then "BULLISH" else "BEARISH") :=
  rfl

theorem marketPhase_eq (c : CoinData) :
    (generateTechnicalAnalysis c).marketAnalysis.marketPhase =
      (if change24h c > 0 then "ACCUMULATION" else "DISTRIBUTION") :=
  rfl

/-- At a snapshot up by the smallest positive double the MACD line and the signal round to
that same double, and the histogram is zero. -/
theorem macd_faintCoin :
    change24h faintCoin = 1 / 2 ^ 1074 ∧
    macdLine faintCoin = JSNum.fin (1 / 2 ^ 1074) ∧
    signalLine faintCoin = JSNum.fin (1 / 2 ^ 1074) ∧
    macdHistogram faintCoin = JSNum.fin 0 := by
  have hc : change24h faintCoin = 1 / 2 ^ 1074 := by
    norm_num [change24h, jsOrNum, jsOr, faintCoin]
  have e1 : fmul (JSNum.fin (1 / 2 ^ 1074)) (JSNum.fin
      (3602879701896397 / 4503599627370496)) = JSNum.fin (1 / 2 ^ 1074) := by
    rw [fmul_fin_fin_of_ne (by norm_num),
      round64_eq_fin_subnormal (q := (1 / 2 ^ 1074) * (3602879701896397 / 4503599627370496))
      (n := 1) (by norm_num) (by norm_num) (by norm_num [abs_lt]) (by norm_num)]
    norm_num
  have e2 : fmul (JSNum.fin (1 / 2 ^ 1074)) (JSNum.fin
      (5404319552844595 / 9007199254740992)) = JSNum.fin (1 / 2 ^ 1074) := by
    rw [fmul_fin_fin_of_ne (by norm_num),
      round64_eq_fin_subnormal (q := (1 / 2 ^ 1074) * (5404319552844595 / 9007199254740992))
      (n := 1) (by norm_num) (by norm_num) (by norm_num [abs_lt]) (by norm_num)]
    norm_num
  have hl : macdLine faintCoin = JSNum.fin (1 / 2 ^ 1074) := by
    unfold macdLine
    rw [hc, lit_0_8, e1]
  have hs : signalLine faintCoin = JSNum.fin (1 / 2 ^ 1074) := by
    unfold signalLine
    rw [hc, lit_0_6, e2]
  refine ⟨hc, hl, hs, ?_⟩
  unfold macdHistogram
  rw [hl, hs, fsub_self_fin]
/-! ## The order of the price levels -/

theorem toFixed_value_natCast (N f : ℕ) : (toFixed (N : ℚ) f).value = N := by
  have hp : (0 : ℚ) < 10 ^ f := by positivity
  have h0 : ¬ ((N : ℚ) < 0) := not_lt.mpr (Nat.cast_nonneg N)
  have hfl : ⌊(N : ℚ) * 10 ^ f + 1 / 2⌋ = ((N * 10 ^ f : ℕ) : ℤ) := by
    rw [Int.floor_eq_iff]
    push_cast
    constructor <;> linarith
  simp only [toFixed, if_neg h0, hfl, Int.toNat_ofNat, Fixed.value, Bool.false_eq_true,
    if_false]
  push_cast
  field_simp

theorem toFixed_value_le {a : ℚ} (f : ℕ) (h0 : 0 ≤ a) (N : ℕ) (h : a ≤ N) :
    (toFixed a f).value ≤ N := by
  have h1 := toFixed_value_mono a N f h0 h
  rwa [toFixed_value_natCast] at h1

/-- On doubles that are not negative, the number a `toFixed` string denotes grows with the
double. -/
theorem toFixedNum_value_leNum {x y : JSNum} (f : ℕ) (hx : (JSNum.fin 0).leNum x = true)
    (h : x.leNum y = true) :
    ((toFixedNum x f).value).leNum ((toFixedNum y f).value) = true := by
  have key : ∀ a b : ℚ, 0 ≤ a → a ≤ b →
      ((toFixedNum (JSNum.fin a) f).value).leNum ((toFixedNum (JSNum.fin b) f).value)
        = true := by
    intro a b ha hab
    have hb : 0 ≤ b := le_trans ha hab
    by_cases h1 : |a| < 10 ^ 21
    · by_cases h2 : |b| < 10 ^ 21
      · simp only [toFixedNum, if_pos h1, if_pos h2, FixedText.value, JSNum.leNum, JSNum.ltNum,
          JSNum.lt, Bool.not_eq_true', decide_eq_false_iff_not, not_lt]
        exact toFixed_value_mono a b f ha hab
      · simp only [toFixedNum, if_pos h1, if_neg h2, FixedText.value, JSNum.leNum, JSNum.ltNum,
          JSNum.lt, Bool.not_eq_true', decide_eq_false_iff_not, not_lt]
        rw [abs_of_nonneg ha] at h1
        rw [abs_of_nonneg hb, not_lt] at h2
        have h3 := toFixed_value_le f ha (10 ^ 21) (by push_cast; exact h1.le)
        push_cast at h3
        exact le_trans h3 h2
    · by_cases h2 : |b| < 10 ^ 21
      · exfalso
        rw [abs_of_nonneg ha] at h1
        rw [abs_of_nonneg hb] at h2
        exact h1 (lt_of_le_of_lt hab h2)
      · simp only [toFixedNum, if_neg h1, if_neg h2, FixedText.value, JSNum.leNum, JSNum.ltNum,
          JSNum.lt, Bool.not_eq_true', decide_eq_false_iff_not, not_lt]
        exact hab
  have hz : toFixedNum JSNum.negZero f = toFixedNum (JSNum.fin 0) f := by
    simp [toFixedNum]
  cases x with
  | nan => simp [JSNum.leNum] at h
  | negInf => simp [JSNum.leNum, JSNum.ltNum, JSNum.lt] at hx
  | posInf =>
    cases y <;> simp [JSNum.leNum, JSNum.ltNum, JSNum.lt] at h
    simp [toFixedNum, FixedText.value, JSNum.leNum, JSNum.ltNum]
  | negZero =>
    rw [hz]
    cases y with
    | nan => simp [JSNum.leNum] at h
    | negInf => simp [JSNum.leNum, JSNum.ltNum, JSNum.lt] at h
    | posInf =>
      by_cases h1 : |(0 : ℚ)| < 10 ^ 21 <;>
        simp [toFixedNum, FixedText.value, JSNum.leNum, JSNum.ltNum, JSNum.lt, h1]
    | negZero =>
      rw [hz]
      exact key 0 0 le_rfl le_rfl
    | fin b =>
      have hb : 0 ≤ b := by
        simpa [JSNum.leNum, JSNum.ltNum, JSNum.lt] using h
      exact key 0 b le_rfl hb
  | fin a =>
    have ha : 0 ≤ a := by
      simpa [JSNum.leNum, JSNum.ltNum, JSNum.lt] using hx
    cases y with
    | nan => simp [JSNum.leNum] at h
    | negInf => simp [JSNum.leNum, JSNum.ltNum, JSNum.lt] at h
    | posInf =>
      by_cases h1 : |a| < 10 ^ 21 <;>
        simp [toFixedNum, FixedText.value, JSNum.leNum, JSNum.ltNum, JSNum.lt, h1]
    | negZero =>
      rw [hz]
      have ha0 : a ≤ 0 := by
        simpa [JSNum.leNum, JSNum.ltNum, JSNum.lt] using h
      exact key a 0 ha ha0
    | fin b =>
      have hab : a ≤ b := by
        simpa [JSNum.leNum, JSNum.ltNum, JSNum.lt] using h
      exact key a b ha hab

theorem level_nonneg {p a : ℚ} (hp : 0 < p) (ha : 0 < a) :
    (JSNum.fin 0).leNum (fmul (JSNum.fin p) (JSNum.fin a)) = true := by
  rw [fmul_fin_fin_of_ne (ne_of_gt (mul_pos hp ha)), ← round64_zero]
  exact round64_mono (mul_pos hp ha).le

theorem level_leNum {p a b : ℚ} (hp : 0 < p) (h : a ≤ b) :
    (fmul (JSNum.fin p) (JSNum.fin a)).leNum (fmul (JSNum.fin p) (JSNum.fin b)) = true :=
  fmul_fin_fin_leNum (mul_le_mul_of_nonneg_left h hp.le)

theorem level_leNum_price {p a : ℚ} (hp : 0 < p) (hd : IsDouble p) (h0 : 0 < a) (h : a ≤ 1) :
    (fmul (JSNum.fin p) (JSNum.fin a)).leNum (JSNum.fin p) = true := by
  unfold IsDouble at hd
  rw [fmul_fin_fin_of_ne (ne_of_gt (mul_pos hp h0)), ← hd]
  exact round64_mono (by nlinarith)

theorem price_leNum_level {p b : ℚ} (hp : 0 < p) (hd : IsDouble p) (h : 1 ≤ b) :
    (JSNum.fin p).leNum (fmul (JSNum.fin p) (JSNum.fin b)) = true := by
  unfold IsDouble at hd
  rw [fmul_fin_fin_of_ne (ne_of_gt (mul_pos hp (by linarith only [h]))), ← hd]
  exact round64_mono (by nlinarith)

/-- For a price in [2^-1021, 2^1023] two products whose coefficients are more than two
roundings apart round to doubles in the same strict order. -/
theorem round64_mul_ltNum {p a b : ℚ} (hp : 1 / 2 ^ 1021 ≤ p) (hp2 : p ≤ 2 ^ 1023)
    (ha : 1 / 2 ≤ a) (hb : b ≤ 3 / 2) (h : a * (1 + 1 / 2 ^ 53) < b * (1 - 1 / 2 ^ 53)) :
    (round64 (p * a)).ltNum (round64 (p * b)) = true := by
  have e1 : (1 : ℚ) / 2 ^ 1021 = 2 * 2 ^ (-1022 : ℤ) := by
    rw [← two_zpow_succ, show (-1022 : ℤ) + 1 = -((1021 : ℕ) : ℤ) by norm_num, zpow_neg,
      zpow_natCast, one_div]
  have e2 : (2 : ℚ) ^ 1023 = 2 * 2 ^ (1022 : ℤ) := by
    rw [← two_zpow_succ, show (1022 : ℤ) + 1 = ((1023 : ℕ) : ℤ) by norm_num, zpow_natCast]
  rw [e1] at hp
  rw [e2] at hp2
  have hB : (0 : ℚ) < 2 ^ (-1022 : ℤ) := two_zpow_pos _
  have hC : (0 : ℚ) < 2 ^ (1022 : ℤ) := two_zpow_pos _
  have hp0 : 0 < p := by
    generalize (2 : ℚ) ^ (-1022 : ℤ) = B at hp hB
    linarith only [hp, hB]
  have ha0 : 0 < a := by linarith only [ha]
  have hb0 : 0 < b := by
    by_contra hc
    have h1 : b * (1 - 1 / 2 ^ 53) ≤ 0 :=
      mul_nonpos_of_nonpos_of_nonneg (not_lt.mp hc) (by norm_num)
    have h2 : 0 < a * (1 + 1 / 2 ^ 53) := mul_pos ha0 (by norm_num)
    linarith only [h, h1, h2]
  have h1 : 2 * (2 : ℚ) ^ (-1022 : ℤ) * (1 / 2) ≤ p * a :=
    mul_le_mul hp ha (by norm_num) hp0.le
  have h2 : p * b ≤ 2 * 2 ^ (1022 : ℤ) * (3 / 2) :=
    mul_le_mul hp2 hb hb0.le (by positivity)
  have n1 : (2 : ℚ) ^ (-1022 : ℤ) ≤ p * a := by
    generalize (2 : ℚ) ^ (-1022 : ℤ) = B at h1 ⊢
    linarith only [h1]
  have n2 : p * b ≤ 3 * 2 ^ (1022 : ℤ) := by
    generalize (2 : ℚ) ^ (1022 : ℤ) = C at h2 ⊢
    linarith only [h2]
  apply round64_ltNum_of_gap n1 n2
  rw [two_zpow_neg_53]
  have h3 := mul_lt_mul_of_pos_left h hp0
  linarith only [h3]

theorem level_ltNum {p a b : ℚ} (hp : 1 / 2 ^ 1021 ≤ p) (hp2 : p ≤ 2 ^ 1023)
    (ha : 1 / 2 ≤ a) (hb : b ≤ 3 / 2) (h : a * (1 + 1 / 2 ^ 53) < b * (1 - 1 / 2 ^ 53)) :
    (fmul (JSNum.fin p) (JSNum.fin a)).ltNum (fmul (JSNum.fin p) (JSNum.fin b)) = true := by
  have hp0 : 0 < p := lt_of_lt_of_le (by positivity) hp
  have ha0 : 0 < a := by linarith only [ha]
  have hb0 : 0 < b := by
    by_contra hc
    have h1 : b * (1 - 1 / 2 ^ 53) ≤ 0 :=
      mul_nonpos_of_nonpos_of_nonneg (not_lt.mp hc) (by norm_num)
    have h2 : 0 < a * (1 + 1 / 2 ^ 53) := mul_pos ha0 (by norm_num)
    linarith only [h, h1, h2]
  rw [fmul_fin_fin_of_ne (ne_of_gt (mul_pos hp0 ha0)),
    fmul_fin_fin_of_ne (ne_of_gt (mul_pos hp0 hb0))]
  exact round64_mul_ltNum hp hp2 ha hb h

theorem level_ltNum_price {p a : ℚ} (hp : 1 / 2 ^ 1021 ≤ p) (hp2 : p ≤ 2 ^ 1023)
    (hd : IsDouble p) (ha : 1 / 2 ≤ a) (h : a * (1 + 1 / 2 ^ 53) < 1 * (1 - 1 / 2 ^ 53)) :
    (fmul (JSNum.fin p) (JSNum.fin a)).ltNum (JSNum.fin p) = true := by
  have hp0 : 0 < p := lt_of_lt_of_le (by positivity) hp
  have ha0 : 0 < a := by linarith only [ha]
  unfold IsDouble at hd
  have h1 := round64_mul_ltNum hp hp2 ha (by norm_num) h
  rw [mul_one, hd] at h1
  rw [fmul_fin_fin_of_ne (ne_of_gt (mul_pos hp0 ha0))]
  exact h1

theorem price_ltNum_level {p b : ℚ} (hp : 1 / 2 ^ 1021 ≤ p) (hp2 : p ≤ 2 ^ 1023)
    (hd : IsDouble p) (hb : b ≤ 3 / 2) (h : 1 * (1 + 1 / 2 ^ 53) < b * (1 - 1 / 2 ^ 53)) :
    (JSNum.fin p).ltNum (fmul (JSNum.fin p) (JSNum.fin b)) = true := by
  have hp0 : 0 < p := lt_of_lt_of_le (by positivity) hp
  have hb0 : 0 < b := by
    by_contra hc
    have h1 : b * (1 - 1 / 2 ^ 53) ≤ 0 :=
      mul_nonpos_of_nonpos_of_nonneg (not_lt.mp hc) (by norm_num)
    linarith only [h, h1]
  unfold IsDouble at hd
  have h1 := round64_mul_ltNum hp hp2 (by norm_num) hb h
  rw [mul_one, hd] at h1
  rw [fmul_fin_fin_of_ne (ne_of_gt (mul_pos hp0 hb0))]
  exact h1

/-! ## Sample evaluations shared by the claims -/

/-- At a price of the largest finite double the three resistance products overflow. -/
theorem levels_hugeCoin :
    price hugeCoin = (9007199254740991 * 2 ^ 971) ∧ IsDouble (price hugeCoin) ∧
    fmul (JSNum.fin (price hugeCoin)) (lit 1.05) = JSNum.posInf ∧
    fmul (JSNum.fin (price hugeCoin)) (lit 1.10) = JSNum.posInf ∧
    fmul (JSNum.fin (price hugeCoin)) (lit 1.15) = JSNum.posInf := by
  have hp : price hugeCoin = (9007199254740991 * 2 ^ 971) := by
    norm_num [price, jsOrNum, jsOr, hugeCoin]
  have hd : IsDouble (price hugeCoin) := by
    rw [hp]
    unfold IsDouble
    rw [round64_eq_fin_top (q := (9007199254740991 * 2 ^ 971)) (n := 9007199254740991) (by norm_num) (by norm_num) (by norm_num [abs_lt]) (by norm_num)]
    norm_num
  refine ⟨hp, hd, ?_, ?_, ?_⟩
  · rw [hp, lit_1_05, fmul_fin_fin_of_ne (by norm_num), round64_eq_posInf (by norm_num)]
  · rw [hp, lit_1_10, fmul_fin_fin_of_ne (by norm_num), round64_eq_posInf (by norm_num)]
  · rw [hp, lit_1_15, fmul_fin_fin_of_ne (by norm_num), round64_eq_posInf (by norm_num)]
/-! ## The indicator deriver -/

/-- C1: the volume deviation of the code is the deviation `d` of the specification,
(volume - 0.05 * marketCap) / (0.05 * marketCap) * 100 evaluated in binary64, and the
sentiment label is chosen by the first matching branch: STRONGLY BULLISH when change24h > 10
and d > 15, else BULLISH when change24h > 5, else STRONGLY BEARISH when change24h < -10 and
d > 15, else BEARISH when change24h < -5, else NEUTRAL.  A change of 12 with d > 15 gives
STRONGLY BULLISH, a change of -12 with d > 15 gives STRONGLY BEARISH.  This holds for every
snapshot, those with a positive market capitalisation included. -/
theorem sentiment_first_matching_branch (c : CoinData) :
    volumeChange c = specVolumeDeviation (volume c) (marketCap c) ∧
    (generateTechnicalAnalysis c).marketAnalysis.sentiment =
      (if change24h c > 10 ∧ (specVolumeDeviation (volume c) (marketCap c)).gt 15 = true then
        "STRONGLY BULLISH"
      else if change24h c > 5 then "BULLISH"
      else if change24h c < -10 ∧
          (specVolumeDeviation (volume c) (marketCap c)).gt 15 = true then
        "STRONGLY BEARISH"
      else if change24h c < -5 then "BEARISH"
      else "NEUTRAL") ∧
    (change24h c = 12 → (specVolumeDeviation (volume c) (marketCap c)).gt 15 = true →
      (generateTechnicalAnalysis c).marketAnalysis.sentiment = "STRONGLY BULLISH") ∧
    (change24h c = -12 → (specVolumeDeviation (volume c) (marketCap c)).gt 15 = true →
      (generateTechnicalAnalysis c).marketAnalysis.sentiment = "STRONGLY BEARISH") := by
  have hv := volumeChange_eq_spec c
  have hs : (generateTechnicalAnalysis c).marketAnalysis.sentiment =
      (if change24h c > 10 ∧ (specVolumeDeviation (volume c) (marketCap c)).gt 15 = true then
        "STRONGLY BULLISH"
      else if change24h c > 5 then "BULLISH"
      else if change24h c < -10 ∧
          (specVolumeDeviation (volume c) (marketCap c)).gt 15 = true then
        "STRONGLY BEARISH"
      else if change24h c < -5 then "BEARISH"
      else "NEUTRAL") := by
    simp only [generateTechnicalAnalysis, overallSentiment, hv]
  refine ⟨hv, hs, ?_, ?_⟩
  · intro h12 hd
    rw [hs, if_pos ⟨by rw [h12]; norm_num, hd⟩]
  · intro h12 hd
    rw [hs, if_neg (by rw [h12]; norm_num), if_neg (by rw [h12]; norm_num),
      if_pos ⟨by rw [h12]; norm_num, hd⟩]

/-- C1, at a snapshot up 12 percent with volume 5.2325 and market capitalisation 91: the
deviation evaluates to the double 15.000000000000002, which exceeds 15, and the sentiment is
STRONGLY BULLISH. -/
theorem sentiment_first_matching_branch_witness :
    change24h thresholdCoin = 12 ∧
    specVolumeDeviation (volume thresholdCoin) (marketCap thresholdCoin)
      = JSNum.fin (8444249301319681 / 562949953421312) ∧
    (generateTechnicalAnalysis thresholdCoin).marketAnalysis.sentiment
      = "STRONGLY BULLISH" := by
  have hc : change24h thresholdCoin = 12 := by
    norm_num [change24h, jsOrNum, jsOr, thresholdCoin]
  have hm : marketCap thresholdCoin = 91 := by
    norm_num [marketCap, jsOrNum, jsOr, thresholdCoin]
  have hvol : volume thresholdCoin = (2945635631277015 / 562949953421312) := by
    norm_num [volume, jsOrNum, jsOr, thresholdCoin]
  have e1 : fmul (JSNum.fin 91) (JSNum.fin (3602879701896397 / 72057594037927936)) = JSNum.fin
      (5122844576133939 / 1125899906842624) := by
    rw [fmul_fin_fin_of_ne (by norm_num),
      round64_eq_fin (q := 91 * (3602879701896397 / 72057594037927936)) (e := 2)
      (n := 5122844576133939) (by norm_num) (by norm_num) (by norm_num) (by norm_num)
      (by norm_num) (by norm_num [abs_lt])]
    norm_num
  have e2 : fsub (JSNum.fin (2945635631277015 / 562949953421312)) (JSNum.fin
      (5122844576133939 / 1125899906842624)) = JSNum.fin (768426686420091 / 1125899906842624) := by
    rw [fsub_fin_fin_of_ne (by norm_num) (by norm_num) (by norm_num),
      round64_eq_fin (q := (2945635631277015 / 562949953421312) -
      (5122844576133939 / 1125899906842624)) (e := -1) (n := 6147413491360728) (by norm_num)
      (by norm_num) (by norm_num) (by norm_num) (by norm_num) (by norm_num [abs_lt])]
    norm_num
  have e3 : fdiv (JSNum.fin (768426686420091 / 1125899906842624)) (JSNum.fin
      (5122844576133939 / 1125899906842624)) = JSNum.fin (1351079888211149 / 9007199254740992) := by
    rw [fdiv_fin_fin_of_ne (by norm_num) (by norm_num),
      round64_eq_fin (q := (768426686420091 / 1125899906842624) /
      (5122844576133939 / 1125899906842624)) (e := -3) (n := 5404319552844596) (by norm_num)
      (by norm_num) (by norm_num) (by norm_num) (by norm_num) (by norm_num [abs_lt])]
    norm_num
  have e4 : fmul (JSNum.fin (1351079888211149 / 9007199254740992)) (JSNum.fin 100) = JSNum.fin
      (8444249301319681 / 562949953421312) := by
    rw [fmul_fin_fin_of_ne (by norm_num),
      round64_eq_fin (q := (1351079888211149 / 9007199254740992) * 100) (e := 3)
      (n := 8444249301319681) (by norm_num) (by norm_num) (by norm_num) (by norm_num)
      (by norm_num) (by norm_num [abs_lt])]
    norm_num
  have hd : volumeChange thresholdCoin = JSNum.fin (8444249301319681 / 562949953421312) := by
    unfold volumeChange
    rw [hm, hvol, lit_0_05, e1, e2, e3, e4]
  have h := sentiment_first_matching_branch thresholdCoin
  have hd2 : specVolumeDeviation (volume thresholdCoin) (marketCap thresholdCoin)
      = JSNum.fin (8444249301319681 / 562949953421312) := by
    rw [← h.1, hd]
  refine ⟨hc, hd2, h.2.2.1 hc ?_⟩
  rw [hd2]
  norm_num [JSNum.gt]

/-- C2: the RSI of the code before the clamp is 50 + 0.5 * change24h evaluated in binary64;
the clamped RSI is a double `q` between 0 and 100, the clamp of that sum to [0, 100]; the
reported figure is `q` rounded to one decimal place; and the label is OVERSOLD when `q`
exceeds 70, OVERBOUGHT when it is below 30 and NEUTRAL otherwise.  A change of zero gives an
RSI of 50, reported as 50.0, and the label NEUTRAL. -/
theorem rsi_clamped_and_labelled (c : CoinData) :
    rsi c = specRsi (change24h c) ∧
    (∃ q : ℚ, clampValue (specRsi (change24h c)) 0 100 = some q ∧
      normalizedRSI c = JSNum.fin q ∧ 0 ≤ q ∧ q ≤ 100 ∧
      (generateTechnicalAnalysis c).technicalIndicators.rsi
        = FixedText.digits (toFixed q 1) ∧
      IsRounded (toFixed q 1) q 1 ∧
      (generateTechnicalAnalysis c).technicalIndicators.rsiSignal =
        (if q > 70 then "OVERSOLD" else if q < 30 then "OVERBOUGHT" else "NEUTRAL")) ∧
    (change24h c = 0 →
      normalizedRSI c = JSNum.fin 50 ∧
      (∃ r : Fixed, (generateTechnicalAnalysis c).technicalIndicators.rsi
        = FixedText.digits r ∧ r.render = "50.0") ∧
      (generateTechnicalAnalysis c).technicalIndicators.rsiSignal = "NEUTRAL") := by
  have hspec := rsi_eq_spec c
  obtain ⟨q, hq, h0, h100, hclamp⟩ := fmax_fmin_eq_clamp (rsi_ne_nan c)
  have hn : normalizedRSI c = JSNum.fin q := hq
  have hlt : |q| < 10 ^ 21 := by
    rw [abs_of_nonneg h0]
    exact lt_of_le_of_lt h100 (by norm_num)
  have hr : (generateTechnicalAnalysis c).technicalIndicators.rsi
      = FixedText.digits (toFixed q 1) := by
    show toFixedNum (normalizedRSI c) 1 = _
    rw [hn, toFixedNum_fin_of_lt 1 hlt]
  have hl : (generateTechnicalAnalysis c).technicalIndicators.rsiSignal =
      (if q > 70 then "OVERSOLD" else if q < 30 then "OVERBOUGHT" else "NEUTRAL") := by
    simp only [generateTechnicalAnalysis, hn, JSNum.gt, JSNum.lt, decide_eq_true_eq]
  refine ⟨hspec, ⟨q, ?_, hn, h0, h100, hr, toFixed_isRounded _ _, hl⟩, ?_⟩
  · rw [← hspec]
    exact hclamp
  · intro hc
    have hrsi : rsi c = JSNum.fin 50 := by
      unfold rsi
      rw [hc, lit_0_5, fmul_zero_fin (by norm_num)]
      simp [fadd]
    have h50 : normalizedRSI c = JSNum.fin 50 := by
      unfold normalizedRSI
      rw [hrsi]
      simp [fmax, fmin, JSNum.ltNum, JSNum.lt, show ¬ ((100 : ℚ) < 50) by norm_num,
        show (50 : ℚ) < 100 by norm_num, show (0 : ℚ) < 50 by norm_num,
        show ¬ ((50 : ℚ) < 0) by norm_num]
    have hq50 : q = 50 := by
      rw [hn] at h50
      exact JSNum.fin.inj h50
    have hf : toFixed (50 : ℚ) 1 = { neg := false, n := 500, digits := 1 } := by
      norm_num [toFixed]
      rfl
    refine ⟨h50, ⟨toFixed q 1, hr, ?_⟩, ?_⟩
    · rw [hq50, hf]
      decide
    · rw [hl, hq50]
      norm_num

/-- C2, at two snapshots.  With a change of 0.1 the sum 50 + 0.5 * 0.1 evaluates to the
double just below 50.05, so the RSI is reported as 50.0 and labelled NEUTRAL.  At a
coin-details record without a 24h change the change defaults to zero, the RSI is 50,
reported as 50.0, and the label is NEUTRAL. -/
theorem rsi_clamped_and_labelled_witness :
    (normalizedRSI tenthCoin = JSNum.fin (3521955646092083 / 70368744177664) ∧
    (∃ r : Fixed, (generateTechnicalAnalysis tenthCoin).technicalIndicators.rsi
      = FixedText.digits r ∧ r.render = "50.0") ∧
    (generateTechnicalAnalysis tenthCoin).technicalIndicators.rsiSignal = "NEUTRAL") ∧
    (change24h detailsCoin = 0 ∧
    normalizedRSI detailsCoin = JSNum.fin 50 ∧
    (∃ r : Fixed, (generateTechnicalAnalysis detailsCoin).technicalIndicators.rsi
      = FixedText.digits r ∧ r.render = "50.0") ∧
    (generateTechnicalAnalysis detailsCoin).technicalIndicators.rsiSignal = "NEUTRAL") := by
  have hc : change24h tenthCoin = (3602879701896397 / 36028797018963968) := by
    norm_num [change24h, jsOrNum, jsOr, tenthCoin]
  have e1 : fmul (JSNum.fin (3602879701896397 / 36028797018963968)) (JSNum.fin
      (1 / 2)) = JSNum.fin (3602879701896397 / 72057594037927936) := by
    rw [fmul_fin_fin_of_ne (by norm_num),
      round64_eq_fin (q := (3602879701896397 / 36028797018963968) * (1 / 2)) (e := -5)
      (n := 7205759403792794) (by norm_num) (by norm_num) (by norm_num) (by norm_num)
      (by norm_num) (by norm_num [abs_lt])]
    norm_num
  have e2 : fadd (JSNum.fin 50) (JSNum.fin (3602879701896397 / 72057594037927936)) = JSNum.fin
      (3521955646092083 / 70368744177664) := by
    rw [fadd_fin_fin_of_ne (by norm_num) (by norm_num) (by norm_num),
      round64_eq_fin (q := 50 + (3602879701896397 / 72057594037927936)) (e := 5)
      (n := 7043911292184166) (by norm_num) (by norm_num) (by norm_num) (by norm_num)
      (by norm_num) (by norm_num [abs_lt])]
    norm_num
  have hrsi : rsi tenthCoin = JSNum.fin (3521955646092083 / 70368744177664) := by
    unfold rsi
    rw [hc, lit_0_5, e1, e2]
  have hn : normalizedRSI tenthCoin = JSNum.fin (3521955646092083 / 70368744177664) := by
    unfold normalizedRSI
    rw [hrsi]
    simp [fmax, fmin, JSNum.ltNum, JSNum.lt,
      show ¬ ((100 : ℚ) < (3521955646092083 / 70368744177664)) by norm_num,
      show ((3521955646092083 / 70368744177664) : ℚ) < 100 by norm_num,
      show (0 : ℚ) < (3521955646092083 / 70368744177664) by norm_num,
      show ¬ (((3521955646092083 / 70368744177664) : ℚ) < 0) by norm_num]
  have hc0 : change24h detailsCoin = 0 := by
    simp [change24h, jsOrNum, jsOr, detailsCoin]
  obtain ⟨-, ⟨q, -, hq, -, -, hr, -, hl⟩, -⟩ := rsi_clamped_and_labelled tenthCoin
  have hqv : q = (3521955646092083 / 70368744177664) := by
    rw [hn] at hq
    exact (JSNum.fin.inj hq).symm
  have hf : toFixed ((3521955646092083 / 70368744177664) : ℚ) 1 = { neg := false, n := 500, digits := 1 } := by
    norm_num [toFixed]
    rfl
  refine ⟨⟨hn, ⟨toFixed q 1, hr, ?_⟩, ?_⟩, hc0, (rsi_clamped_and_labelled detailsCoin).2.2 hc0⟩
  · rw [hqv, hf]
    decide
  · rw [hl, hqv]
    norm_num

/-- C3, amended: the support levels are `toFixed(2)` of price * 0.95, price * 0.90 and
price * 0.85, the resistance levels of price * 1.05, price * 1.10 and price * 1.15, the
stop-loss of price * 0.92, in that order, each product evaluated in binary64.  A product that
is finite and below 10^21 in magnitude is reported rounded to two decimal places; any other
product is reported by its own string, without decimal rounding.  A price of 100 gives 95.00,
90.00, 85.00, then 105.00, 110.00, 115.00, and 92.00. -/
theorem price_levels_rounded (c : CoinData) :
    (generateTechnicalAnalysis c).technicalIndicators.supportLevels
      = [toFixedNum (fmul (JSNum.fin (price c)) (lit 0.95)) 2,
         toFixedNum (fmul (JSNum.fin (price c)) (lit 0.90)) 2,
         toFixedNum (fmul (JSNum.fin (price c)) (lit 0.85)) 2] ∧
    (generateTechnicalAnalysis c).technicalIndicators.resistanceLevels
      = [toFixedNum (fmul (JSNum.fin (price c)) (lit 1.05)) 2,
         toFixedNum (fmul (JSNum.fin (price c)) (lit 1.10)) 2,
         toFixedNum (fmul (JSNum.fin (price c)) (lit 1.15)) 2] ∧
    (generateTechnicalAnalysis c).tradingSignals.stopLoss
      = toFixedNum (fmul (JSNum.fin (price c)) (lit 0.92)) 2 ∧
    List.Forall₂ (fun t x => IsRoundedText t x 2)
      (generateTechnicalAnalysis c).technicalIndicators.supportLevels
      [fmul (JSNum.fin (price c)) (lit 0.95), fmul (JSNum.fin (price c)) (lit 0.90),
        fmul (JSNum.fin (price c)) (lit 0.85)] ∧
    List.Forall₂ (fun t x => IsRoundedText t x 2)
      (generateTechnicalAnalysis c).technicalIndicators.resistanceLevels
      [fmul (JSNum.fin (price c)) (lit 1.05), fmul (JSNum.fin (price c)) (lit 1.10),
        fmul (JSNum.fin (price c)) (lit 1.15)] ∧
    IsRoundedText (generateTechnicalAnalysis c).tradingSignals.stopLoss
      (fmul (JSNum.fin (price c)) (lit 0.92)) 2 ∧
    (price c = 100 →
      (∃ s1 s2 s3 : Fixed,
        (generateTechnicalAnalysis c).technicalIndicators.supportLevels
          = [FixedText.digits s1, FixedText.digits s2, FixedText.digits s3] ∧
        [s1.render, s2.render, s3.render] = ["95.00", "90.00", "85.00"]) ∧
      (∃ r1 r2 r3 : Fixed,
        (generateTechnicalAnalysis c).technicalIndicators.resistanceLevels
          = [FixedText.digits r1, FixedText.digits r2, FixedText.digits r3] ∧
        [r1.render, r2.render, r3.render] = ["105.00", "110.00", "115.00"]) ∧
      (∃ s : Fixed,
        (generateTechnicalAnalysis c).tradingSignals.stopLoss = FixedText.digits s ∧
        s.render = "92.00")) := by
  refine ⟨rfl, rfl, rfl, ?_, ?_, toFixedNum_isRoundedText _ _, ?_⟩
  · exact List.Forall₂.cons (toFixedNum_isRoundedText _ _)
      (List.Forall₂.cons (toFixedNum_isRoundedText _ _)
        (List.Forall₂.cons (toFixedNum_isRoundedText _ _) List.Forall₂.nil))
  · exact List.Forall₂.cons (toFixedNum_isRoundedText _ _)
      (List.Forall₂.cons (toFixedNum_isRoundedText _ _)
        (List.Forall₂.cons (toFixedNum_isRoundedText _ _) List.Forall₂.nil))
  · intro hp
    have e1 : fmul (JSNum.fin 100) (JSNum.fin
        (4278419646001971 / 4503599627370496)) = JSNum.fin 95 := by
      rw [fmul_fin_fin_of_ne (by norm_num),
        round64_eq_fin (q := 100 * (4278419646001971 / 4503599627370496)) (e := 6)
        (n := 6685030696878080) (by norm_num) (by norm_num) (by norm_num) (by norm_num)
        (by norm_num) (by norm_num [abs_lt])]
      norm_num
    have e2 : fmul (JSNum.fin 100) (JSNum.fin
        (8106479329266893 / 9007199254740992)) = JSNum.fin 90 := by
      rw [fmul_fin_fin_of_ne (by norm_num),
        round64_eq_fin (q := 100 * (8106479329266893 / 9007199254740992)) (e := 6)
        (n := 6333186975989760) (by norm_num) (by norm_num) (by norm_num) (by norm_num)
        (by norm_num) (by norm_num [abs_lt])]
      norm_num
    have e3 : fmul (JSNum.fin 100) (JSNum.fin
        (7656119366529843 / 9007199254740992)) = JSNum.fin 85 := by
      rw [fmul_fin_fin_of_ne (by norm_num),
        round64_eq_fin (q := 100 * (7656119366529843 / 9007199254740992)) (e := 6)
        (n := 5981343255101440) (by norm_num) (by norm_num) (by norm_num) (by norm_num)
        (by norm_num) (by norm_num [abs_lt])]
      norm_num
    have e4 : fmul (JSNum.fin 100) (JSNum.fin
        (4728779608739021 / 4503599627370496)) = JSNum.fin 105 := by
      rw [fmul_fin_fin_of_ne (by norm_num),
        round64_eq_fin (q := 100 * (4728779608739021 / 4503599627370496)) (e := 6)
        (n := 7388718138654720) (by norm_num) (by norm_num) (by norm_num) (by norm_num)
        (by norm_num) (by norm_num [abs_lt])]
      norm_num
    have e5 : fmul (JSNum.fin 100) (JSNum.fin (2476979795053773 / 2251799813685248)) = JSNum.fin
        (7740561859543041 / 70368744177664) := by
      rw [fmul_fin_fin_of_ne (by norm_num),
        round64_eq_fin (q := 100 * (2476979795053773 / 2251799813685248)) (e := 6)
        (n := 7740561859543041) (by norm_num) (by norm_num) (by norm_num) (by norm_num)
        (by norm_num) (by norm_num [abs_lt])]
      norm_num
    have e6 : fmul (JSNum.fin 100) (JSNum.fin (2589569785738035 / 2251799813685248)) = JSNum.fin
        (8092405580431359 / 70368744177664) := by
      rw [fmul_fin_fin_of_ne (by norm_num),
        round64_eq_fin (q := 100 * (2589569785738035 / 2251799813685248)) (e := 6)
        (n := 8092405580431359) (by norm_num) (by norm_num) (by norm_num) (by norm_num)
        (by norm_num) (by norm_num [abs_lt])]
      norm_num
    have e7 : fmul (JSNum.fin 100) (JSNum.fin
        (8286623314361713 / 9007199254740992)) = JSNum.fin 92 := by
      rw [fmul_fin_fin_of_ne (by norm_num),
        round64_eq_fin (q := 100 * (8286623314361713 / 9007199254740992)) (e := 6)
        (n := 6473924464345088) (by norm_num) (by norm_num) (by norm_num) (by norm_num)
        (by norm_num) (by norm_num [abs_lt])]
      norm_num
    have f1 : toFixedNum (fmul (JSNum.fin 100) (lit 0.95)) 2
        = FixedText.digits { neg := false, n := 9500, digits := 2 } := by
      rw [lit_0_95, e1, toFixedNum_fin_of_lt 2 (by norm_num [abs_lt])]
      norm_num [toFixed]
      rfl
    have f2 : toFixedNum (fmul (JSNum.fin 100) (lit 0.90)) 2
        = FixedText.digits { neg := false, n := 9000, digits := 2 } := by
      rw [lit_0_90, e2, toFixedNum_fin_of_lt 2 (by norm_num [abs_lt])]
      norm_num [toFixed]
      rfl
    have f3 : toFixedNum (fmul (JSNum.fin 100) (lit 0.85)) 2
        = FixedText.digits { neg := false, n := 8500, digits := 2 } := by
      rw [lit_0_85, e3, toFixedNum_fin_of_lt 2 (by norm_num [abs_lt])]
      norm_num [toFixed]
      rfl
    have f4 : toFixedNum (fmul (JSNum.fin 100) (lit 1.05)) 2
        = FixedText.digits { neg := false, n := 10500, digits := 2 } := by
      rw [lit_1_05, e4, toFixedNum_fin_of_lt 2 (by norm_num [abs_lt])]
      norm_num [toFixed]
      rfl
    have f5 : toFixedNum (fmul (JSNum.fin 100) (lit 1.10)) 2
        = FixedText.digits { neg := false, n := 11000, digits := 2 } := by
      rw [lit_1_10, e5, toFixedNum_fin_of_lt 2 (by norm_num [abs_lt])]
      norm_num [toFixed]
      rfl
    have f6 : toFixedNum (fmul (JSNum.fin 100) (lit 1.15)) 2
        = FixedText.digits { neg := false, n := 11500, digits := 2 } := by
      rw [lit_1_15, e6, toFixedNum_fin_of_lt 2 (by norm_num [abs_lt])]
      norm_num [toFixed]
      rfl
    have f7 : toFixedNum (fmul (JSNum.fin 100) (lit 0.92)) 2
        = FixedText.digits { neg := false, n := 9200, digits := 2 } := by
      rw [lit_0_92, e7, toFixedNum_fin_of_lt 2 (by norm_num [abs_lt])]
      norm_num [toFixed]
      rfl
    refine ⟨⟨⟨false, 9500, 2⟩, ⟨false, 9000, 2⟩, ⟨false, 8500, 2⟩, ?_, ?_⟩,
      ⟨⟨false, 10500, 2⟩, ⟨false, 11000, 2⟩, ⟨false, 11500, 2⟩, ?_, ?_⟩,
      ⟨⟨false, 9200, 2⟩, ?_, ?_⟩⟩
    · show supportLevels c = _
      unfold supportLevels
      rw [hp, f1, f2, f3]
    · decide
    · show resistanceLevels c = _
      unfold resistanceLevels
      rw [hp, f4, f5, f6]
    · decide
    · show toFixedNum (fmul (JSNum.fin (price c)) (lit 0.92)) 2 = _
      rw [hp, f7]
    · decide

/-- C3, at a snapshot priced 100: the levels are the figures of the specification. -/
theorem price_levels_rounded_witness :
    price risingCoin = 100 ∧
    (∃ s1 s2 s3 : Fixed,
      (generateTechnicalAnalysis risingCoin).technicalIndicators.supportLevels
        = [FixedText.digits s1, FixedText.digits s2, FixedText.digits s3] ∧
      [s1.render, s2.render, s3.render] = ["95.00", "90.00", "85.00"]) ∧
    (∃ r1 r2 r3 : Fixed,
      (generateTechnicalAnalysis risingCoin).technicalIndicators.resistanceLevels
        = [FixedText.digits r1, FixedText.digits r2, FixedText.digits r3] ∧
      [r1.render, r2.render, r3.render] = ["105.00", "110.00", "115.00"]) ∧
    (∃ s : Fixed,
      (generateTechnicalAnalysis risingCoin).tradingSignals.stopLoss = FixedText.digits s ∧
      s.render = "92.00") := by
  have hp : price risingCoin = 100 := by
    norm_num [price, jsOrNum, jsOr, risingCoin]
  exact ⟨hp, (price_levels_rounded risingCoin).2.2.2.2.2.2 hp⟩

/-- C3 as stated fails at a snapshot priced at the largest finite double: each of price *
1.05, price * 1.10 and price * 1.15 overflows to the positive infinity, so the three
resistance levels are the string of the infinity and none of them is a figure rounded to two
decimal places. -/
theorem price_levels_rounded_fails_for_huge_price :
    IsDouble (price hugeCoin) ∧
    (generateTechnicalAnalysis hugeCoin).technicalIndicators.resistanceLevels
      = [FixedText.number JSNum.posInf, FixedText.number JSNum.posInf,
         FixedText.number JSNum.posInf] ∧
    ¬ ∃ (r : Fixed) (x : ℚ),
      FixedText.digits r
          ∈ (generateTechnicalAnalysis hugeCoin).technicalIndicators.resistanceLevels ∧
        IsRounded r x 2 := by
  obtain ⟨hp, hd, g1, g2, g3⟩ := levels_hugeCoin
  have hr : (generateTechnicalAnalysis hugeCoin).technicalIndicators.resistanceLevels
      = [FixedText.number JSNum.posInf, FixedText.number JSNum.posInf,
         FixedText.number JSNum.posInf] := by
    show resistanceLevels hugeCoin = _
    unfold resistanceLevels
    rw [g1, g2, g3]
    rfl
  refine ⟨hd, hr, ?_⟩
  rintro ⟨r, x, hmem, -⟩
  rw [hr] at hmem
  simp at hmem

/-- C4: the volume deviation of the code is (volume - 0.05 * marketCap) / (0.05 * marketCap)
* 100 evaluated in binary64, and the volume-strength label is STRONG when that deviation
exceeds 20, MODERATE when it exceeds 0 but not 20, and WEAK otherwise.  This holds for every
snapshot, those with a positive market capitalisation included. -/
theorem volumeStrength_thresholds (c : CoinData) :
    volumeChange c = specVolumeDeviation (volume c) (marketCap c) ∧
    (generateTechnicalAnalysis c).marketAnalysis.volumeStrength =
      (if (specVolumeDeviation (volume c) (marketCap c)).gt 20 = true then "STRONG"
      else if (specVolumeDeviation (volume c) (marketCap c)).gt 0 = true then "MODERATE"
      else "WEAK") := by
  have hv := volumeChange_eq_spec c
  refine ⟨hv, ?_⟩
  simp only [generateTechnicalAnalysis, volumeSentiment, hv]

/-- C4, at two snapshots.  With volume 5.46 and market capitalisation 91 the deviation
evaluates to the double 20.000000000000004, above 20, and the label is STRONG.  With volume
600 and market capitalisation 10000 it evaluates to exactly 20, which is not above 20, and
the label is MODERATE. -/
theorem volumeStrength_thresholds_witness :
    (specVolumeDeviation (volume busyCoin) (marketCap busyCoin)
      = JSNum.fin (5629499534213121 / 281474976710656) ∧
    (generateTechnicalAnalysis busyCoin).marketAnalysis.volumeStrength = "STRONG") ∧
    (specVolumeDeviation (volume fallingCoin) (marketCap fallingCoin) = JSNum.fin 20 ∧
    (generateTechnicalAnalysis fallingCoin).marketAnalysis.volumeStrength = "MODERATE") := by
  have hm : marketCap busyCoin = 91 := by
    norm_num [marketCap, jsOrNum, jsOr, busyCoin]
  have hvol : volume busyCoin = (6147413491360727 / 1125899906842624) := by
    norm_num [volume, jsOrNum, jsOr, busyCoin]
  have e1 : fmul (JSNum.fin 91) (JSNum.fin (3602879701896397 / 72057594037927936)) = JSNum.fin
      (5122844576133939 / 1125899906842624) := by
    rw [fmul_fin_fin_of_ne (by norm_num),
      round64_eq_fin (q := 91 * (3602879701896397 / 72057594037927936)) (e := 2)
      (n := 5122844576133939) (by norm_num) (by norm_num) (by norm_num) (by norm_num)
      (by norm_num) (by norm_num [abs_lt])]
    norm_num
  have e2 : fsub (JSNum.fin (6147413491360727 / 1125899906842624)) (JSNum.fin
      (5122844576133939 / 1125899906842624)) = JSNum.fin (256142228806697 / 281474976710656) := by
    rw [fsub_fin_fin_of_ne (by norm_num) (by norm_num) (by norm_num),
      round64_eq_fin (q := (6147413491360727 / 1125899906842624) -
      (5122844576133939 / 1125899906842624)) (e := -1) (n := 8196551321814304) (by norm_num)
      (by norm_num) (by norm_num) (by norm_num) (by norm_num) (by norm_num [abs_lt])]
    norm_num
  have e3 : fdiv (JSNum.fin (256142228806697 / 281474976710656)) (JSNum.fin
      (5122844576133939 / 1125899906842624)) = JSNum.fin
      (7205759403792795 / 36028797018963968) := by
    rw [fdiv_fin_fin_of_ne (by norm_num) (by norm_num),
      round64_eq_fin (q := (256142228806697 / 281474976710656) /
      (5122844576133939 / 1125899906842624)) (e := -3) (n := 7205759403792795) (by norm_num)
      (by norm_num) (by norm_num) (by norm_num) (by norm_num) (by norm_num [abs_lt])]
    norm_num
  have e4 : fmul (JSNum.fin (7205759403792795 / 36028797018963968)) (JSNum.fin 100) = JSNum.fin
      (5629499534213121 / 281474976710656) := by
    rw [fmul_fin_fin_of_ne (by norm_num),
      round64_eq_fin (q := (7205759403792795 / 36028797018963968) * 100) (e := 4)
      (n := 5629499534213121) (by norm_num) (by norm_num) (by norm_num) (by norm_num)
      (by norm_num) (by norm_num [abs_lt])]
    norm_num
  have hd : volumeChange busyCoin = JSNum.fin (5629499534213121 / 281474976710656) := by
    unfold volumeChange
    rw [hm, hvol, lit_0_05, e1, e2, e3, e4]
  have hm2 : marketCap fallingCoin = 10000 := by
    norm_num [marketCap, jsOrNum, jsOr, fallingCoin]
  have hvol2 : volume fallingCoin = 600 := by
    norm_num [volume, jsOrNum, jsOr, fallingCoin]
  have g1 : fmul (JSNum.fin 10000) (JSNum.fin
      (3602879701896397 / 72057594037927936)) = JSNum.fin 500 := by
    rw [fmul_fin_fin_of_ne (by norm_num),
      round64_eq_fin (q := 10000 * (3602879701896397 / 72057594037927936)) (e := 8)
      (n := 8796093022208000) (by norm_num) (by norm_num) (by norm_num) (by norm_num)
      (by norm_num) (by norm_num [abs_lt])]
    norm_num
  have g2 : fsub (JSNum.fin 600) (JSNum.fin 500) = JSNum.fin 100 := by
    rw [fsub_fin_fin_of_ne (by norm_num) (by norm_num) (by norm_num),
      round64_eq_fin (q := 600 - 500) (e := 6) (n := 7036874417766400) (by norm_num) (by norm_num)
      (by norm_num) (by norm_num) (by norm_num) (by norm_num [abs_lt])]
    norm_num
  have g3 : fdiv (JSNum.fin 100) (JSNum.fin 500) = JSNum.fin
      (3602879701896397 / 18014398509481984) := by
    rw [fdiv_fin_fin_of_ne (by norm_num) (by norm_num),
      round64_eq_fin (q := 100 / 500) (e := -3) (n := 7205759403792794) (by norm_num)
      (by norm_num) (by norm_num) (by norm_num) (by norm_num) (by norm_num [abs_lt])]
    norm_num
  have g4 : fmul (JSNum.fin (3602879701896397 / 18014398509481984))
      (JSNum.fin 100) = JSNum.fin 20 := by
    rw [fmul_fin_fin_of_ne (by norm_num),
      round64_eq_fin (q := (3602879701896397 / 18014398509481984) * 100) (e := 4)
      (n := 5629499534213120) (by norm_num) (by norm_num) (by norm_num) (by norm_num)
      (by norm_num) (by norm_num [abs_lt])]
    norm_num
  have hd2 : volumeChange fallingCoin = JSNum.fin 20 := by
    unfold volumeChange
    rw [hm2, hvol2, lit_0_05, g1, g2, g3, g4]
  have h := volumeStrength_thresholds busyCoin
  have h2 := volumeStrength_thresholds fallingCoin
  have hs : specVolumeDeviation (volume busyCoin) (marketCap busyCoin)
      = JSNum.fin (5629499534213121 / 281474976710656) := by
    rw [← h.1, hd]
  have hs2 : specVolumeDeviation (volume fallingCoin) (marketCap fallingCoin)
      = JSNum.fin 20 := by
    rw [← h2.1, hd2]
  refine ⟨⟨hs, ?_⟩, ⟨hs2, ?_⟩⟩
  · rw [h.2, hs]
    norm_num [JSNum.gt]
  · rw [h2.2, hs2]
    norm_num [JSNum.gt]

/-- C5, amended: the moving averages of the code are price * (1 + (change24h * 0.7) / 100),
price * (1 + (change24h * 0.4) / 100) and price * (1 + (change24h * 0.2) / 100), evaluated in
binary64 in that order of operations; the trend label, decided on these unrounded doubles,
is BULLISH when ma7 > ma25 > ma50, BEARISH when ma7 < ma25 < ma50 and MIXED otherwise; and
each is reported by `toFixed(2)`.  They need not be the doubles that price * (1 + 0.007 *
change24h), price * (1 + 0.004 * change24h) and price * (1 + 0.002 * change24h) evaluate to,
but for a price in [2^-1000, 2^1000] and a change of magnitude in [2^-1000, 100] they are
finite and lie within the relative distance 2^-48 of these exact values. -/
theorem movingAverages_formulas_and_trend (c : CoinData) :
    ma7 c = fmul (JSNum.fin (price c)) (fadd (JSNum.fin 1)
      (fdiv (fmul (JSNum.fin (change24h c)) (lit 0.7)) (JSNum.fin 100))) ∧
    ma25 c = fmul (JSNum.fin (price c)) (fadd (JSNum.fin 1)
      (fdiv (fmul (JSNum.fin (change24h c)) (lit 0.4)) (JSNum.fin 100))) ∧
    ma50 c = fmul (JSNum.fin (price c)) (fadd (JSNum.fin 1)
      (fdiv (fmul (JSNum.fin (change24h c)) (lit 0.2)) (JSNum.fin 100))) ∧
    (generateTechnicalAnalysis c).technicalIndicators.movingAverages.trend =
      (if (ma7 c).gtNum (ma25 c) = true ∧ (ma25 c).gtNum (ma50 c) = true then "BULLISH"
      else if (ma7 c).ltNum (ma25 c) = true ∧ (ma25 c).ltNum (ma50 c) = true then "BEARISH"
      else "MIXED") ∧
    IsRoundedText (generateTechnicalAnalysis c).technicalIndicators.movingAverages.ma7
      (ma7 c) 2 ∧
    IsRoundedText (generateTechnicalAnalysis c).technicalIndicators.movingAverages.ma25
      (ma25 c) 2 ∧
    IsRoundedText (generateTechnicalAnalysis c).technicalIndicators.movingAverages.ma50
      (ma50 c) 2 ∧
    (1 / 2 ^ 1000 ≤ price c → price c ≤ 2 ^ 1000 →
      1 / 2 ^ 1000 ≤ |change24h c| → |change24h c| ≤ 100 →
      ∃ m7 m25 m50 : ℚ,
        ma7 c = JSNum.fin m7 ∧ ma25 c = JSNum.fin m25 ∧ ma50 c = JSNum.fin m50 ∧
        |m7 - price c * (1 + 0.007 * change24h c)|
          ≤ price c * (1 + 0.007 * change24h c) / 2 ^ 48 ∧
        |m25 - price c * (1 + 0.004 * change24h c)|
          ≤ price c * (1 + 0.004 * change24h c) / 2 ^ 48 ∧
        |m50 - price c * (1 + 0.002 * change24h c)|
          ≤ price c * (1 + 0.002 * change24h c) / 2 ^ 48) := by
  refine ⟨rfl, rfl, rfl, rfl, toFixedNum_isRoundedText _ _, toFixedNum_isRoundedText _ _,
    toFixedNum_isRoundedText _ _, ?_⟩
  intro hp hp2 hc hc2
  rw [inv_two_pow_1000] at hc
  unfold ma7 ma25 ma50
  rw [lit_0_7, lit_0_4, lit_0_2]
  rcases le_or_lt 0 (change24h c) with h0 | h0
  · rw [abs_of_nonneg h0] at hc hc2
    have hx := hc
    have hx2 := hc2
    obtain ⟨m7, em7, bm7⟩ :=
      movingAverage_error_pos (d := (3152519739159347 / 4503599627370496)) (k := 0.007)
        hp hp2 hx hx2 (by norm_num) (by norm_num) (by norm_num) (by norm_num)
    obtain ⟨m25, em25, bm25⟩ :=
      movingAverage_error_pos (d := (3602879701896397 / 9007199254740992)) (k := 0.004)
        hp hp2 hx hx2 (by norm_num) (by norm_num) (by norm_num) (by norm_num)
    obtain ⟨m50, em50, bm50⟩ :=
      movingAverage_error_pos (d := (3602879701896397 / 18014398509481984)) (k := 0.002)
        hp hp2 hx hx2 (by norm_num) (by norm_num) (by norm_num) (by norm_num)
    exact ⟨m7, m25, m50, em7, em25, em50, bm7, bm25, bm50⟩
  · rw [abs_of_neg h0] at hc hc2
    have hx : change24h c ≤ -(2 : ℚ) ^ (-1000 : ℤ) := by
      generalize (2 : ℚ) ^ (-1000 : ℤ) = A at hc ⊢
      linarith only [hc]
    have hx2 : -100 ≤ change24h c := by linarith only [hc2]
    obtain ⟨m7, em7, bm7⟩ :=
      movingAverage_error_neg (d := (3152519739159347 / 4503599627370496)) (k := 0.007)
        hp hp2 hx hx2 (by norm_num) (by norm_num) (by norm_num) (by norm_num)
    obtain ⟨m25, em25, bm25⟩ :=
      movingAverage_error_neg (d := (3602879701896397 / 9007199254740992)) (k := 0.004)
        hp hp2 hx hx2 (by norm_num) (by norm_num) (by norm_num) (by norm_num)
    obtain ⟨m50, em50, bm50⟩ :=
      movingAverage_error_neg (d := (3602879701896397 / 18014398509481984)) (k := 0.002)
        hp hp2 hx hx2 (by norm_num) (by norm_num) (by norm_num) (by norm_num)
    exact ⟨m7, m25, m50, em7, em25, em50, bm7, bm25, bm50⟩

/-- C5, at a snapshot priced 10 and up 8.5 percent: the price and the change are in range,
so the three moving averages are finite doubles within the relative distance 2^-48 of
10 * (1 + 0.007 * 8.5), 10 * (1 + 0.004 * 8.5) and 10 * (1 + 0.002 * 8.5). -/
theorem movingAverages_formulas_and_trend_witness :
    (1 / 2 ^ 1000 ≤ price steadyCoin ∧ price steadyCoin ≤ 2 ^ 1000 ∧
      1 / 2 ^ 1000 ≤ |change24h steadyCoin| ∧ |change24h steadyCoin| ≤ 100) ∧
    ∃ m7 m25 m50 : ℚ,
      ma7 steadyCoin = JSNum.fin m7 ∧ ma25 steadyCoin = JSNum.fin m25 ∧
      ma50 steadyCoin = JSNum.fin m50 ∧
      |m7 - price steadyCoin * (1 + 0.007 * change24h steadyCoin)|
        ≤ price steadyCoin * (1 + 0.007 * change24h steadyCoin) / 2 ^ 48 ∧
      |m25 - price steadyCoin * (1 + 0.004 * change24h steadyCoin)|
        ≤ price steadyCoin * (1 + 0.004 * change24h steadyCoin) / 2 ^ 48 ∧
      |m50 - price steadyCoin * (1 + 0.002 * change24h steadyCoin)|
        ≤ price steadyCoin * (1 + 0.002 * change24h steadyCoin) / 2 ^ 48 := by
  have hp : price steadyCoin = 10 := by
    norm_num [price, jsOrNum, jsOr, steadyCoin]
  have hc : change24h steadyCoin = 17 / 2 := by
    norm_num [change24h, jsOrNum, jsOr, steadyCoin]
  have hs : (1 : ℚ) / 2 ^ 1000 ≤ 1 := by
    rw [div_le_one (by positivity)]
    exact one_le_pow₀ (by norm_num)
  have hb : (10 : ℚ) ≤ 2 ^ 1000 := by
    have h1 : (2 : ℚ) ^ 4 ≤ 2 ^ 1000 := pow_le_pow_right₀ (by norm_num) (by norm_num)
    linarith only [h1]
  have h1 : 1 / 2 ^ 1000 ≤ price steadyCoin := by
    rw [hp]
    linarith only [hs]
  have h2 : price steadyCoin ≤ 2 ^ 1000 := by
    rw [hp]
    exact hb
  have h3 : 1 / 2 ^ 1000 ≤ |change24h steadyCoin| := by
    rw [hc, abs_of_pos (by norm_num)]
    linarith only [hs]
  have h4 : |change24h steadyCoin| ≤ 100 := by
    rw [hc, abs_of_pos (by norm_num)]
    norm_num
  exact ⟨⟨h1, h2, h3, h4⟩, (movingAverages_formulas_and_trend steadyCoin).2.2.2.2.2.2.2
    h1 h2 h3 h4⟩

/-- C5 as stated fails at a snapshot priced 10 and up 8.5 percent.  The code evaluates
10 * (1 + (8.5 * 0.7) / 100) to the double 10.594999999999999 and returns it as 10.59, while
10 * (1 + 0.007 * 8.5) evaluates to the double 10.595, which `toFixed(2)` prints as 10.60, and
is exactly 10.595 over the rationals. -/
theorem ma7_differs_from_stated_formula :
    price steadyCoin = 10 ∧ change24h steadyCoin = (17 / 2) ∧
    ma7 steadyCoin = JSNum.fin (372778422281175 / 35184372088832) ∧
    specMovingAverage (price steadyCoin) (change24h steadyCoin) 0.007
      = JSNum.fin (5964454756498801 / 562949953421312) ∧
    ma7 steadyCoin ≠ specMovingAverage (price steadyCoin) (change24h steadyCoin) 0.007 ∧
    ma7 steadyCoin
      ≠ JSNum.fin (price steadyCoin * (1 + 0.007 * change24h steadyCoin)) ∧
    (∃ r : Fixed, (generateTechnicalAnalysis steadyCoin).technicalIndicators.movingAverages.ma7
      = FixedText.digits r ∧ r.render = "10.59") ∧
    (∃ r : Fixed,
      toFixedNum (specMovingAverage (price steadyCoin) (change24h steadyCoin) 0.007) 2
        = FixedText.digits r ∧ r.render = "10.60") := by
  have hp : price steadyCoin = 10 := by
    norm_num [price, jsOrNum, jsOr, steadyCoin]
  have hc : change24h steadyCoin = (17 / 2) := by
    norm_num [change24h, jsOrNum, jsOr, steadyCoin]
  have e1 : fmul (JSNum.fin (17 / 2)) (JSNum.fin
      (3152519739159347 / 4503599627370496)) = JSNum.fin (1674776111428403 / 281474976710656) := by
    rw [fmul_fin_fin_of_ne (by norm_num),
      round64_eq_fin (q := (17 / 2) * (3152519739159347 / 4503599627370496)) (e := 2)
      (n := 6699104445713612) (by norm_num) (by norm_num) (by norm_num) (by norm_num)
      (by norm_num) (by norm_num [abs_lt])]
    norm_num
  have e2 : fdiv (JSNum.fin (1674776111428403 / 281474976710656)) (JSNum.fin 100) = JSNum.fin
      (8574853690513423 / 144115188075855872) := by
    rw [fdiv_fin_fin_of_ne (by norm_num) (by norm_num),
      round64_eq_fin (q := (1674776111428403 / 281474976710656) / 100) (e := -5)
      (n := 8574853690513423) (by norm_num) (by norm_num) (by norm_num) (by norm_num)
      (by norm_num) (by norm_num [abs_lt])]
    norm_num
  have e3 : fadd (JSNum.fin 1) (JSNum.fin (8574853690513423 / 144115188075855872)) = JSNum.fin
      (74555684456235 / 70368744177664) := by
    rw [fadd_fin_fin_of_ne (by norm_num) (by norm_num) (by norm_num),
      round64_eq_fin (q := 1 + (8574853690513423 / 144115188075855872)) (e := 0)
      (n := 4771563805199040) (by norm_num) (by norm_num) (by norm_num) (by norm_num)
      (by norm_num) (by norm_num [abs_lt])]
    norm_num
  have e4 : fmul (JSNum.fin 10) (JSNum.fin (74555684456235 / 70368744177664)) = JSNum.fin
      (372778422281175 / 35184372088832) := by
    rw [fmul_fin_fin_of_ne (by norm_num),
      round64_eq_fin (q := 10 * (74555684456235 / 70368744177664)) (e := 3)
      (n := 5964454756498800) (by norm_num) (by norm_num) (by norm_num) (by norm_num)
      (by norm_num) (by norm_num [abs_lt])]
    norm_num
  have e5 : fmul (JSNum.fin (8070450532247929 / 1152921504606846976)) (JSNum.fin
      (17 / 2)) = JSNum.fin (8574853690513425 / 144115188075855872) := by
    rw [fmul_fin_fin_of_ne (by norm_num),
      round64_eq_fin (q := (8070450532247929 / 1152921504606846976) * (17 / 2)) (e := -5)
      (n := 8574853690513425) (by norm_num) (by norm_num) (by norm_num) (by norm_num)
      (by norm_num) (by norm_num [abs_lt])]
    norm_num
  have e6 : fadd (JSNum.fin 1) (JSNum.fin (8574853690513425 / 144115188075855872)) = JSNum.fin
      (4771563805199041 / 4503599627370496) := by
    rw [fadd_fin_fin_of_ne (by norm_num) (by norm_num) (by norm_num),
      round64_eq_fin (q := 1 + (8574853690513425 / 144115188075855872)) (e := 0)
      (n := 4771563805199041) (by norm_num) (by norm_num) (by norm_num) (by norm_num)
      (by norm_num) (by norm_num [abs_lt])]
    norm_num
  have e7 : fmul (JSNum.fin 10) (JSNum.fin (4771563805199041 / 4503599627370496)) = JSNum.fin
      (5964454756498801 / 562949953421312) := by
    rw [fmul_fin_fin_of_ne (by norm_num),
      round64_eq_fin (q := 10 * (4771563805199041 / 4503599627370496)) (e := 3)
      (n := 5964454756498801) (by norm_num) (by norm_num) (by norm_num) (by norm_num)
      (by norm_num) (by norm_num [abs_lt])]
    norm_num
  have hm : ma7 steadyCoin = JSNum.fin (372778422281175 / 35184372088832) := by
    unfold ma7
    rw [hp, hc, lit_0_7, e1, e2, e3, e4]
  have hs : specMovingAverage (price steadyCoin) (change24h steadyCoin) 0.007
      = JSNum.fin (5964454756498801 / 562949953421312) := by
    unfold specMovingAverage
    rw [hp, hc, lit_0_007, e5, e6, e7]
  have f1 : toFixed ((372778422281175 / 35184372088832) : ℚ) 2 = { neg := false, n := 1059, digits := 2 } := by
    norm_num [toFixed]
    rfl
  have f2 : toFixed ((5964454756498801 / 562949953421312) : ℚ) 2 = { neg := false, n := 1060, digits := 2 } := by
    norm_num [toFixed]
    rfl
  refine ⟨hp, hc, hm, hs, ?_, ?_, ⟨⟨false, 1059, 2⟩, ?_, by decide⟩,
    ⟨⟨false, 1060, 2⟩, ?_, by decide⟩⟩
  · rw [hm, hs]
    intro h
    have h2 := JSNum.fin.inj h
    norm_num at h2
  · rw [hm, hp, hc]
    intro h
    have h2 := JSNum.fin.inj h
    norm_num at h2
  · show toFixedNum (ma7 steadyCoin) 2 = _
    rw [hm, toFixedNum_fin_of_lt 2 (by norm_num [abs_lt]), f1]
  · rw [hs, toFixedNum_fin_of_lt 2 (by norm_num [abs_lt]), f2]

/-- C6: the MACD line of the code is 0.8 * change24h, the signal 0.6 * change24h, both
evaluated in binary64, the histogram is the binary64 difference line - signal, and the trend
label is BULLISH when the histogram exceeds 0 and BEARISH otherwise, a histogram of exactly
zero included. -/
theorem macd_formulas_and_trend (c : CoinData) :
    macdLine c = fmul (lit 0.8) (JSNum.fin (change24h c)) ∧
    signalLine c = fmul (lit 0.6) (JSNum.fin (change24h c)) ∧
    macdHistogram c = fsub (macdLine c) (signalLine c) ∧
    (generateTechnicalAnalysis c).technicalIndicators.macd.trend =
      (if (fsub (fmul (lit 0.8) (JSNum.fin (change24h c)))
          (fmul (lit 0.6) (JSNum.fin (change24h c)))).gt 0 = true then "BULLISH"
      else "BEARISH") ∧
    ((macdHistogram c).toRat? = some 0 →
      (generateTechnicalAnalysis c).technicalIndicators.macd.trend = "BEARISH") := by
  have hl : macdLine c = fmul (lit 0.8) (JSNum.fin (change24h c)) := by
    unfold macdLine
    rw [fmul_lit_comm]
  have hs : signalLine c = fmul (lit 0.6) (JSNum.fin (change24h c)) := by
    unfold signalLine
    rw [fmul_lit_comm]
  have ht : (generateTechnicalAnalysis c).technicalIndicators.macd.trend =
      (if (macdHistogram c).gt 0 = true then "BULLISH" else "BEARISH") := rfl
  refine ⟨hl, hs, rfl, ?_, ?_⟩
  · rw [ht, macdHistogram, hl, hs]
  · intro h0
    have hg : (macdHistogram c).gt 0 = false := by
      cases hh : macdHistogram c <;> rw [hh] at h0 <;>
        simp [JSNum.toRat?, JSNum.gt] at h0 ⊢
      rw [h0]
    rw [ht, hg]
    simp

/-- C6, at a snapshot up by the smallest positive double: the line 0.8 * change24h and the
signal 0.6 * change24h both round to that same double, the histogram is exactly zero and the
MACD trend reads BEARISH. -/
theorem macd_formulas_and_trend_witness :
    change24h faintCoin > 0 ∧
    macdLine faintCoin = JSNum.fin (1 / 2 ^ 1074) ∧
    signalLine faintCoin = JSNum.fin (1 / 2 ^ 1074) ∧
    macdHistogram faintCoin = JSNum.fin 0 ∧
    (generateTechnicalAnalysis faintCoin).technicalIndicators.macd.trend = "BEARISH" := by
  obtain ⟨hc, hl, hs, hh⟩ := macd_faintCoin
  refine ⟨by rw [hc]; norm_num, hl, hs, hh, (macd_formulas_and_trend faintCoin).2.2.2.2 ?_⟩
  rw [hh]
  rfl
/-- C7: the short-term signal is BUY when change24h > 5, SELL when change24h < -5 and HOLD
otherwise; the boundary changes 5 and -5 give HOLD. -/
theorem shortTerm_signal (c : CoinData) :
    (generateTechnicalAnalysis c).tradingSignals.shortTerm =
      (if change24h c > 5 then "BUY" else if change24h c < -5 then "SELL" else "HOLD") ∧
    (change24h c = 5 → (generateTechnicalAnalysis c).tradingSignals.shortTerm = "HOLD") ∧
    (change24h c = -5 → (generateTechnicalAnalysis c).tradingSignals.shortTerm = "HOLD") := by
  refine ⟨rfl, ?_, ?_⟩
  · intro h
    simp only [generateTechnicalAnalysis, h]
    norm_num
  · intro h
    simp only [generateTechnicalAnalysis, h]
    norm_num

/-- C7, at a snapshot up by exactly 5 percent: the short-term signal is HOLD. -/
theorem shortTerm_signal_witness :
    change24h edgeCoin = 5 ∧
    (generateTechnicalAnalysis edgeCoin).tradingSignals.shortTerm = "HOLD" := by
  have hc : change24h edgeCoin = 5 := by
    norm_num [change24h, jsOrNum, jsOr, edgeCoin]
  exact ⟨hc, (shortTerm_signal edgeCoin).2.1 hc⟩

/-- C8: a record without a market-capitalisation field has marketCap 0, and with marketCap 0
the volume deviation is the quotient by zero: positive infinity for a positive volume, NaN
for a zero volume, negative infinity for a negative one, never a finite number.  No fallback
intervenes: the volume-strength label is read off that value (STRONG for a positive volume,
WEAK otherwise) and so is the sentiment (STRONGLY BULLISH for a positive volume and a change
above 10). -/
theorem volumeChange_unguarded_at_zero_marketCap (c : CoinData) :
    (c.market_cap = none → usdOf c.market_data MarketData.market_cap = none →
      marketCap c = 0) ∧
    (marketCap c = 0 →
      volumeChange c =
        (if volume c > 0 then JSNum.posInf
        else if volume c < 0 then JSNum.negInf
        else JSNum.nan) ∧
      (volumeChange c).isFinite = false ∧
      (generateTechnicalAnalysis c).marketAnalysis.volumeStrength =
        (if volume c > 0 then "STRONG" else "WEAK") ∧
      (volume c > 0 → change24h c > 10 →
        (generateTechnicalAnalysis c).marketAnalysis.sentiment = "STRONGLY BULLISH") ∧
      (volume c > 0 → change24h c < -10 →
        (generateTechnicalAnalysis c).marketAnalysis.sentiment = "STRONGLY BEARISH")) := by
  constructor
  · intro h1 h2
    simp only [marketCap, h1, h2, jsOr, jsOrNum]
  · intro h0
    have hv := volumeChange_of_marketCap_zero c h0
    refine ⟨hv, ?_, ?_, ?_, ?_⟩
    · rw [hv]
      split_ifs <;> rfl
    · simp only [generateTechnicalAnalysis, volumeSentiment, hv]
      by_cases hpos : volume c > 0
      · simp [hpos, JSNum.gt]
      · by_cases hneg : volume c < 0
        · simp [hpos, hneg, JSNum.gt]
        · simp [hpos, hneg, JSNum.gt]
    · intro hpos hch
      simp only [generateTechnicalAnalysis, overallSentiment, hv, if_pos hpos, JSNum.gt,
        and_true, if_pos hch]
    · intro hpos hch
      have h1 : ¬ change24h c > 10 := by linarith
      have h2 : ¬ change24h c > 5 := by linarith
      simp only [generateTechnicalAnalysis, overallSentiment, hv, if_pos hpos, JSNum.gt,
        and_true, if_neg h1, if_neg h2, if_pos hch]

/-- C8, at a record that carries no market capitalisation and trades at volume 5, up 12
percent: marketCap is 0, the deviation is positive infinity, the volume strength reads
STRONG and the sentiment STRONGLY BULLISH. -/
theorem volumeChange_unguarded_at_zero_marketCap_witness :
    marketCap uncappedCoin = 0 ∧
    volumeChange uncappedCoin = JSNum.posInf ∧
    (generateTechnicalAnalysis uncappedCoin).marketAnalysis.volumeStrength = "STRONG" ∧
    (generateTechnicalAnalysis uncappedCoin).marketAnalysis.sentiment
      = "STRONGLY BULLISH" := by
  have h0 : marketCap uncappedCoin = 0 :=
    (volumeChange_unguarded_at_zero_marketCap uncappedCoin).1 rfl rfl
  have hvol : volume uncappedCoin = 5 := by
    norm_num [volume, jsOrNum, jsOr, uncappedCoin]
  have hc : change24h uncappedCoin = 12 := by
    norm_num [change24h, jsOrNum, jsOr, uncappedCoin]
  have hpos : volume uncappedCoin > 0 := by rw [hvol]; norm_num
  have h := (volumeChange_unguarded_at_zero_marketCap uncappedCoin).2 h0
  refine ⟨h0, ?_, ?_, h.2.2.2.1 hpos (by rw [hc]; norm_num)⟩
  · rw [h.1, if_pos hpos]
  · rw [h.2.2.1, if_pos hpos]

/-! ## The market-data handlers -/

/-- A string made of white space only trims to the empty string. -/
theorem trim_of_blank (q : String) (h : ∀ ch ∈ q.data, isWhiteSpace ch = true) :
    trim q = "" := by
  have h1 : q.data.dropWhile isWhiteSpace = [] := by
    rw [List.dropWhile_eq_nil_iff]
    exact h
  simp only [trim, h1, List.reverse_nil, List.dropWhile_nil]

/-- C9: for a query that is empty or made of white space only, `handleSearch` sets the
search results to the empty sequence and returns: it sends no request and leaves the error
message, the search-loading flag and every other state variable as they were. -/
theorem handleSearch_blank_query (net : Network) (s : AppState)
    (h : ∀ ch ∈ s.query.data, isWhiteSpace ch = true) :
    handleSearch net s = ({ s with searchResults := [] }, []) ∧
    (handleSearch net s).1.searchResults = [] ∧
    (handleSearch net s).2 = [] ∧
    (handleSearch net s).1.error = s.error ∧
    (handleSearch net s).1.searchLoading = s.searchLoading := by
  have ht := trim_of_blank s.query h
  have he : handleSearch net s = ({ s with searchResults := [] }, []) := by
    simp only [handleSearch, ht, if_true]
  rw [he]
  exact ⟨rfl, rfl, rfl, rfl, rfl⟩

/-- C9, at a dashboard whose query is two spaces and a tab: the two earlier results are
cleared, nothing is requested, and the error message stays. -/
theorem handleSearch_blank_query_witness :
    (∀ ch ∈ blankQueryState.query.data, isWhiteSpace ch = true) ∧
    (handleSearch deadNetwork blankQueryState).1.searchResults = [] ∧
    (handleSearch deadNetwork blankQueryState).2 = [] ∧
    (handleSearch deadNetwork blankQueryState).1.error = "NO COINS FOUND FOR YOUR SEARCH" ∧
    (handleSearch deadNetwork blankQueryState).1.searchLoading = false := by
  have hb : ∀ ch ∈ blankQueryState.query.data, isWhiteSpace ch = true := by decide
  have h := handleSearch_blank_query deadNetwork blankQueryState hb
  exact ⟨hb, h.2.1, h.2.2.1, h.2.2.2.1, h.2.2.2.2⟩

/-- C10: when the top-coins request or its JSON parse fails, `fetchTopCoins` sets the error
to FAILED TO LOAD MARKET DATA, sets loading to false and leaves the coin listing as it was;
run on the mount state, the listing is therefore still empty. -/
theorem fetchTopCoins_failure (net : Network) (s : AppState)
    (h : net.topCoins = Fetched.failed) :
    (fetchTopCoins net s).1
      = { s with error := "FAILED TO LOAD MARKET DATA", loading := false } ∧
    (fetchTopCoins net s).1.error = "FAILED TO LOAD MARKET DATA" ∧
    (fetchTopCoins net s).1.topCoins = s.topCoins ∧
    (fetchTopCoins net s).1.loading = false ∧
    (fetchTopCoins net initialState).1.topCoins = [] := by
  have he : (fetchTopCoins net s).1
      = { s with error := "FAILED TO LOAD MARKET DATA", loading := false } := by
    simp only [fetchTopCoins, h]
  have hi : (fetchTopCoins net initialState).1
      = { initialState with error := "FAILED TO LOAD MARKET DATA", loading := false } := by
    simp only [fetchTopCoins, h]
  rw [he, hi]
  exact ⟨rfl, rfl, rfl, rfl, rfl⟩

/-- C10, on a network where every request fails, from the mount state: the error is the
fixed string, the listing is empty and loading is off. -/
theorem fetchTopCoins_failure_witness :
    deadNetwork.topCoins = Fetched.failed ∧
    (fetchTopCoins deadNetwork initialState).1.error = "FAILED TO LOAD MARKET DATA" ∧
    (fetchTopCoins deadNetwork initialState).1.topCoins = [] ∧
    (fetchTopCoins deadNetwork initialState).1.loading = false := by
  have h := fetchTopCoins_failure deadNetwork initialState rfl
  exact ⟨rfl, h.2.1, h.2.2.2.2, h.2.2.2.1⟩

theorem dropWhile_ne_nil_of_exists {α : Type} (p : α → Bool) (l : List α)
    (h : ∃ x ∈ l, p x = false) : l.dropWhile p ≠ [] := by
  intro hn
  rw [List.dropWhile_eq_nil_iff] at hn
  obtain ⟨x, hx, hpx⟩ := h
  have hp := hn x hx
  rw [hpx] at hp
  exact Bool.false_ne_true hp

/-- A string holding a character that is not white space does not trim to the empty
string. -/
theorem trim_of_nonblank (q : String) (h : ∃ ch ∈ q.data, isWhiteSpace ch = false) :
    trim q ≠ "" := by
  have h1 := dropWhile_ne_nil_of_exists isWhiteSpace q.data h
  have h2 : ∃ ch ∈ (q.data.dropWhile isWhiteSpace).reverse, isWhiteSpace ch = false :=
    ⟨(q.data.dropWhile isWhiteSpace).head h1, List.mem_reverse.mpr (List.head_mem h1),
      List.head_dropWhile_not _ _ h1⟩
  have h3 := dropWhile_ne_nil_of_exists isWhiteSpace _ h2
  intro ht
  have hd := congrArg String.data ht
  simp only [trim] at hd
  exact h3 (List.reverse_eq_nil_iff.mp hd)

/-- The state and requests `handleSearch` ends with on a query that is not blank. -/
theorem handleSearch_of_nonblank (net : Network) (s : AppState)
    (h : ∃ ch ∈ s.query.data, isWhiteSpace ch = false) :
    handleSearch net s =
      (match net.search s.query with
        | Fetched.ok data =>
          match data.coins with
          | some coins =>
            if coins.length > 0 then
              { s with searchLoading := false, error := "", searchResults := coins.take 5 }
            else
              { s with searchLoading := false, searchResults := [],
                       error := "NO COINS FOUND FOR YOUR SEARCH" }
          | none =>
            { s with searchLoading := false, searchResults := [],
                     error := "NO COINS FOUND FOR YOUR SEARCH" }
        | Fetched.failed =>
          { s with searchLoading := false, error := "SEARCH FAILED - PLEASE TRY AGAIN",
                   searchResults := [] },
       [Request.search s.query]) := by
  have ht := trim_of_nonblank s.query h
  simp only [handleSearch, if_neg ht]
  cases net.search s.query with
  | failed => rfl
  | ok data =>
    cases hc : data.coins with
    | none => simp only [hc]
    | some coins =>
      simp only [hc]
      split_ifs <;> rfl

/-- C11: for a query that is not blank, `handleSearch` sends one search request and stores
at most 5 results.  When the response lists `n` coins it stores the first min(5, n) of them in
their original order; when it lists none (or has no coin list) it stores the empty sequence
and sets the error to NO COINS FOUND FOR YOUR SEARCH; when the request or the parse fails it
stores the empty sequence and sets the error to SEARCH FAILED - PLEASE TRY AGAIN, a different
string. -/
theorem handleSearch_results (net : Network) (s : AppState)
    (h : ∃ ch ∈ s.query.data, isWhiteSpace ch = false) :
    (handleSearch net s).2 = [Request.search s.query] ∧
    (handleSearch net s).1.searchResults.length ≤ 5 ∧
    (∀ data coins, net.search s.query = Fetched.ok data → data.coins = some coins →
      (handleSearch net s).1.searchResults = coins.take 5 ∧
      (handleSearch net s).1.searchResults.length = min 5 coins.length ∧
      (handleSearch net s).1.searchResults <+: coins) ∧
    (∀ data, net.search s.query = Fetched.ok data →
      data.coins = none ∨ data.coins = some [] →
      (handleSearch net s).1.searchResults = [] ∧
      (handleSearch net s).1.error = "NO COINS FOUND FOR YOUR SEARCH") ∧
    (net.search s.query = Fetched.failed →
      (handleSearch net s).1.searchResults = [] ∧
      (handleSearch net s).1.error = "SEARCH FAILED - PLEASE TRY AGAIN") ∧
    "NO COINS FOUND FOR YOUR SEARCH" ≠ "SEARCH FAILED - PLEASE TRY AGAIN" := by
  have he := handleSearch_of_nonblank net s h
  have hok : ∀ data coins, net.search s.query = Fetched.ok data → data.coins = some coins →
      (handleSearch net s).1.searchResults = coins.take 5 := by
    intro data coins hd hc
    rw [he]
    simp only [hd, hc]
    split_ifs with hl
    · rfl
    · have hnil : coins = [] := List.length_eq_zero.mp (by omega)
      rw [hnil]
      rfl
  have hnone : ∀ data, net.search s.query = Fetched.ok data → data.coins = none →
      (handleSearch net s).1.searchResults = [] ∧
      (handleSearch net s).1.error = "NO COINS FOUND FOR YOUR SEARCH" := by
    intro data hd hc
    rw [he]
    simp [hd, hc]
  have hempty : ∀ data, net.search s.query = Fetched.ok data → data.coins = some [] →
      (handleSearch net s).1.searchResults = [] ∧
      (handleSearch net s).1.error = "NO COINS FOUND FOR YOUR SEARCH" := by
    intro data hd hc
    rw [he]
    simp [hd, hc]
  have hfail : net.search s.query = Fetched.failed →
      (handleSearch net s).1.searchResults = [] ∧
      (handleSearch net s).1.error = "SEARCH FAILED - PLEASE TRY AGAIN" := by
    intro hd
    rw [he]
    simp [hd]
  refine ⟨by rw [he], ?_, ?_, ?_, hfail, by decide⟩
  · cases hd : net.search s.query with
    | failed => rw [(hfail hd).1]; exact Nat.zero_le 5
    | ok data =>
      cases hc : data.coins with
      | none => rw [(hnone data hd hc).1]; exact Nat.zero_le 5
      | some coins =>
        rw [hok data coins hd hc, List.length_take]
        exact Nat.min_le_left 5 _
  · intro data coins hd hc
    have hr := hok data coins hd hc
    refine ⟨hr, ?_, ?_⟩
    · rw [hr, List.length_take]
    · rw [hr]
      exact List.take_prefix 5 coins
  · intro data hd hc
    rcases hc with hc | hc
    · exact hnone data hd hc
    · exact hempty data hd hc

/-- C11, at a dashboard whose query is `bit`, on a network that lists seven coins: one search
request is sent, the first five summaries are stored in the order listed, and the error left
on screen is cleared. -/
theorem handleSearch_results_witness :
    (∃ ch ∈ typedQueryState.query.data, isWhiteSpace ch = false) ∧
    (handleSearch sevenCoinNetwork typedQueryState).2 = [Request.search "bit"] ∧
    (handleSearch sevenCoinNetwork typedQueryState).1.searchResults =
      [{ id := "bitcoin", name := "Bitcoin", symbol := "btc" },
       { id := "bitcoin-cash", name := "Bitcoin Cash", symbol := "bch" },
       { id := "bitcoin-gold", name := "Bitcoin Gold", symbol := "btg" },
       { id := "bitcoin-sv", name := "Bitcoin SV", symbol := "bsv" },
       { id := "wrapped-bitcoin", name := "Wrapped Bitcoin", symbol := "wbtc" }] ∧
    (handleSearch sevenCoinNetwork typedQueryState).1.searchResults.length = 5 := by
  have hq : ∃ ch ∈ typedQueryState.query.data, isWhiteSpace ch = false := by decide
  have h := handleSearch_results sevenCoinNetwork typedQueryState hq
  have hr := h.2.2.1 { coins := some sevenCoins } sevenCoins rfl rfl
  exact ⟨hq, h.1, hr.1, hr.2.1⟩

/-! ## Relations between the fields of one bundle -/

/-- C13: whatever the volume and the market capitalisation, the sentiment label and the
short-term signal of one bundle agree: the sentiment is STRONGLY BULLISH or BULLISH exactly
when the signal is BUY, STRONGLY BEARISH or BEARISH exactly when it is SELL, and NEUTRAL
exactly when it is HOLD. -/
theorem sentiment_agrees_with_shortTerm (c : CoinData) :
    (((generateTechnicalAnalysis c).marketAnalysis.sentiment = "STRONGLY BULLISH" ∨
        (generateTechnicalAnalysis c).marketAnalysis.sentiment = "BULLISH") ↔
      (generateTechnicalAnalysis c).tradingSignals.shortTerm = "BUY") ∧
    (((generateTechnicalAnalysis c).marketAnalysis.sentiment = "STRONGLY BEARISH" ∨
        (generateTechnicalAnalysis c).marketAnalysis.sentiment = "BEARISH") ↔
      (generateTechnicalAnalysis c).tradingSignals.shortTerm = "SELL") ∧
    ((generateTechnicalAnalysis c).marketAnalysis.sentiment = "NEUTRAL" ↔
      (generateTechnicalAnalysis c).tradingSignals.shortTerm = "HOLD") := by
  have hs : (generateTechnicalAnalysis c).marketAnalysis.sentiment = overallSentiment c := rfl
  have ht : (generateTechnicalAnalysis c).tradingSignals.shortTerm =
      (if change24h c > 5 then "BUY" else if change24h c < -5 then "SELL" else "HOLD") := rfl
  rw [hs, ht]
  unfold overallSentiment
  by_cases h5 : change24h c > 5
  · by_cases hb : change24h c > 10 ∧ (volumeChange c).gt 15 = true
    · simp only [if_pos hb, if_pos h5]
      decide
    · simp only [if_neg hb, if_pos h5]
      decide
  · have h10 : ¬ (change24h c > 10 ∧ (volumeChange c).gt 15 = true) := fun hb =>
      h5 (by linarith [hb.1])
    by_cases hm5 : change24h c < -5
    · by_cases hb : change24h c < -10 ∧ (volumeChange c).gt 15 = true
      · simp only [if_neg h10, if_neg h5, if_pos hb, if_pos hm5]
        decide
      · simp only [if_neg h10, if_neg h5, if_neg hb, if_pos hm5]
        decide
    · have hm10 : ¬ (change24h c < -10 ∧ (volumeChange c).gt 15 = true) := fun hb =>
        hm5 (by linarith [hb.1])
      simp only [if_neg h10, if_neg h5, if_neg hm10, if_neg hm5]
      decide

/-- C13, at a record without market capitalisation (infinite volume deviation), up 12
percent: the sentiment is STRONGLY BULLISH and the short-term signal is BUY. -/
theorem sentiment_agrees_with_shortTerm_witness :
    (generateTechnicalAnalysis uncappedCoin).marketAnalysis.sentiment = "STRONGLY BULLISH" ∧
    (generateTechnicalAnalysis uncappedCoin).tradingSignals.shortTerm = "BUY" := by
  have hc : change24h uncappedCoin = 12 := by
    norm_num [change24h, jsOrNum, jsOr, uncappedCoin]
  have hm : marketCap uncappedCoin = 0 := by
    simp [marketCap, usdOf, jsOrNum, jsOr, uncappedCoin]
  have hvol : volume uncappedCoin > 0 := by
    norm_num [volume, jsOrNum, jsOr, uncappedCoin]
  have hv : volumeChange uncappedCoin = JSNum.posInf := by
    rw [volumeChange_of_marketCap_zero uncappedCoin hm, if_pos hvol]
  have hs : (generateTechnicalAnalysis uncappedCoin).marketAnalysis.sentiment
      = "STRONGLY BULLISH" := by
    simp only [generateTechnicalAnalysis, overallSentiment, hc, hv, JSNum.gt]
    norm_num
  exact ⟨hs, (sentiment_agrees_with_shortTerm uncappedCoin).1.mp (Or.inl hs)⟩


/-- C14, amended: with a positive price the market phase is ACCUMULATION exactly when
change24h > 0, and the other two labels never contradict the sign of change24h: the
moving-average trend is BULLISH only if change24h > 0 and BEARISH only if change24h < 0, the
MACD trend is BULLISH only if change24h > 0, and a change of zero gives MIXED, BEARISH and
DISTRIBUTION.  The converses hold when the change is not tiny: for a price in
[2^-1000, 2^1000], a change in [2^-30, 100] gives BULLISH, BULLISH and ACCUMULATION, and a
change in [-100, -2^-30] gives BEARISH, BEARISH and DISTRIBUTION. -/
theorem direction_labels_follow_sign (c : CoinData) (h : price c > 0) :
    ((generateTechnicalAnalysis c).marketAnalysis.marketPhase = "ACCUMULATION" ↔
      change24h c > 0) ∧
    ((generateTechnicalAnalysis c).technicalIndicators.movingAverages.trend = "BULLISH" →
      change24h c > 0) ∧
    ((generateTechnicalAnalysis c).technicalIndicators.movingAverages.trend = "BEARISH" →
      change24h c < 0) ∧
    ((generateTechnicalAnalysis c).technicalIndicators.macd.trend = "BULLISH" →
      change24h c > 0) ∧
    (change24h c = 0 →
      (generateTechnicalAnalysis c).technicalIndicators.movingAverages.trend = "MIXED" ∧
      (generateTechnicalAnalysis c).technicalIndicators.macd.trend = "BEARISH" ∧
      (generateTechnicalAnalysis c).marketAnalysis.marketPhase = "DISTRIBUTION") ∧
    (1 / 2 ^ 1000 ≤ price c → price c ≤ 2 ^ 1000 →
      1 / 2 ^ 30 ≤ change24h c → change24h c ≤ 100 →
      (generateTechnicalAnalysis c).technicalIndicators.movingAverages.trend = "BULLISH" ∧
      (generateTechnicalAnalysis c).technicalIndicators.macd.trend = "BULLISH" ∧
      (generateTechnicalAnalysis c).marketAnalysis.marketPhase = "ACCUMULATION") ∧
    (1 / 2 ^ 1000 ≤ price c → price c ≤ 2 ^ 1000 →
      -100 ≤ change24h c → change24h c ≤ -(1 / 2 ^ 30) →
      (generateTechnicalAnalysis c).technicalIndicators.movingAverages.trend = "BEARISH" ∧
      (generateTechnicalAnalysis c).technicalIndicators.macd.trend = "BEARISH" ∧
      (generateTechnicalAnalysis c).marketAnalysis.marketPhase = "DISTRIBUTION") := by
  rw [movingAverages_trend_eq, macd_trend_eq, marketPhase_eq]
  refine ⟨?_, ?_, ?_, ?_, ?_, ?_, ?_⟩
  · by_cases hc : change24h c > 0
    · simp [hc]
    · simp [hc]
  · intro ht
    by_contra hc
    obtain ⟨h1, -, -⟩ := direction_of_nonpos c h (not_lt.mp hc)
    rw [h1] at ht
    by_cases hb : (ma7 c).ltNum (ma25 c) = true ∧ (ma25 c).ltNum (ma50 c) = true
    · simp [hb] at ht
    · simp [hb] at ht
  · intro ht
    by_contra hc
    obtain ⟨h1, -⟩ := direction_of_nonneg c h (not_lt.mp hc)
    rw [h1] at ht
    by_cases hb : (ma7 c).gtNum (ma25 c) = true ∧ (ma25 c).gtNum (ma50 c) = true
    · simp [hb] at ht
    · simp [hb] at ht
  · intro ht
    by_contra hc
    obtain ⟨-, -, h1⟩ := direction_of_nonpos c h (not_lt.mp hc)
    rw [h1] at ht
    simp at ht
  · intro hc
    obtain ⟨h1, -, h3⟩ := direction_of_nonpos c h (le_of_eq hc)
    obtain ⟨h4, -⟩ := direction_of_nonneg c h (le_of_eq hc.symm)
    rw [h1, h3, h4, hc]
    simp
  · intro hp hp2 hx hx2
    obtain ⟨h1, h2, h3⟩ := direction_of_pos c hp hp2 hx hx2
    have hc : change24h c > 0 := lt_of_lt_of_le (by norm_num) hx
    rw [h1, h2, h3]
    simp [hc]
  · intro hp hp2 hx2 hx
    obtain ⟨h1, h2⟩ := direction_of_neg c hp hp2 hx hx2
    have hc : change24h c < 0 := lt_of_le_of_lt hx (by norm_num)
    obtain ⟨h3, -, h5⟩ := direction_of_nonpos c h hc.le
    rw [h1, h2, h3, h5]
    simp [not_lt.mpr hc.le]

/-- C14, at a snapshot priced 40 and down 12 percent: the price is positive and in range,
the change lies in [-100, -2^-30], and the labels read BEARISH, BEARISH and DISTRIBUTION. -/
theorem direction_labels_follow_sign_witness :
    price fallingCoin > 0 ∧ change24h fallingCoin = -12 ∧
    (generateTechnicalAnalysis fallingCoin).technicalIndicators.movingAverages.trend
      = "BEARISH" ∧
    (generateTechnicalAnalysis fallingCoin).technicalIndicators.macd.trend = "BEARISH" ∧
    (generateTechnicalAnalysis fallingCoin).marketAnalysis.marketPhase
      = "DISTRIBUTION" := by
  have hp : price fallingCoin = 40 := by
    norm_num [price, jsOrNum, jsOr, fallingCoin]
  have hc : change24h fallingCoin = -12 := by
    norm_num [change24h, jsOrNum, jsOr, fallingCoin]
  have hpos : price fallingCoin > 0 := by
    rw [hp]
    norm_num
  have hs : (1 : ℚ) / 2 ^ 1000 ≤ 1 := by
    rw [div_le_one (by positivity)]
    exact one_le_pow₀ (by norm_num)
  have hb : (40 : ℚ) ≤ 2 ^ 1000 := by
    have h1 : (2 : ℚ) ^ 6 ≤ 2 ^ 1000 := pow_le_pow_right₀ (by norm_num) (by norm_num)
    linarith only [h1]
  have h1 : 1 / 2 ^ 1000 ≤ price fallingCoin := by
    rw [hp]
    linarith only [hs]
  have h2 : price fallingCoin ≤ 2 ^ 1000 := by
    rw [hp]
    exact hb
  have h3 : -100 ≤ change24h fallingCoin := by
    rw [hc]
    norm_num
  have h4 : change24h fallingCoin ≤ -(1 / 2 ^ 30) := by
    rw [hc]
    norm_num
  exact ⟨hpos, hc, (direction_labels_follow_sign fallingCoin hpos).2.2.2.2.2.2 h1 h2 h3 h4⟩

/-- C14 as stated fails at two snapshots with a positive price and a positive change.  At a
price of 100 and a change of 1e-16 each factor 1 + (change24h * k) / 100 rounds to 1, so the
three moving averages are all 100 and the trend is MIXED, while the MACD trend is BULLISH and
the market phase ACCUMULATION.  At a change of 2^-1074, the smallest positive double, the
MACD histogram is zero and the MACD trend BEARISH, while the market phase is
ACCUMULATION. -/
theorem direction_labels_disagree_for_tiny_change :
    (price driftCoin > 0 ∧ change24h driftCoin > 0 ∧ IsDouble (change24h driftCoin) ∧
      ma7 driftCoin = JSNum.fin 100 ∧ ma25 driftCoin = JSNum.fin 100 ∧
      ma50 driftCoin = JSNum.fin 100 ∧
      (generateTechnicalAnalysis driftCoin).technicalIndicators.movingAverages.trend
        = "MIXED" ∧
      (generateTechnicalAnalysis driftCoin).technicalIndicators.macd.trend = "BULLISH" ∧
      (generateTechnicalAnalysis driftCoin).marketAnalysis.marketPhase = "ACCUMULATION") ∧
    (price faintCoin > 0 ∧ change24h faintCoin > 0 ∧ IsDouble (change24h faintCoin) ∧
      (generateTechnicalAnalysis faintCoin).technicalIndicators.macd.trend = "BEARISH" ∧
      (generateTechnicalAnalysis faintCoin).marketAnalysis.marketPhase
        = "ACCUMULATION") := by
  have hp : price driftCoin = 100 := by
    norm_num [price, jsOrNum, jsOr, driftCoin]
  have hc : change24h driftCoin = (2028240960365167 / 2 ^ 104) := by
    norm_num [change24h, jsOrNum, jsOr, driftCoin]
  have hd : IsDouble (change24h driftCoin) := by
    rw [hc]
    unfold IsDouble
    rw [round64_eq_fin (q := (2028240960365167 / 2 ^ 104)) (e := -54) (n := 8112963841460668) (by norm_num) (by norm_num) (by norm_num) (by norm_num) (by norm_num) (by norm_num [abs_lt])]
    norm_num
  have e1 : fmul (JSNum.fin (2028240960365167 / 2 ^ 104)) (JSNum.fin
      (3152519739159347 / 4503599627370496)) = JSNum.fin (5679074689022467 / 2 ^ 106) := by
    rw [fmul_fin_fin_of_ne (by norm_num),
      round64_eq_fin (q := (2028240960365167 / 2 ^ 104) * (3152519739159347 / 4503599627370496))
      (e := -54) (n := 5679074689022467) (by norm_num) (by norm_num) (by norm_num) (by norm_num)
      (by norm_num) (by norm_num [abs_lt])]
    norm_num
  have e2 : fdiv (JSNum.fin (5679074689022467 / 2 ^ 106)) (JSNum.fin 100) = JSNum.fin
      (3634607800974379 / 2 ^ 112) := by
    rw [fdiv_fin_fin_of_ne (by norm_num) (by norm_num),
      round64_eq_fin (q := (5679074689022467 / 2 ^ 106) / 100) (e := -61) (n := 7269215601948758)
      (by norm_num) (by norm_num) (by norm_num) (by norm_num) (by norm_num) (by norm_num [abs_lt])]
    norm_num
  have e3 : fadd (JSNum.fin 1) (JSNum.fin (3634607800974379 / 2 ^ 112)) = JSNum.fin 1 := by
    rw [fadd_fin_fin_of_ne (by norm_num) (by norm_num) (by norm_num),
      round64_eq_fin (q := 1 + (3634607800974379 / 2 ^ 112)) (e := 0) (n := 4503599627370496)
      (by norm_num) (by norm_num) (by norm_num) (by norm_num) (by norm_num) (by norm_num [abs_lt])]
    norm_num
  have e4 : fmul (JSNum.fin (2028240960365167 / 2 ^ 104)) (JSNum.fin
      (3602879701896397 / 9007199254740992)) = JSNum.fin (6490371073168535 / 2 ^ 107) := by
    rw [fmul_fin_fin_of_ne (by norm_num),
      round64_eq_fin (q := (2028240960365167 / 2 ^ 104) * (3602879701896397 / 9007199254740992))
      (e := -55) (n := 6490371073168535) (by norm_num) (by norm_num) (by norm_num) (by norm_num)
      (by norm_num) (by norm_num [abs_lt])]
    norm_num
  have e5 : fdiv (JSNum.fin (6490371073168535 / 2 ^ 107)) (JSNum.fin 100) = JSNum.fin
      (8307674973655725 / 2 ^ 114) := by
    rw [fdiv_fin_fin_of_ne (by norm_num) (by norm_num),
      round64_eq_fin (q := (6490371073168535 / 2 ^ 107) / 100) (e := -62) (n := 8307674973655725)
      (by norm_num) (by norm_num) (by norm_num) (by norm_num) (by norm_num) (by norm_num [abs_lt])]
    norm_num
  have e6 : fadd (JSNum.fin 1) (JSNum.fin (8307674973655725 / 2 ^ 114)) = JSNum.fin 1 := by
    rw [fadd_fin_fin_of_ne (by norm_num) (by norm_num) (by norm_num),
      round64_eq_fin (q := 1 + (8307674973655725 / 2 ^ 114)) (e := 0) (n := 4503599627370496)
      (by norm_num) (by norm_num) (by norm_num) (by norm_num) (by norm_num) (by norm_num [abs_lt])]
    norm_num
  have e7 : fmul (JSNum.fin (2028240960365167 / 2 ^ 104)) (JSNum.fin
      (3602879701896397 / 18014398509481984)) = JSNum.fin (6490371073168535 / 2 ^ 108) := by
    rw [fmul_fin_fin_of_ne (by norm_num),
      round64_eq_fin (q := (2028240960365167 / 2 ^ 104) * (3602879701896397 / 18014398509481984))
      (e := -56) (n := 6490371073168535) (by norm_num) (by norm_num) (by norm_num) (by norm_num)
      (by norm_num) (by norm_num [abs_lt])]
    norm_num
  have e8 : fdiv (JSNum.fin (6490371073168535 / 2 ^ 108)) (JSNum.fin 100) = JSNum.fin
      (8307674973655725 / 2 ^ 115) := by
    rw [fdiv_fin_fin_of_ne (by norm_num) (by norm_num),
      round64_eq_fin (q := (6490371073168535 / 2 ^ 108) / 100) (e := -63) (n := 8307674973655725)
      (by norm_num) (by norm_num) (by norm_num) (by norm_num) (by norm_num) (by norm_num [abs_lt])]
    norm_num
  have e9 : fadd (JSNum.fin 1) (JSNum.fin (8307674973655725 / 2 ^ 115)) = JSNum.fin 1 := by
    rw [fadd_fin_fin_of_ne (by norm_num) (by norm_num) (by norm_num),
      round64_eq_fin (q := 1 + (8307674973655725 / 2 ^ 115)) (e := 0) (n := 4503599627370496)
      (by norm_num) (by norm_num) (by norm_num) (by norm_num) (by norm_num) (by norm_num [abs_lt])]
    norm_num
  have e10 : fmul (JSNum.fin (2028240960365167 / 2 ^ 104)) (JSNum.fin
      (3602879701896397 / 4503599627370496)) = JSNum.fin (6490371073168535 / 2 ^ 106) := by
    rw [fmul_fin_fin_of_ne (by norm_num),
      round64_eq_fin (q := (2028240960365167 / 2 ^ 104) * (3602879701896397 / 4503599627370496))
      (e := -54) (n := 6490371073168535) (by norm_num) (by norm_num) (by norm_num) (by norm_num)
      (by norm_num) (by norm_num [abs_lt])]
    norm_num
  have e11 : fmul (JSNum.fin (2028240960365167 / 2 ^ 104)) (JSNum.fin
      (5404319552844595 / 9007199254740992)) = JSNum.fin (4867778304876401 / 2 ^ 106) := by
    rw [fmul_fin_fin_of_ne (by norm_num),
      round64_eq_fin (q := (2028240960365167 / 2 ^ 104) * (5404319552844595 / 9007199254740992))
      (e := -54) (n := 4867778304876401) (by norm_num) (by norm_num) (by norm_num) (by norm_num)
      (by norm_num) (by norm_num [abs_lt])]
    norm_num
  have e12 : fsub (JSNum.fin (6490371073168535 / 2 ^ 106)) (JSNum.fin
      (4867778304876401 / 2 ^ 106)) = JSNum.fin (811296384146067 / 2 ^ 105) := by
    rw [fsub_fin_fin_of_ne (by norm_num) (by norm_num) (by norm_num),
      round64_eq_fin (q := (6490371073168535 / 2 ^ 106) - (4867778304876401 / 2 ^ 106)) (e := -56)
      (n := 6490371073168536) (by norm_num) (by norm_num) (by norm_num) (by norm_num)
      (by norm_num) (by norm_num [abs_lt])]
    norm_num
  have hone : fmul (JSNum.fin 100) (JSNum.fin 1) = JSNum.fin 100 := by
    rw [fmul_fin_fin_of_ne (by norm_num),
      round64_eq_fin (q := 100 * 1) (e := 6) (n := 7036874417766400) (by norm_num)
        (by norm_num) (by norm_num) (by norm_num) (by norm_num) (by norm_num [abs_lt])]
    norm_num
  have h7 : ma7 driftCoin = JSNum.fin 100 := by
    rw [ma7_eq, hp, hc, e1, e2, e3, hone]
  have h25 : ma25 driftCoin = JSNum.fin 100 := by
    rw [ma25_eq, hp, hc, e4, e5, e6, hone]
  have h50 : ma50 driftCoin = JSNum.fin 100 := by
    rw [ma50_eq, hp, hc, e7, e8, e9, hone]
  have hh : macdHistogram driftCoin = JSNum.fin (811296384146067 / 2 ^ 105) := by
    rw [macdHistogram_eq, hc, e10, e11, e12]
  have hpf : price faintCoin = 100 := by
    norm_num [price, jsOrNum, jsOr, faintCoin]
  obtain ⟨hcf, -, -, hhf⟩ := macd_faintCoin
  have hdf : IsDouble (change24h faintCoin) := by
    rw [hcf]
    unfold IsDouble
    rw [round64_eq_fin_subnormal (q := (1 / 2 ^ 1074)) (n := 1) (by norm_num) (by norm_num) (by norm_num [abs_lt]) (by norm_num)]
    norm_num
  refine ⟨⟨by rw [hp]; norm_num, by rw [hc]; norm_num, hd, h7, h25, h50, ?_, ?_, ?_⟩,
    ⟨by rw [hpf]; norm_num, by rw [hcf]; norm_num, hdf, ?_, ?_⟩⟩
  · rw [movingAverages_trend_eq, h7, h25, h50]
    simp [JSNum.gtNum, JSNum.ltNum, JSNum.lt]
  · rw [macd_trend_eq, hh]
    norm_num [JSNum.gt]
  · rw [marketPhase_eq, hc]
    norm_num
  · rw [macd_trend_eq, hhf]
    simp [JSNum.gt]
  · rw [marketPhase_eq, hcf]
    norm_num

/-- C15, amended: for a positive price (a double) the levels of the bundle are `toFixed(2)`
of the binary64 products price * 0.85, 0.90, 0.92 (stop-loss), 0.95 (first support, which is
the entry point), 1.05 (first resistance, which is the exit point), 1.10 and 1.15.  Unrounded,
these and the price are in the order support3 <= support2 <= stopLoss <= support1 <= price <=
resistance1 <= resistance2 <= resistance3, and the order is strict for a price in
[2^-1021, 2^1023]; reported by `toFixed(2)`, the price included, they are in the same order
with <=. -/
theorem price_levels_ordered (c : CoinData) (h : price c > 0) (hd : IsDouble (price c)) :
    (generateTechnicalAnalysis c).technicalIndicators.supportLevels
      = [toFixedNum (fmul (JSNum.fin (price c)) (lit 0.95)) 2,
         toFixedNum (fmul (JSNum.fin (price c)) (lit 0.90)) 2,
         toFixedNum (fmul (JSNum.fin (price c)) (lit 0.85)) 2] ∧
    (generateTechnicalAnalysis c).technicalIndicators.resistanceLevels
      = [toFixedNum (fmul (JSNum.fin (price c)) (lit 1.05)) 2,
         toFixedNum (fmul (JSNum.fin (price c)) (lit 1.10)) 2,
         toFixedNum (fmul (JSNum.fin (price c)) (lit 1.15)) 2] ∧
    (generateTechnicalAnalysis c).tradingSignals.stopLoss
      = toFixedNum (fmul (JSNum.fin (price c)) (lit 0.92)) 2 ∧
    (generateTechnicalAnalysis c).tradingSignals.entryPoint
      = toFixedNum (fmul (JSNum.fin (price c)) (lit 0.95)) 2 ∧
    (generateTechnicalAnalysis c).tradingSignals.exitPoint
      = toFixedNum (fmul (JSNum.fin (price c)) (lit 1.05)) 2 ∧
    (generateTechnicalAnalysis c).priceMetrics.current = price c ∧
    ((fmul (JSNum.fin (price c)) (lit 0.85)).leNum
          (fmul (JSNum.fin (price c)) (lit 0.90)) = true ∧
      (fmul (JSNum.fin (price c)) (lit 0.90)).leNum
          (fmul (JSNum.fin (price c)) (lit 0.92)) = true ∧
      (fmul (JSNum.fin (price c)) (lit 0.92)).leNum
          (fmul (JSNum.fin (price c)) (lit 0.95)) = true ∧
      (fmul (JSNum.fin (price c)) (lit 0.95)).leNum
          (JSNum.fin (price c)) = true ∧
      (JSNum.fin (price c)).leNum
          (fmul (JSNum.fin (price c)) (lit 1.05)) = true ∧
      (fmul (JSNum.fin (price c)) (lit 1.05)).leNum
          (fmul (JSNum.fin (price c)) (lit 1.10)) = true ∧
      (fmul (JSNum.fin (price c)) (lit 1.10)).leNum
          (fmul (JSNum.fin (price c)) (lit 1.15)) = true) ∧
    (1 / 2 ^ 1021 ≤ price c → price c ≤ 2 ^ 1023 →
      (fmul (JSNum.fin (price c)) (lit 0.85)).ltNum
          (fmul (JSNum.fin (price c)) (lit 0.90)) = true ∧
      (fmul (JSNum.fin (price c)) (lit 0.90)).ltNum
          (fmul (JSNum.fin (price c)) (lit 0.92)) = true ∧
      (fmul (JSNum.fin (price c)) (lit 0.92)).ltNum
          (fmul (JSNum.fin (price c)) (lit 0.95)) = true ∧
      (fmul (JSNum.fin (price c)) (lit 0.95)).ltNum
          (JSNum.fin (price c)) = true ∧
      (JSNum.fin (price c)).ltNum
          (fmul (JSNum.fin (price c)) (lit 1.05)) = true ∧
      (fmul (JSNum.fin (price c)) (lit 1.05)).ltNum
          (fmul (JSNum.fin (price c)) (lit 1.10)) = true ∧
      (fmul (JSNum.fin (price c)) (lit 1.10)).ltNum
          (fmul (JSNum.fin (price c)) (lit 1.15)) = true) ∧
    (((toFixedNum (fmul (JSNum.fin (price c)) (lit 0.85)) 2).value).leNum
          ((toFixedNum (fmul (JSNum.fin (price c)) (lit 0.90)) 2).value) = true ∧
      ((toFixedNum (fmul (JSNum.fin (price c)) (lit 0.90)) 2).value).leNum
          ((toFixedNum (fmul (JSNum.fin (price c)) (lit 0.92)) 2).value) = true ∧
      ((toFixedNum (fmul (JSNum.fin (price c)) (lit 0.92)) 2).value).leNum
          ((toFixedNum (fmul (JSNum.fin (price c)) (lit 0.95)) 2).value) = true ∧
      ((toFixedNum (fmul (JSNum.fin (price c)) (lit 0.95)) 2).value).leNum
          ((toFixedNum (JSNum.fin (price c)) 2).value) = true ∧
      ((toFixedNum (JSNum.fin (price c)) 2).value).leNum
          ((toFixedNum (fmul (JSNum.fin (price c)) (lit 1.05)) 2).value) = true ∧
      ((toFixedNum (fmul (JSNum.fin (price c)) (lit 1.05)) 2).value).leNum
          ((toFixedNum (fmul (JSNum.fin (price c)) (lit 1.10)) 2).value) = true ∧
      ((toFixedNum (fmul (JSNum.fin (price c)) (lit 1.10)) 2).value).leNum
          ((toFixedNum (fmul (JSNum.fin (price c)) (lit 1.15)) 2).value) = true) := by
  have hstrict : 1 / 2 ^ 1021 ≤ price c → price c ≤ 2 ^ 1023 →
      (fmul (JSNum.fin (price c)) (lit 0.85)).ltNum
          (fmul (JSNum.fin (price c)) (lit 0.90)) = true ∧
      (fmul (JSNum.fin (price c)) (lit 0.90)).ltNum
          (fmul (JSNum.fin (price c)) (lit 0.92)) = true ∧
      (fmul (JSNum.fin (price c)) (lit 0.92)).ltNum
          (fmul (JSNum.fin (price c)) (lit 0.95)) = true ∧
      (fmul (JSNum.fin (price c)) (lit 0.95)).ltNum
          (JSNum.fin (price c)) = true ∧
      (JSNum.fin (price c)).ltNum
          (fmul (JSNum.fin (price c)) (lit 1.05)) = true ∧
      (fmul (JSNum.fin (price c)) (lit 1.05)).ltNum
          (fmul (JSNum.fin (price c)) (lit 1.10)) = true ∧
      (fmul (JSNum.fin (price c)) (lit 1.10)).ltNum
          (fmul (JSNum.fin (price c)) (lit 1.15)) = true := by
    intro hp hp2
    rw [lit_0_85, lit_0_90, lit_0_92, lit_0_95, lit_1_05, lit_1_10, lit_1_15]
    refine ⟨?_, ?_, ?_, ?_, ?_, ?_, ?_⟩
    · exact level_ltNum hp hp2 (by norm_num) (by norm_num) (by norm_num)
    · exact level_ltNum hp hp2 (by norm_num) (by norm_num) (by norm_num)
    · exact level_ltNum hp hp2 (by norm_num) (by norm_num) (by norm_num)
    · exact level_ltNum_price hp hp2 hd (by norm_num) (by norm_num)
    · exact price_ltNum_level hp hp2 hd (by norm_num) (by norm_num)
    · exact level_ltNum hp hp2 (by norm_num) (by norm_num) (by norm_num)
    · exact level_ltNum hp hp2 (by norm_num) (by norm_num) (by norm_num)
  have hweak : (fmul (JSNum.fin (price c)) (lit 0.85)).leNum
          (fmul (JSNum.fin (price c)) (lit 0.90)) = true ∧
      (fmul (JSNum.fin (price c)) (lit 0.90)).leNum
          (fmul (JSNum.fin (price c)) (lit 0.92)) = true ∧
      (fmul (JSNum.fin (price c)) (lit 0.92)).leNum
          (fmul (JSNum.fin (price c)) (lit 0.95)) = true ∧
      (fmul (JSNum.fin (price c)) (lit 0.95)).leNum
          (JSNum.fin (price c)) = true ∧
      (JSNum.fin (price c)).leNum
          (fmul (JSNum.fin (price c)) (lit 1.05)) = true ∧
      (fmul (JSNum.fin (price c)) (lit 1.05)).leNum
          (fmul (JSNum.fin (price c)) (lit 1.10)) = true ∧
      (fmul (JSNum.fin (price c)) (lit 1.10)).leNum
          (fmul (JSNum.fin (price c)) (lit 1.15)) = true := by
    rw [lit_0_85, lit_0_90, lit_0_92, lit_0_95, lit_1_05, lit_1_10, lit_1_15]
    refine ⟨?_, ?_, ?_, ?_, ?_, ?_, ?_⟩
    · exact level_leNum h (by norm_num)
    · exact level_leNum h (by norm_num)
    · exact level_leNum h (by norm_num)
    · exact level_leNum_price h hd (by norm_num) (by norm_num)
    · exact price_leNum_level h hd (by norm_num)
    · exact level_leNum h (by norm_num)
    · exact level_leNum h (by norm_num)
  have hnn : ∀ k : ℚ, 0 < k →
      (JSNum.fin 0).leNum (fmul (JSNum.fin (price c)) (JSNum.fin k)) = true :=
    fun k hk => level_nonneg h hk
  have hpn : (JSNum.fin 0).leNum (JSNum.fin (price c)) = true := by
    simpa [JSNum.leNum, JSNum.ltNum, JSNum.lt] using h.le
  refine ⟨rfl, rfl, rfl, rfl, rfl, rfl, hweak, hstrict, ?_⟩
  obtain ⟨w1, w2, w3, w4, w5, w6, w7⟩ := hweak
  simp only [lit_0_85, lit_0_90, lit_0_92, lit_0_95, lit_1_05, lit_1_10, lit_1_15]
    at w1 w2 w3 w4 w5 w6 w7 ⊢
  refine ⟨?_, ?_, ?_, ?_, ?_, ?_, ?_⟩
  · exact toFixedNum_value_leNum 2 (hnn _ (by norm_num)) w1
  · exact toFixedNum_value_leNum 2 (hnn _ (by norm_num)) w2
  · exact toFixedNum_value_leNum 2 (hnn _ (by norm_num)) w3
  · exact toFixedNum_value_leNum 2 (hnn _ (by norm_num)) w4
  · exact toFixedNum_value_leNum 2 hpn w5
  · exact toFixedNum_value_leNum 2 (hnn _ (by norm_num)) w6
  · exact toFixedNum_value_leNum 2 (hnn _ (by norm_num)) w7

/-- C15, at a snapshot priced 100: the price is a positive double in [2^-1021, 2^1023], so
the unrounded levels and the price are in strict order. -/
theorem price_levels_ordered_witness :
    price risingCoin > 0 ∧ IsDouble (price risingCoin) ∧
    ((fmul (JSNum.fin (price risingCoin)) (lit 0.85)).ltNum
          (fmul (JSNum.fin (price risingCoin)) (lit 0.90)) = true ∧
      (fmul (JSNum.fin (price risingCoin)) (lit 0.90)).ltNum
          (fmul (JSNum.fin (price risingCoin)) (lit 0.92)) = true ∧
      (fmul (JSNum.fin (price risingCoin)) (lit 0.92)).ltNum
          (fmul (JSNum.fin (price risingCoin)) (lit 0.95)) = true ∧
      (fmul (JSNum.fin (price risingCoin)) (lit 0.95)).ltNum
          (JSNum.fin (price risingCoin)) = true ∧
      (JSNum.fin (price risingCoin)).ltNum
          (fmul (JSNum.fin (price risingCoin)) (lit 1.05)) = true ∧
      (fmul (JSNum.fin (price risingCoin)) (lit 1.05)).ltNum
          (fmul (JSNum.fin (price risingCoin)) (lit 1.10)) = true ∧
      (fmul (JSNum.fin (price risingCoin)) (lit 1.10)).ltNum
          (fmul (JSNum.fin (price risingCoin)) (lit 1.15)) = true) := by
  have hp : price risingCoin = 100 := by
    norm_num [price, jsOrNum, jsOr, risingCoin]
  have hpos : price risingCoin > 0 := by
    rw [hp]
    norm_num
  have hd : IsDouble (price risingCoin) := by
    rw [hp]
    unfold IsDouble
    rw [round64_eq_fin (q := 100) (e := 6) (n := 7036874417766400) (by norm_num) (by norm_num) (by norm_num) (by norm_num) (by norm_num) (by norm_num [abs_lt])]
    norm_num
  have hs : (1 : ℚ) / 2 ^ 1021 ≤ 1 := by
    rw [div_le_one (by positivity)]
    exact one_le_pow₀ (by norm_num)
  have h1 : 1 / 2 ^ 1021 ≤ price risingCoin := by
    rw [hp]
    linarith only [hs]
  have h2 : price risingCoin ≤ 2 ^ 1023 := by
    rw [hp]
    have h3 : (2 : ℚ) ^ 7 ≤ 2 ^ 1023 := pow_le_pow_right₀ (by norm_num) (by norm_num)
    linarith only [h3]
  exact ⟨hpos, hd, (price_levels_ordered risingCoin hpos hd).2.2.2.2.2.2.2.1 h1 h2⟩

/-- C15 as stated fails at the two ends of the range of doubles.  At a price of 2^-1074,
the smallest positive double, price * 0.85 and price * 0.90 both round to the price itself,
so the third support level is not below the second.  At a price of the largest finite double
price * 1.05 and price * 1.10 both overflow to the infinity, so the first resistance level is
not below the second. -/
theorem price_levels_not_strictly_ordered :
    (price tinyCoin > 0 ∧ IsDouble (price tinyCoin) ∧
      fmul (JSNum.fin (price tinyCoin)) (lit 0.85) = JSNum.fin (price tinyCoin) ∧
      fmul (JSNum.fin (price tinyCoin)) (lit 0.90) = JSNum.fin (price tinyCoin) ∧
      (fmul (JSNum.fin (price tinyCoin)) (lit 0.85)).ltNum
        (fmul (JSNum.fin (price tinyCoin)) (lit 0.90)) = false) ∧
    (price hugeCoin > 0 ∧ IsDouble (price hugeCoin) ∧
      fmul (JSNum.fin (price hugeCoin)) (lit 1.05) = JSNum.posInf ∧
      fmul (JSNum.fin (price hugeCoin)) (lit 1.10) = JSNum.posInf ∧
      (fmul (JSNum.fin (price hugeCoin)) (lit 1.05)).ltNum
        (fmul (JSNum.fin (price hugeCoin)) (lit 1.10)) = false) := by
  have hp : price tinyCoin = (1 / 2 ^ 1074) := by
    norm_num [price, jsOrNum, jsOr, tinyCoin]
  have hd : IsDouble (price tinyCoin) := by
    rw [hp]
    unfold IsDouble
    rw [round64_eq_fin_subnormal (q := (1 / 2 ^ 1074)) (n := 1) (by norm_num) (by norm_num) (by norm_num [abs_lt]) (by norm_num)]
    norm_num
  have e1 : fmul (JSNum.fin (1 / 2 ^ 1074)) (JSNum.fin
      (7656119366529843 / 9007199254740992)) = JSNum.fin (1 / 2 ^ 1074) := by
    rw [fmul_fin_fin_of_ne (by norm_num),
      round64_eq_fin_subnormal (q := (1 / 2 ^ 1074) * (7656119366529843 / 9007199254740992))
      (n := 1) (by norm_num) (by norm_num) (by norm_num [abs_lt]) (by norm_num)]
    norm_num
  have e2 : fmul (JSNum.fin (1 / 2 ^ 1074)) (JSNum.fin
      (8106479329266893 / 9007199254740992)) = JSNum.fin (1 / 2 ^ 1074) := by
    rw [fmul_fin_fin_of_ne (by norm_num),
      round64_eq_fin_subnormal (q := (1 / 2 ^ 1074) * (8106479329266893 / 9007199254740992))
      (n := 1) (by norm_num) (by norm_num) (by norm_num [abs_lt]) (by norm_num)]
    norm_num
  have h1 : fmul (JSNum.fin (price tinyCoin)) (lit 0.85) = JSNum.fin (price tinyCoin) := by
    rw [hp, lit_0_85, e1]
  have h2 : fmul (JSNum.fin (price tinyCoin)) (lit 0.90) = JSNum.fin (price tinyCoin) := by
    rw [hp, lit_0_90, e2]
  obtain ⟨hph, hdh, g1, g2, -⟩ := levels_hugeCoin
  refine ⟨⟨by rw [hp]; norm_num, hd, h1, h2, ?_⟩, ⟨by rw [hph]; norm_num, hdh, g1, g2, ?_⟩⟩
  · rw [h1, h2]
    simp [JSNum.ltNum, JSNum.lt]
  · rw [g1, g2]
    rfl
end CryptoAnalyst
